import Mathlib

/-!
# Virtual USB host controller: transfer scheduling (uspace/drv/vhc/transfer.c)

A shallow embedding of `transfer.c`.  Intrusive lists become Lean lists in
queue order, the mutable registry and devices become values passed in and
out, and every call that leaves the file (mutex operations, executor
operations, completion callbacks, `free`, warnings, sleeps) is recorded as
an `Event` in the order the C code issues it.  `usb_log_debug2` lines are
not recorded.  A run that would dereference or call a NULL pointer yields
`none`.
-/

namespace Vhc

/-- Modelled from the spec: the result codes of `errno.h`, which is not among
the sources.  The four codes `transfer.c` names are kept symbolic and
pairwise distinct; `other` stands for every further code an executor may
return. -/
inductive errno_t where
  | EOK
  | ENOENT
  | ENAK
  | ESTALL
  | other (code : Int)
deriving DecidableEq, Repr

/-- Modelled from the spec: `usb_direction_t` of `usb/usb.h`, which is not
among the sources ("direction: IN or OUT"). -/
inductive usb_direction_t where
  | USB_DIRECTION_IN
  | USB_DIRECTION_OUT
deriving DecidableEq, Repr

/-- Modelled from the spec: `usb_transfer_type_t` of `usb/usb.h`, which is not
among the sources ("CONTROL or one of the non-control types
(bulk/interrupt/isochronous)"). -/
inductive usb_transfer_type_t where
  | USB_TRANSFER_CONTROL
  | USB_TRANSFER_ISOCHRONOUS
  | USB_TRANSFER_BULK
  | USB_TRANSFER_INTERRUPT
deriving DecidableEq, Repr

/-- Modelled from the spec: `usb_device_request_setup_packet_t` of
`usb/request.h`, which is not among the sources; the fields `transfer.c`
reads are `request_type`, `request` and `value`. -/
structure usb_device_request_setup_packet_t where
  request_type : Nat
  request : Nat
  value : Nat
  index : Nat
  length : Nat
deriving DecidableEq, Repr

/-- Modelled from the spec: `sizeof(usb_device_request_setup_packet_t)`, "the
fixed standard-setup-packet size"; the struct is declared in a header that is
not among the sources.  Proofs use it only through this name. -/
def sizeof_setup_packet : Nat := 8

/-- Modelled from the spec: the request code `USB_DEVREQ_SET_ADDRESS` of
`usb/request.h`, which is not among the sources.  Proofs use it only through
this name. -/
def USB_DEVREQ_SET_ADDRESS : Nat := 5

/-- Modelled from the spec: `link_t` of `adt/list.h`, which is not among the
sources.  `link_initialize` leaves both pointers NULL (the link is in no
list).  The order of a queue is carried by the Lean list that holds it, so
the pointers a list operation would write into a link are not tracked. -/
structure link_t where
  prev : Option Nat
  next : Option Nat
deriving DecidableEq, Repr

/-- Modelled from the spec: `link_initialize` of `adt/list.h`, which is not
among the sources: a link that is in no list. -/
def link_initialize : link_t := { prev := none, next := none }

/-- The fields of `vhc_transfer_t` (declared in `vhcd.h`) that `transfer.c`
uses.  Pointers are `Option`s (`none` is NULL) or opaque numbers. -/
structure vhc_transfer_t where
  link : link_t
  address : Int
  endpoint : Int
  direction : usb_direction_t
  transfer_type : usb_transfer_type_t
  setup_buffer : Option usb_device_request_setup_packet_t
  setup_buffer_size : Nat
  data_buffer : Option (List Nat)
  data_buffer_size : Nat
  ddf_fun : Nat
  callback_arg : Nat
  callback_in : Option Nat
  callback_out : Option Nat
deriving DecidableEq, Repr

/-- The fields of `vhc_virtdev_t` (declared in `vhcd.h`) that `transfer.c`
uses.  `guard` names the device mutex, `dev_local` is `none` for NULL. -/
structure vhc_virtdev_t where
  guard : Nat
  address : Int
  plugged : Bool
  dev_phone : Int
  dev_local : Option Nat
  transfer_queue : List vhc_transfer_t
deriving DecidableEq, Repr

/-- The fields of `vhc_data_t` (declared in `vhcd.h`) that `transfer.c` uses:
the registry guard and the device list in list order. -/
structure vhc_data_t where
  guard : Nat
  devices : List vhc_virtdev_t
deriving DecidableEq, Repr

/-- The two warnings `transfer.c` logs. -/
inductive warning_t where
  | more_devices
  | no_phone_nor_local
deriving DecidableEq, Repr

/-- Calls that leave `transfer.c`, with their arguments. -/
inductive Event where
  | fibril_mutex_lock (guard : Nat)
  | fibril_mutex_unlock (guard : Nat)
  | usb_log_warning (w : warning_t)
  | async_usleep (usec : Nat)
  | usbvirt_control_read (dev : Nat) (setup : Option usb_device_request_setup_packet_t)
      (setup_size : Nat) (data : Option (List Nat)) (data_size : Nat)
  | usbvirt_control_write (dev : Nat) (setup : Option usb_device_request_setup_packet_t)
      (setup_size : Nat) (data : Option (List Nat)) (data_size : Nat)
  | usbvirt_data_in (dev : Nat) (tr_type : usb_transfer_type_t) (endpoint : Int)
      (data : Option (List Nat)) (data_size : Nat)
  | usbvirt_data_out (dev : Nat) (tr_type : usb_transfer_type_t) (endpoint : Int)
      (data : Option (List Nat)) (data_size : Nat)
  | usbvirt_ipc_send_control_read (phone : Int)
      (setup : Option usb_device_request_setup_packet_t)
      (setup_size : Nat) (data : Option (List Nat)) (data_size : Nat)
  | usbvirt_ipc_send_control_write (phone : Int)
      (setup : Option usb_device_request_setup_packet_t)
      (setup_size : Nat) (data : Option (List Nat)) (data_size : Nat)
  | usbvirt_ipc_send_data_in (phone : Int) (endpoint : Int) (tr_type : usb_transfer_type_t)
      (data : Option (List Nat)) (data_size : Nat)
  | usbvirt_ipc_send_data_out (phone : Int) (endpoint : Int) (tr_type : usb_transfer_type_t)
      (data : Option (List Nat)) (data_size : Nat)
  | callback_in (cb : Nat) (ddf_fun : Nat) (rc : errno_t) (actual_size : Nat)
      (callback_arg : Nat)
  | callback_out (cb : Nat) (ddf_fun : Nat) (rc : errno_t) (callback_arg : Nat)
  | free (transfer : vhc_transfer_t)
deriving DecidableEq, Repr

/-- The executor operations of `usbvirt/device.h` and `usbvirt/ipc.h`, which
are outside `transfer.c`: each maps its arguments to the result code it
returns and, for the IN operations, the value it leaves in
`*actual_data_size`. -/
structure usbvirt_ops where
  usbvirt_control_read : Nat → Option usb_device_request_setup_packet_t → Nat →
    Option (List Nat) → Nat → errno_t × Nat
  usbvirt_control_write : Nat → Option usb_device_request_setup_packet_t → Nat →
    Option (List Nat) → Nat → errno_t
  usbvirt_data_in : Nat → usb_transfer_type_t → Int → Option (List Nat) → Nat → errno_t × Nat
  usbvirt_data_out : Nat → usb_transfer_type_t → Int → Option (List Nat) → Nat → errno_t
  usbvirt_ipc_send_control_read : Int → Option usb_device_request_setup_packet_t → Nat →
    Option (List Nat) → Nat → errno_t × Nat
  usbvirt_ipc_send_control_write : Int → Option usb_device_request_setup_packet_t → Nat →
    Option (List Nat) → Nat → errno_t
  usbvirt_ipc_send_data_in : Int → Int → usb_transfer_type_t → Option (List Nat) → Nat →
    errno_t × Nat
  usbvirt_ipc_send_data_out : Int → Int → usb_transfer_type_t → Option (List Nat) → Nat →
    errno_t

open errno_t usb_direction_t usb_transfer_type_t

/-- Modelled from the spec: `list_append` of `adt/list.h`, which is not among
the sources: the item becomes the last element of the list. -/
def list_append (item : vhc_transfer_t) (list : List vhc_transfer_t) : List vhc_transfer_t :=
  list ++ [item]

/-- `vhc_transfer_create` (transfer.c 11-38).  `malloc_ok` says whether
`malloc` returned a non-NULL block; `none` is the NULL result. -/
def vhc_transfer_create (malloc_ok : Bool) (address : Int) (ep : Int)
    (dir : usb_direction_t) (tr_type : usb_transfer_type_t)
    (ddf_fun : Nat) (callback_arg : Nat) : Option vhc_transfer_t :=
  if malloc_ok = false then
    none
  else
    some
      { link := link_initialize
        address := address
        endpoint := ep
        direction := dir
        transfer_type := tr_type
        setup_buffer := none
        setup_buffer_size := 0
        data_buffer := none
        data_buffer_size := 0
        ddf_fun := ddf_fun
        callback_arg := callback_arg
        callback_in := none
        callback_out := none }

/-- `is_set_address_transfer` (transfer.c 40-63).  The result is `none` when
the function would read the setup packet through a NULL `setup_buffer`. -/
def is_set_address_transfer (transfer : vhc_transfer_t) : Option Bool :=
  if transfer.endpoint ≠ 0 then
    some false
  else if transfer.transfer_type ≠ USB_TRANSFER_CONTROL then
    some false
  else if transfer.direction ≠ USB_DIRECTION_OUT then
    some false
  else if transfer.setup_buffer_size ≠ sizeof_setup_packet then
    some false
  else
    match transfer.setup_buffer with
    | none => none
    | some setup =>
      if setup.request_type ≠ 0 then
        some false
      else if setup.request ≠ USB_DEVREQ_SET_ADDRESS then
        some false
      else
        some true

/-- The `list_foreach` loop of `vhc_virtdev_add_transfer` (transfer.c 71-84)
from the device at the head of `devices` on, entered with the current value of
`target_found`.  Returns the devices after the loop, the final
`target_found` and the calls made. -/
def add_transfer_loop (transfer : vhc_transfer_t) :
    List vhc_virtdev_t → Bool → List vhc_virtdev_t × Bool × List Event
  | [], target_found => ([], target_found, [])
  | dev :: rest, target_found =>
    if dev.address = transfer.address then
      if target_found then
        let r := add_transfer_loop transfer rest target_found
        (dev :: r.1, r.2.1,
          [Event.fibril_mutex_lock dev.guard, Event.usb_log_warning warning_t.more_devices,
            Event.fibril_mutex_unlock dev.guard] ++ r.2.2)
      else
        let r := add_transfer_loop transfer rest true
        ({ dev with transfer_queue := list_append transfer dev.transfer_queue } :: r.1, r.2.1,
          [Event.fibril_mutex_lock dev.guard, Event.fibril_mutex_unlock dev.guard] ++ r.2.2)
    else
      let r := add_transfer_loop transfer rest target_found
      (dev :: r.1, r.2.1,
        [Event.fibril_mutex_lock dev.guard, Event.fibril_mutex_unlock dev.guard] ++ r.2.2)

/-- What `vhc_virtdev_add_transfer` leaves behind: its return value, the
registry after the call and the calls it made. -/
structure add_transfer_result where
  rc : errno_t
  vhc : vhc_data_t
  trace : List Event

/-- `vhc_virtdev_add_transfer` (transfer.c 65-93). -/
def vhc_virtdev_add_transfer (vhc : vhc_data_t) (transfer : vhc_transfer_t) :
    add_transfer_result :=
  let r := add_transfer_loop transfer vhc.devices false
  { rc := if r.2.1 then EOK else ENOENT
    vhc := { vhc with devices := r.1 }
    trace := [Event.fibril_mutex_lock vhc.guard] ++ r.2.2 ++
      [Event.fibril_mutex_unlock vhc.guard] }

/-- What an executor call leaves behind: the result code, the value of
`*actual_data_size` afterwards and the calls made. -/
structure exec_result where
  rc : errno_t
  actual_size : Nat
  trace : List Event

/-- `process_transfer_local` (transfer.c 95-127).  `actual_data_size` is the
value behind the pointer on entry; the OUT operations do not receive the
pointer. -/
def process_transfer_local (ops : usbvirt_ops) (transfer : vhc_transfer_t) (dev : Nat)
    (actual_data_size : Nat) : exec_result :=
  if transfer.transfer_type = USB_TRANSFER_CONTROL then
    if transfer.direction = USB_DIRECTION_IN then
      let r := ops.usbvirt_control_read dev transfer.setup_buffer transfer.setup_buffer_size
        transfer.data_buffer transfer.data_buffer_size
      { rc := r.1, actual_size := r.2,
        trace := [Event.usbvirt_control_read dev transfer.setup_buffer
          transfer.setup_buffer_size transfer.data_buffer transfer.data_buffer_size] }
    else
      { rc := ops.usbvirt_control_write dev transfer.setup_buffer transfer.setup_buffer_size
          transfer.data_buffer transfer.data_buffer_size,
        actual_size := actual_data_size,
        trace := [Event.usbvirt_control_write dev transfer.setup_buffer
          transfer.setup_buffer_size transfer.data_buffer transfer.data_buffer_size] }
  else
    if transfer.direction = USB_DIRECTION_IN then
      let r := ops.usbvirt_data_in dev transfer.transfer_type transfer.endpoint
        transfer.data_buffer transfer.data_buffer_size
      { rc := r.1, actual_size := r.2,
        trace := [Event.usbvirt_data_in dev transfer.transfer_type transfer.endpoint
          transfer.data_buffer transfer.data_buffer_size] }
    else
      { rc := ops.usbvirt_data_out dev transfer.transfer_type transfer.endpoint
          transfer.data_buffer transfer.data_buffer_size,
        actual_size := actual_data_size,
        trace := [Event.usbvirt_data_out dev transfer.transfer_type transfer.endpoint
          transfer.data_buffer transfer.data_buffer_size] }

/-- `process_transfer_remote` (transfer.c 129-161). -/
def process_transfer_remote (ops : usbvirt_ops) (transfer : vhc_transfer_t) (phone : Int)
    (actual_data_size : Nat) : exec_result :=
  if transfer.transfer_type = USB_TRANSFER_CONTROL then
    if transfer.direction = USB_DIRECTION_IN then
      let r := ops.usbvirt_ipc_send_control_read phone transfer.setup_buffer
        transfer.setup_buffer_size transfer.data_buffer transfer.data_buffer_size
      { rc := r.1, actual_size := r.2,
        trace := [Event.usbvirt_ipc_send_control_read phone transfer.setup_buffer
          transfer.setup_buffer_size transfer.data_buffer transfer.data_buffer_size] }
    else
      { rc := ops.usbvirt_ipc_send_control_write phone transfer.setup_buffer
          transfer.setup_buffer_size transfer.data_buffer transfer.data_buffer_size,
        actual_size := actual_data_size,
        trace := [Event.usbvirt_ipc_send_control_write phone transfer.setup_buffer
          transfer.setup_buffer_size transfer.data_buffer transfer.data_buffer_size] }
  else
    if transfer.direction = USB_DIRECTION_IN then
      let r := ops.usbvirt_ipc_send_data_in phone transfer.endpoint transfer.transfer_type
        transfer.data_buffer transfer.data_buffer_size
      { rc := r.1, actual_size := r.2,
        trace := [Event.usbvirt_ipc_send_data_in phone transfer.endpoint
          transfer.transfer_type transfer.data_buffer transfer.data_buffer_size] }
    else
      { rc := ops.usbvirt_ipc_send_data_out phone transfer.endpoint transfer.transfer_type
          transfer.data_buffer transfer.data_buffer_size,
        actual_size := actual_data_size,
        trace := [Event.usbvirt_ipc_send_data_out phone transfer.endpoint
          transfer.transfer_type transfer.data_buffer transfer.data_buffer_size] }

/-- The executor dispatch of the queue processor (transfer.c 181-192), with
`rc = EOK` and `data_transfer_size = 0` on entry. -/
def processor_execute (ops : usbvirt_ops) (dev : vhc_virtdev_t) (transfer : vhc_transfer_t) :
    exec_result :=
  if dev.dev_phone > 0 then
    process_transfer_remote ops transfer dev.dev_phone 0
  else
    match dev.dev_local with
    | some dev_local => process_transfer_local ops transfer dev_local 0
    | none =>
      { rc := ESTALL, actual_size := 0,
        trace := [Event.usb_log_warning warning_t.no_phone_nor_local] }

/-- The address update of the queue processor (transfer.c 198-206); `none`
when the setup packet would be read through a NULL pointer. -/
def processor_set_address (dev : vhc_virtdev_t) (transfer : vhc_transfer_t) (rc : errno_t) :
    Option vhc_virtdev_t :=
  if rc = EOK then
    match is_set_address_transfer transfer with
    | none => none
    | some false => some dev
    | some true =>
      match transfer.setup_buffer with
      | none => none
      | some setup => some { dev with address := (setup.value : Int) }
  else
    some dev

/-- The NAK branch of the queue processor (transfer.c 207-212). -/
def processor_requeue (dev : vhc_virtdev_t) (transfer : vhc_transfer_t) (rc : errno_t) :
    vhc_virtdev_t :=
  if rc = ENAK then
    { dev with transfer_queue := list_append transfer dev.transfer_queue }
  else
    dev

/-- The completion of the queue processor (transfer.c 215-227): the calls
made, or `none` when the callback slot that is called holds NULL. -/
def processor_complete (transfer : vhc_transfer_t) (rc : errno_t) (data_transfer_size : Nat) :
    Option (List Event) :=
  if rc ≠ ENAK then
    if transfer.direction = USB_DIRECTION_IN then
      match transfer.callback_in with
      | none => none
      | some cb =>
        some [Event.callback_in cb transfer.ddf_fun rc data_transfer_size transfer.callback_arg,
          Event.free transfer]
    else
      match transfer.callback_out with
      | none => none
      | some cb =>
        some [Event.callback_out cb transfer.ddf_fun rc transfer.callback_arg,
          Event.free transfer]
  else
    some []

/-- What one pass of the processor loop leaves behind: the device and the
calls made. -/
structure processor_result where
  dev : vhc_virtdev_t
  trace : List Event

/-- One pass through the body of the `while (dev->plugged)` loop of
`vhc_transfer_queue_processor` (transfer.c 169-230), entered and left with the
device guard held.  `submitted` lists the transfers that
`vhc_virtdev_add_transfer`, running in other fibrils, appends to this
device's queue while the guard is released for the executor call
(transfer.c 179-197).  `none` is a pass that ends in a NULL access. -/
def vhc_transfer_queue_processor_pass (ops : usbvirt_ops) (submitted : List vhc_transfer_t)
    (dev : vhc_virtdev_t) : Option processor_result :=
  match dev.transfer_queue with
  | [] =>
    some
      { dev := dev
        trace := [Event.fibril_mutex_unlock dev.guard, Event.async_usleep (10 * 1000),
          Event.fibril_mutex_lock dev.guard] }
  | transfer :: rest =>
    let dev1 := { dev with transfer_queue := rest ++ submitted }
    let ex := processor_execute ops dev1 transfer
    match processor_set_address dev1 transfer ex.rc with
    | none => none
    | some dev2 =>
      let dev3 := processor_requeue dev2 transfer ex.rc
      match processor_complete transfer ex.rc ex.actual_size with
      | none => none
      | some done =>
        some
          { dev := dev3
            trace := [Event.fibril_mutex_unlock dev.guard] ++ ex.trace ++
              [Event.fibril_mutex_lock dev.guard, Event.fibril_mutex_unlock dev.guard] ++
              done ++ [Event.async_usleep (1000 * 100), Event.fibril_mutex_lock dev.guard] }

/-- What the other fibrils do to the device during one pass of the processor
loop, at the places where the pass has released the device guard. -/
structure pass_env where
  /-- How the executor operations answer during the pass. -/
  ops : usbvirt_ops
  /-- Transfers appended to the queue during the executor call. -/
  submitted : List vhc_transfer_t
  /-- Transfers appended to the queue during the callback or a sleep. -/
  arrived : List vhc_transfer_t
  /-- Whether `plugged` is cleared before the loop tests it again. -/
  unplug : Bool

/-- What a run of the processor leaves behind: the return value (`none` while
the loop is still running when the described passes are used up), the device
and the calls made. -/
structure processor_run where
  rc : Option errno_t
  dev : vhc_virtdev_t
  trace : List Event

/-- The `while (dev->plugged)` loop of `vhc_transfer_queue_processor`
(transfer.c 168-233), one element of the list for each pass, followed by the
final unlock and `return EOK`. -/
def processor_loop : List pass_env → vhc_virtdev_t → Option processor_run
  | [], dev =>
    if dev.plugged then
      some { rc := none, dev := dev, trace := [] }
    else
      some { rc := some EOK, dev := dev, trace := [Event.fibril_mutex_unlock dev.guard] }
  | env :: envs, dev =>
    if dev.plugged then
      match vhc_transfer_queue_processor_pass env.ops env.submitted dev with
      | none => none
      | some r =>
        let dev' :=
          { r.dev with
            transfer_queue := r.dev.transfer_queue ++ env.arrived
            plugged := r.dev.plugged && !env.unplug }
        match processor_loop envs dev' with
        | none => none
        | some run => some { run with trace := r.trace ++ run.trace }
    else
      some { rc := some EOK, dev := dev, trace := [Event.fibril_mutex_unlock dev.guard] }

/-- `vhc_transfer_queue_processor` (transfer.c 164-238). -/
def vhc_transfer_queue_processor (envs : List pass_env) (dev : vhc_virtdev_t) :
    Option processor_run :=
  match processor_loop envs dev with
  | none => none
  | some run => some { run with trace := Event.fibril_mutex_lock dev.guard :: run.trace }

/-- One pass of the processor fibril that serves the device at position `i`
of the registry: the fibril holds a pointer to that device only, so the pass
replaces that device and no other.  `none` when there is no such device or
the pass ends in a NULL access. -/
def processor_pass_at (ops : usbvirt_ops) (submitted : List vhc_transfer_t)
    (vhc : vhc_data_t) (i : Nat) : Option (vhc_data_t × List Event) :=
  match vhc.devices[i]? with
  | none => none
  | some dev =>
    match vhc_transfer_queue_processor_pass ops submitted dev with
    | none => none
    | some r => some ({ vhc with devices := vhc.devices.set i r.dev }, r.trace)

/-- Successive submissions: `vhc_virtdev_add_transfer` called once for each
transfer of the list, in list order, with nothing else touching the registry
in between.  Returns the return values in call order and the final
registry. -/
def submit_all : vhc_data_t → List vhc_transfer_t → List errno_t × vhc_data_t
  | vhc, [] => ([], vhc)
  | vhc, t :: ts =>
    let r := vhc_virtdev_add_transfer vhc t
    let rs := submit_all r.vhc ts
    (r.rc :: rs.1, rs.2)

/-- Sum of the queue lengths of all devices of a registry. -/
def total_queued (vhc : vhc_data_t) : Nat :=
  (vhc.devices.map fun d => d.transfer_queue.length).sum

/-- Whether an event is a call of a completion callback. -/
def Event.is_callback : Event → Bool
  | Event.callback_in _ _ _ _ _ => true
  | Event.callback_out _ _ _ _ => true
  | _ => false

/-- Whether an event is a call of `free`. -/
def Event.is_free : Event → Bool
  | Event.free _ => true
  | _ => false

/-- The result code passed to a completion callback, if the event is one. -/
def Event.callback_rc : Event → Option errno_t
  | Event.callback_in _ _ rc _ _ => some rc
  | Event.callback_out _ _ rc _ => some rc
  | _ => none

/-- The caller's side of the submission contract ("buffers and callbacks are
attached by the caller before submission"), as far as the queue processor
relies on it: a transfer whose setup size is that of a setup packet has a
setup buffer, and the callback slot for the transfer's direction is bound. -/
def transfer_attached (t : vhc_transfer_t) : Bool :=
  (decide (t.setup_buffer_size ≠ sizeof_setup_packet) || t.setup_buffer.isSome) &&
    (match t.direction with
      | USB_DIRECTION_IN => t.callback_in.isSome
      | USB_DIRECTION_OUT => t.callback_out.isSome)

end Vhc

/-!
# Menu navigation (uspace/lib/ui/src/menu.c)

`ui_menu_up` and `ui_menu_down`.  The entries of a menu form an intrusive list;
an entry pointer becomes the position of the entry in that list and a NULL
pointer becomes `none`.
-/

namespace UiMenu

/-- Modelled from the spec: `ui_menu_entry_t` of `private/menuentry.h`, which
is not among the sources; of an entry only what `ui_menu_entry_selectable`
answers for it is kept. -/
structure ui_menu_entry_t where
  selectable : Bool
deriving DecidableEq, Repr

/-- The fields of `ui_menu_t` (declared in `private/menu.h`) that `ui_menu_up`
and `ui_menu_down` use: the entry list and the selected entry (`none` is
NULL). -/
structure ui_menu_t where
  entries : List ui_menu_entry_t
  selected : Option Nat
deriving DecidableEq, Repr

/-- Modelled from the spec: `ui_menu_entry_first` of `menuentry.c`, which is
not among the sources: the first entry of the menu, NULL when there is
none. -/
def ui_menu_entry_first (menu : ui_menu_t) : Option Nat :=
  if menu.entries.length = 0 then none else some 0

/-- Modelled from the spec: `ui_menu_entry_last` of `menuentry.c`, which is not
among the sources: the last entry of the menu, NULL when there is none. -/
def ui_menu_entry_last (menu : ui_menu_t) : Option Nat :=
  if menu.entries.length = 0 then none else some (menu.entries.length - 1)

/-- Modelled from the spec: `ui_menu_entry_next` of `menuentry.c`, which is not
among the sources: the entry after this one, NULL after the last. -/
def ui_menu_entry_next (menu : ui_menu_t) (cur : Nat) : Option Nat :=
  if cur + 1 < menu.entries.length then some (cur + 1) else none

/-- Modelled from the spec: `ui_menu_entry_prev` of `menuentry.c`, which is not
among the sources: the entry before this one, NULL before the first. -/
def ui_menu_entry_prev (_menu : ui_menu_t) (cur : Nat) : Option Nat :=
  if cur = 0 then none else some (cur - 1)

/-- Modelled from the spec: `ui_menu_entry_selectable` of `menuentry.c`, which
is not among the sources; `none` when the pointer is NULL or is no entry of
the menu. -/
def ui_menu_entry_selectable (menu : ui_menu_t) (mentry : Option Nat) : Option Bool :=
  match mentry with
  | none => none
  | some i => (menu.entries[i]?).map fun e => e.selectable

/-- The step backwards that `ui_menu_up` makes twice (menu.c 527-529 and
533-535): the previous entry, and the last entry of the menu when there is no
previous one. -/
def ui_menu_up_step (menu : ui_menu_t) (cur : Nat) : Option Nat :=
  match ui_menu_entry_prev menu cur with
  | none => ui_menu_entry_last menu
  | some prev => some prev

/-- The `while` loop of `ui_menu_up` (menu.c 532-540) entered with `nentry`,
`selected` being the entry selected on entry to `ui_menu_up`.  The result is
`some (some n)` when the loop ends with the selectable entry `n`,
`some none` when it returns from the function having come around to the
selected entry, and `none` when it reads through a bad pointer or the steps
allowed run out. -/
def ui_menu_up_loop (menu : ui_menu_t) (selected : Nat) :
    Nat → Option Nat → Option (Option Nat)
  | 0, _ => none
  | fuel + 1, nentry =>
    match ui_menu_entry_selectable menu nentry, nentry with
    | some true, some n => some (some n)
    | some false, some n =>
      if ui_menu_up_step menu n = some selected then some none
      else ui_menu_up_loop menu selected fuel (ui_menu_up_step menu n)
    | _, _ => none

/-- `ui_menu_up` (menu.c 519-547): the menu afterwards and whether
`ui_menu_paint` was called; `none` when it reads through a bad pointer.  The
loop is allowed one step more than the menu has entries. -/
def ui_menu_up (menu : ui_menu_t) : Option (ui_menu_t × Bool) :=
  match menu.selected with
  | none => some (menu, false)
  | some selected =>
    match ui_menu_up_loop menu selected (menu.entries.length + 1)
        (ui_menu_up_step menu selected) with
    | none => none
    | some none => some (menu, false)
    | some (some n) => some ({ menu with selected := some n }, true)

/-- The step forwards that `ui_menu_down` makes twice (menu.c 564-566 and
570-572): the next entry, and the first entry of the menu when there is no
next one. -/
def ui_menu_down_step (menu : ui_menu_t) (cur : Nat) : Option Nat :=
  match ui_menu_entry_next menu cur with
  | none => ui_menu_entry_first menu
  | some next => some next

/-- The `while` loop of `ui_menu_down` (menu.c 569-577); results as for
`ui_menu_up_loop`. -/
def ui_menu_down_loop (menu : ui_menu_t) (selected : Nat) :
    Nat → Option Nat → Option (Option Nat)
  | 0, _ => none
  | fuel + 1, nentry =>
    match ui_menu_entry_selectable menu nentry, nentry with
    | some true, some n => some (some n)
    | some false, some n =>
      if ui_menu_down_step menu n = some selected then some none
      else ui_menu_down_loop menu selected fuel (ui_menu_down_step menu n)
    | _, _ => none

/-- `ui_menu_down` (menu.c 556-584); results as for `ui_menu_up`. -/
def ui_menu_down (menu : ui_menu_t) : Option (ui_menu_t × Bool) :=
  match menu.selected with
  | none => some (menu, false)
  | some selected =>
    match ui_menu_down_loop menu selected (menu.entries.length + 1)
        (ui_menu_down_step menu selected) with
    | none => none
    | some none => some (menu, false)
    | some (some n) => some ({ menu with selected := some n }, true)

/-- Whether the entry at a position exists and is selectable. -/
def selectable_at (menu : ui_menu_t) (i : Nat) : Bool :=
  match menu.entries[i]? with
  | some e => e.selectable
  | none => false

/-- The positions met when walking backwards from position `selected` in a
menu of `n` entries, wrapping from the first entry to the last and stopping
before `selected` is met again: `selected - 1, ..., 0, n - 1, ...,
selected + 1`. -/
def walk_up (n selected : Nat) : List Nat :=
  (List.range selected).reverse ++ (List.range' (selected + 1) (n - (selected + 1))).reverse

/-- The positions met when walking forwards from position `selected` in a
menu of `n` entries, wrapping from the last entry to the first and stopping
before `selected` is met again: `selected + 1, ..., n - 1, 0, ...,
selected - 1`. -/
def walk_down (n selected : Nat) : List Nat :=
  List.range' (selected + 1) (n - (selected + 1)) ++ List.range selected

/-- The selection after moving up, in words: the first selectable entry met on
the walk backwards, the old selection when there is none. -/
def spec_up_selection (menu : ui_menu_t) (selected : Nat) : Nat :=
  match (walk_up menu.entries.length selected).find? (selectable_at menu) with
  | some n => n
  | none => selected

/-- The selection after moving down, in words: the first selectable entry met
on the walk forwards, the old selection when there is none. -/
def spec_down_selection (menu : ui_menu_t) (selected : Nat) : Nat :=
  match (walk_down menu.entries.length selected).find? (selectable_at menu) with
  | some n => n
  | none => selected

/-- A menu of five entries, the second and the fifth not selectable, with the
first entry selected. -/
def sample_menu : ui_menu_t :=
  { entries := [⟨true⟩, ⟨false⟩, ⟨true⟩, ⟨true⟩, ⟨false⟩], selected := some 0 }

end UiMenu

/-!
# ia64 address space identifiers (arch/ia64/include/mm/asid.h)

The macros that map a kernel ASID and a virtual region number to an ia64
region identifier and back.  `asid_t` is an unsigned 16-bit integer, and for
such an ASID the C arithmetic stays below `2^31`, so the macros are plain
arithmetic on natural numbers; the division is the truncating C division.
-/

namespace Asid

/-- Number of ia64 RIDs per kernel ASID: `#define RIDS_PER_ASID 7`. -/
def RIDS_PER_ASID : Nat := 7

/-- Largest region identifier: `#define RID_MAX 262143`. -/
def RID_MAX : Nat := 262143

/-- The macro `ASID2RID(asid, vrn)`, `(((asid)*RIDS_PER_ASID)+(vrn))`. -/
def ASID2RID (asid vrn : Nat) : Nat := asid * RIDS_PER_ASID + vrn

/-- The macro `RID2ASID(rid)`, `((rid)/RIDS_PER_ASID)`. -/
def RID2ASID (rid : Nat) : Nat := rid / RIDS_PER_ASID

/-- The macro `ASID_MAX_ARCH`, `(RID_MAX/RIDS_PER_ASID)`. -/
def ASID_MAX_ARCH : Nat := RID_MAX / RIDS_PER_ASID

end Asid

/-!
# ext4 block and inode bitmaps (uspace/lib/ext4/libext4_bitmap.c)

A bitmap is the array of bytes behind the `uint8_t *bitmap` pointer, a list
whose position `p` holds the byte `bitmap[p]`.  Dereferencing a position
outside the array makes a function return `none`.  A byte promoted to `int`
is combined with 32-bit masks and stored back modulo `256`.
-/

namespace Ext4

/-- The return codes of this file, `EOK` and `ENOSPC` of `errno.h`. -/
inductive errno_t where
  | EOK
  | ENOSPC
  deriving DecidableEq, Repr

/-- C `~x` on a 32-bit `int`, as a bit pattern. -/
def int_not (x : Nat) : Nat := x ^^^ 0xFFFFFFFF

/-- `ext4_bitmap_free_bit`: `*target &= ~ (1 << bit_index)`. -/
def ext4_bitmap_free_bit (bitmap : List Nat) (index : Nat) : Option (List Nat) :=
  let byte_index := index / 8
  let bit_index := index % 8
  match bitmap[byte_index]? with
  | none => none
  | some target =>
    some (bitmap.set byte_index ((target &&& int_not (1 <<< bit_index)) % 256))

/-- `ext4_bitmap_set_bit`: `*target |= 1 << bit_index`. -/
def ext4_bitmap_set_bit (bitmap : List Nat) (index : Nat) : Option (List Nat) :=
  let byte_index := index / 8
  let bit_index := index % 8
  match bitmap[byte_index]? with
  | none => none
  | some target => some (bitmap.set byte_index ((target ||| 1 <<< bit_index) % 256))

/-- `ext4_bitmap_is_free_bit`: false when `*target & (1 << bit_index)` is
nonzero, true otherwise. -/
def ext4_bitmap_is_free_bit (bitmap : List Nat) (index : Nat) : Option Bool :=
  let byte_index := index / 8
  let bit_index := index % 8
  match bitmap[byte_index]? with
  | none => none
  | some target => some (if target &&& (1 <<< bit_index) ≠ 0 then false else true)

/-- What `ext4_bitmap_find_free_bit_and_set` leaves behind: its return value,
the value stored through `index` (none when nothing was stored) and the
bitmap. -/
structure find_result where
  rc : errno_t
  index : Option Nat
  bitmap : List Nat
  deriving DecidableEq, Repr

/-- The `while (pos < bitmap + size)` loop of
`ext4_bitmap_find_free_bit_and_set`: advance `pos` over the bytes equal to 255
and return where it stops.  Each iteration uses one unit of fuel. -/
def skip_full_bytes (bitmap : List Nat) (size : Nat) : Nat → Nat → Option Nat
  | 0, pos => if pos < size then none else some pos
  | fuel + 1, pos =>
    if pos < size then
      match bitmap[pos]? with
      | none => none
      | some value =>
        if value &&& 255 ≠ 255 then some pos
        else skip_full_bytes bitmap size fuel (pos + 1)
    else some pos

/-- The first `i` of `for (i = lo; i < 8; ++i)` with `(value & (1 << i)) == 0`. -/
def first_free_bit (value lo : Nat) : Option Nat :=
  (List.range' lo (8 - lo)).find? (fun i => value &&& (1 <<< i) = 0)

/-- One of the two `for` loops of `ext4_bitmap_find_free_bit_and_set` over the
bits of `*pos`, from bit `lo`: on the first clear bit it sets the bit, stores
`(pos - bitmap) * 8 + i` in the 32-bit `*index` and returns `EOK`; `some none`
when the loop ends without returning. -/
def find_in_byte_and_set (bitmap : List Nat) (pos lo : Nat) :
    Option (Option find_result) :=
  match bitmap[pos]? with
  | none => none
  | some value =>
    match first_free_bit value lo with
    | none => some none
    | some i =>
      some (some ⟨errno_t.EOK, some ((pos * 8 + i) % 2 ^ 32),
        bitmap.set pos ((value ||| 1 <<< i) % 256)⟩)

/-- The part of `ext4_bitmap_find_free_bit_and_set` after the check of the byte
containing `start`: `if (pos < bitmap + size)` a loop over all eight bits of
`*pos`, then `return ENOSPC`. -/
def find_from_bit_zero (bitmap : List Nat) (size pos : Nat) : Option find_result :=
  if pos < size then
    match find_in_byte_and_set bitmap pos 0 with
    | none => none
    | some (some r) => some r
    | some none => some ⟨errno_t.ENOSPC, none, bitmap⟩
  else some ⟨errno_t.ENOSPC, none, bitmap⟩

/-- `ext4_bitmap_find_free_bit_and_set (bitmap, start, index, size)`. -/
def ext4_bitmap_find_free_bit_and_set (bitmap : List Nat) (start size : Nat) :
    Option find_result :=
  match skip_full_bytes bitmap size size (start / 8) with
  | none => none
  | some pos =>
    if pos = start / 8 then
      match find_in_byte_and_set bitmap pos (start % 8) with
      | none => none
      | some (some r) => some r
      | some none => find_from_bit_zero bitmap size pos
    else find_from_bit_zero bitmap size pos

/-- A bitmap of `2^29` full bytes followed by one empty byte. -/
def long_full_bitmap : List Nat := List.replicate (2 ^ 29) 255 ++ [0]

end Ext4

/-!
# PC keyboard controller (uspace/srv/kbd/ctl/pc.c)

`kbd_ctl_parse_scancode` and its table `scanmap_simple`.  The events handed to
`kbd_push_ev` are the result of the function, in the order of the calls; a
read outside the table makes the function return `none`.  The numeric values
of the `KC_*` constants belong to `kbd/keycode.h`, which is not among the
sources, so they are a parameter `code`.
-/

namespace KbdPc

/-- The two event types of `kbd_ev_type_t` the function uses. -/
inductive kbd_ev_type_t where
  | KE_PRESS
  | KE_RELEASE
  deriving DecidableEq, Repr

/-- The `KC_*` constants named in `scanmap_simple`. -/
inductive keycode where
  | KC_BACKTICK
  | KC_1 | KC_2 | KC_3 | KC_4 | KC_5 | KC_6 | KC_7 | KC_8 | KC_9 | KC_0
  | KC_MINUS | KC_EQUALS | KC_BACKSPACE
  | KC_TAB
  | KC_Q | KC_W | KC_E | KC_R | KC_T | KC_Y | KC_U | KC_I | KC_O | KC_P
  | KC_LBRACKET | KC_RBRACKET
  | KC_CAPS_LOCK
  | KC_A | KC_S | KC_D | KC_F | KC_G | KC_H | KC_J | KC_K | KC_L
  | KC_SEMICOLON | KC_QUOTE | KC_BACKSLASH
  | KC_LSHIFT
  | KC_Z | KC_X | KC_C | KC_V | KC_B | KC_N | KC_M
  | KC_COMMA | KC_PERIOD | KC_SLASH
  | KC_RSHIFT
  | KC_LCTRL | KC_LALT | KC_SPACE
  | KC_ESCAPE
  | KC_F1 | KC_F2 | KC_F3 | KC_F4 | KC_F5 | KC_F6 | KC_F7
  | KC_F8 | KC_F9 | KC_F10
  | KC_F11 | KC_F12
  | KC_ENTER
  deriving DecidableEq, Repr

open keycode in
/-- The designated initializers of `scanmap_simple`, in source order. -/
def scanmap_initializers : List (Nat × keycode) :=
  [ (0x29, KC_BACKTICK),
    (0x02, KC_1), (0x03, KC_2), (0x04, KC_3), (0x05, KC_4), (0x06, KC_5),
    (0x07, KC_6), (0x08, KC_7), (0x09, KC_8), (0x0a, KC_9), (0x0b, KC_0),
    (0x0c, KC_MINUS), (0x0d, KC_EQUALS), (0x0e, KC_BACKSPACE),
    (0x0f, KC_TAB),
    (0x10, KC_Q), (0x11, KC_W), (0x12, KC_E), (0x13, KC_R), (0x14, KC_T),
    (0x15, KC_Y), (0x16, KC_U), (0x17, KC_I), (0x18, KC_O), (0x19, KC_P),
    (0x1a, KC_LBRACKET), (0x1b, KC_RBRACKET),
    (0x3a, KC_CAPS_LOCK),
    (0x1e, KC_A), (0x1f, KC_S), (0x20, KC_D), (0x21, KC_F), (0x22, KC_G),
    (0x23, KC_H), (0x24, KC_J), (0x25, KC_K), (0x26, KC_L),
    (0x27, KC_SEMICOLON), (0x28, KC_QUOTE), (0x2b, KC_BACKSLASH),
    (0x2a, KC_LSHIFT),
    (0x2c, KC_Z), (0x2d, KC_X), (0x2e, KC_C), (0x2f, KC_V), (0x30, KC_B),
    (0x31, KC_N), (0x32, KC_M),
    (0x33, KC_COMMA), (0x34, KC_PERIOD), (0x35, KC_SLASH),
    (0x36, KC_RSHIFT),
    (0x1d, KC_LCTRL), (0x38, KC_LALT), (0x39, KC_SPACE),
    (0x01, KC_ESCAPE),
    (0x3b, KC_F1), (0x3c, KC_F2), (0x3d, KC_F3), (0x3e, KC_F4), (0x3f, KC_F5),
    (0x40, KC_F6), (0x41, KC_F7),
    (0x42, KC_F8), (0x43, KC_F9), (0x44, KC_F10),
    (0x57, KC_F11), (0x58, KC_F12),
    (0x1c, KC_ENTER) ]

/-- The array `static int scanmap_simple[128]`: 128 zeros, then each
designated initializer stored at its index. -/
def scanmap_simple (code : keycode → Nat) : List Nat :=
  scanmap_initializers.foldl (fun table e => table.set e.1 (code e.2)) (List.replicate 128 0)

/-- `kbd_ctl_parse_scancode (scancode)`: the events it pushes.  Past the range
check the scancode is a natural number below `0x100`; `~0x80` is the 32-bit
complement. -/
def kbd_ctl_parse_scancode (code : keycode → Nat) (scancode : Int) :
    Option (List (kbd_ev_type_t × Nat)) :=
  if scancode < 0 ∨ scancode ≥ 0x100 then some []
  else
    let s := scancode.toNat
    let st : Nat × kbd_ev_type_t :=
      if s &&& 0x80 ≠ 0 then (s &&& (0x80 ^^^ 0xFFFFFFFF), kbd_ev_type_t.KE_RELEASE)
      else (s, kbd_ev_type_t.KE_PRESS)
    match (scanmap_simple code)[st.1]? with
    | none => none
    | some key => if key ≠ 0 then some [(st.2, key)] else some []

/-- The reference of the specification: nothing for a scancode below 0 or from
`0x100` on; otherwise with `k = scanmap_simple[scancode & 0x7f]`, nothing when
`k` is 0, else a press of `k` when bit 7 of the scancode is clear and a
release of `k` when it is set. -/
def spec_parse_scancode (code : keycode → Nat) (scancode : Int) :
    List (kbd_ev_type_t × Nat) :=
  if scancode < 0 ∨ scancode ≥ 0x100 then []
  else
    let k := (scanmap_simple code).getD (scancode.toNat &&& 0x7f) 0
    if k = 0 then []
    else if scancode.toNat &&& 0x80 = 0 then [(kbd_ev_type_t.KE_PRESS, k)]
    else [(kbd_ev_type_t.KE_RELEASE, k)]

/-- Sample values for the `KC_*` constants: the position of the name in
`scanmap_initializers`, counted from 1. -/
def sample_code (k : keycode) : Nat :=
  (scanmap_initializers.map Prod.snd).indexOf k + 1

end KbdPc

/-!
# Menu geometry (uspace/lib/ui/src/menu.c)

`ui_menu_get_geom`.  Coordinates are integers.  Of the menu and its window
the function reads three values, which are the parameters here: the text-mode
flag of the window's resource, the width `ui_menu_entry_calc_width` returns
(that function is not among the sources) and `menu->total_h`.
-/

namespace UiMenu

/-- Modelled from the spec: `gfx_coord2_t` of `gfx/coord.h`, a pair of
coordinates. -/
structure gfx_coord2_t where
  x : Int
  y : Int
  deriving DecidableEq, Repr

/-- Modelled from the spec: `gfx_rect_t` of `gfx/coord.h`, a rectangle given
by two corners. -/
structure gfx_rect_t where
  p0 : gfx_coord2_t
  p1 : gfx_coord2_t
  deriving DecidableEq, Repr

/-- Modelled from the spec: `ui_menu_geom_t` of `types/ui/menu.h`, the outer
rectangle and the entries rectangle. -/
structure ui_menu_geom_t where
  outer_rect : gfx_rect_t
  entries_rect : gfx_rect_t
  deriving DecidableEq, Repr

/-- Enumerator `menu_frame_w = 4`. -/
def menu_frame_w : Int := 4

/-- Enumerator `menu_frame_h = 4`. -/
def menu_frame_h : Int := 4

/-- Enumerator `menu_frame_w_text = 2`. -/
def menu_frame_w_text : Int := 2

/-- Enumerator `menu_frame_h_text = 1`. -/
def menu_frame_h_text : Int := 1

/-- The local `frame_w` of `ui_menu_get_geom` after the test of
`res->textmode`. -/
def frame_w (textmode : Bool) : Int :=
  if textmode then menu_frame_w_text else menu_frame_w

/-- The local `frame_h` of `ui_menu_get_geom` after the test of
`res->textmode`. -/
def frame_h (textmode : Bool) : Int :=
  if textmode then menu_frame_h_text else menu_frame_h

/-- `ui_menu_get_geom (menu, spos, geom)`: the geometry stored in `*geom`.
`edim_x` is the result of `ui_menu_entry_calc_width` and `total_h` is
`menu->total_h`.  The last assignment of the source reads
`geom->entries_rect.p0.x + edim.y`. -/
def ui_menu_get_geom (textmode : Bool) (edim_x total_h : Int) (spos : gfx_coord2_t) :
    ui_menu_geom_t :=
  let frame_w := frame_w textmode
  let frame_h := frame_h textmode
  let edim : gfx_coord2_t := ⟨edim_x, total_h⟩
  let outer_rect : gfx_rect_t :=
    ⟨spos, ⟨spos.x + edim.x + 2 * frame_w, spos.y + edim.y + 2 * frame_h⟩⟩
  let entries_p0 : gfx_coord2_t := ⟨spos.x + frame_w, spos.y + frame_h⟩
  let entries_p1_x := entries_p0.x + edim.x
  let entries_p1_y := entries_p0.x + edim.y
  ⟨outer_rect, ⟨entries_p0, ⟨entries_p1_x, entries_p1_y⟩⟩⟩

end UiMenu

/-!
# Navigator panel entries (uspace/app/nav/panel.h, test/panel.c)

`panel_sort` and `panel_entry_ptr_cmp` are declared in `panel.h`; their
bodies (`panel.c`) and the entry type (`types/panel.h`) are not among the
sources.  They are modelled after the declarations and the tests `sort` and
`entry_ptr_cmp`: an entry has a name and a size, entries are ordered by name.
A name is the list of its character codes.
-/

namespace NavPanel

/-- The return codes of `panel_sort`. -/
inductive errno_t where
  | EOK
  | ENOMEM
  deriving DecidableEq, Repr

/-- Modelled from the spec: `panel_entry_t` of `types/panel.h`, which is not
among the sources; the name and the size the tests read from an entry. -/
structure panel_entry_t where
  name : List Nat
  size : Nat
  deriving DecidableEq, Repr

/-- Modelled from the spec: `str_cmp` of the C library, which is not among the
sources: -1, 0 or 1 as the first string is below, equal to or above the second
in the order of the character codes. -/
def str_cmp : List Nat → List Nat → Int
  | [], [] => 0
  | [], _ :: _ => -1
  | _ :: _, [] => 1
  | c1 :: s1, c2 :: s2 =>
    if c1 < c2 then -1 else if c2 < c1 then 1 else str_cmp s1 s2

/-- Modelled from the spec: `panel_entry_ptr_cmp`, whose body in `panel.c` is
not among the sources: the comparison of two entries, by name (negative for
"a" against "b", positive for "b" against "a", zero for an entry against
itself, as the test `entry_ptr_cmp` expects). -/
def panel_entry_ptr_cmp (a b : panel_entry_t) : Int :=
  str_cmp a.name b.name

/-- Modelled from the spec: `panel_sort`, whose body in `panel.c` is not among
the sources: it fails with `ENOMEM`, leaving the entries as they are, or
returns `EOK` with the entries ordered by `panel_entry_ptr_cmp`. -/
def panel_sort (enough_memory : Bool) (entries : List panel_entry_t) :
    errno_t × List panel_entry_t :=
  if enough_memory then
    (errno_t.EOK, entries.insertionSort (fun a b => panel_entry_ptr_cmp a b ≤ 0))
  else (errno_t.ENOMEM, entries)

/-- The entries of the test `sort`, in the order they are appended: "b" of
size 1, "c" of size 3, "a" of size 2. -/
def sample_entries : List panel_entry_t :=
  [⟨[98], 1⟩, ⟨[99], 3⟩, ⟨[97], 2⟩]

end NavPanel

namespace Vhc

open errno_t usb_direction_t usb_transfer_type_t

/-! ## Sample values used to instantiate the theorems -/

/-- A bulk IN transfer for address 5 with both callbacks bound. -/
def sample_transfer : vhc_transfer_t :=
  { link := link_initialize, address := 5, endpoint := 1,
    direction := USB_DIRECTION_IN, transfer_type := USB_TRANSFER_BULK,
    setup_buffer := none, setup_buffer_size := 0,
    data_buffer := some [0, 0], data_buffer_size := 2,
    ddf_fun := 11, callback_arg := 12, callback_in := some 21, callback_out := some 22 }

/-- A second transfer for address 5, an interrupt OUT transfer. -/
def sample_transfer2 : vhc_transfer_t :=
  { sample_transfer with
    endpoint := 2
    direction := USB_DIRECTION_OUT
    transfer_type := USB_TRANSFER_INTERRUPT }

/-- The canonical SET_ADDRESS control transfer for address 5 that assigns
address 9. -/
def sample_set_address : vhc_transfer_t :=
  { link := link_initialize, address := 5, endpoint := 0,
    direction := USB_DIRECTION_OUT, transfer_type := USB_TRANSFER_CONTROL,
    setup_buffer := some ⟨0, USB_DEVREQ_SET_ADDRESS, 9, 0, 0⟩,
    setup_buffer_size := sizeof_setup_packet,
    data_buffer := none, data_buffer_size := 0,
    ddf_fun := 11, callback_arg := 12, callback_in := some 21, callback_out := some 22 }

/-- A plugged device at address 5 with a local handle and an empty queue. -/
def sample_device : vhc_virtdev_t :=
  { guard := 1, address := 5, plugged := true, dev_phone := 0, dev_local := some 7,
    transfer_queue := [] }

/-- A device at address 6. -/
def sample_device6 : vhc_virtdev_t :=
  { sample_device with guard := 2, address := 6 }

/-- A second device at address 5 (an inconsistent registry). -/
def sample_device5b : vhc_virtdev_t :=
  { sample_device with guard := 3, transfer_queue := [sample_transfer2] }

/-- Executor operations that all return the same result code and size. -/
def const_ops (rc : errno_t) (size : Nat) : usbvirt_ops :=
  { usbvirt_control_read := fun _ _ _ _ _ => (rc, size)
    usbvirt_control_write := fun _ _ _ _ _ => rc
    usbvirt_data_in := fun _ _ _ _ _ => (rc, size)
    usbvirt_data_out := fun _ _ _ _ _ => rc
    usbvirt_ipc_send_control_read := fun _ _ _ _ _ => (rc, size)
    usbvirt_ipc_send_control_write := fun _ _ _ _ _ => rc
    usbvirt_ipc_send_data_in := fun _ _ _ _ _ => (rc, size)
    usbvirt_ipc_send_data_out := fun _ _ _ _ _ => rc }

/-! ## Further observations on traces -/

/-- The completion callback call the queue processor makes for a transfer
(transfer.c 218-225): the IN slot with the transferred size for an IN
transfer, the OUT slot otherwise; `none` when that slot holds NULL. -/
def completion_callback (t : vhc_transfer_t) (rc : errno_t) (data_transfer_size : Nat) :
    Option Event :=
  if t.direction = USB_DIRECTION_IN then
    t.callback_in.map fun cb =>
      Event.callback_in cb t.ddf_fun rc data_transfer_size t.callback_arg
  else
    t.callback_out.map fun cb => Event.callback_out cb t.ddf_fun rc t.callback_arg

/-- The transfer handed to `free`, if the event is a call of `free`. -/
def Event.freed : Event → Option vhc_transfer_t
  | Event.free t => some t
  | _ => none

/-- Whether an event is a call of one of the eight executor operations. -/
def Event.is_executor : Event → Bool
  | Event.usbvirt_control_read _ _ _ _ _ => true
  | Event.usbvirt_control_write _ _ _ _ _ => true
  | Event.usbvirt_data_in _ _ _ _ _ => true
  | Event.usbvirt_data_out _ _ _ _ _ => true
  | Event.usbvirt_ipc_send_control_read _ _ _ _ _ => true
  | Event.usbvirt_ipc_send_control_write _ _ _ _ _ => true
  | Event.usbvirt_ipc_send_data_in _ _ _ _ _ => true
  | Event.usbvirt_ipc_send_data_out _ _ _ _ _ => true
  | _ => false

/-- A pass during which the other fibrils leave the device alone. -/
def quiet_env (ops : usbvirt_ops) : pass_env :=
  { ops := ops, submitted := [], arrived := [], unplug := false }

/-- The four operations both executor variants offer (spec 4.5). -/
inductive executor_operation where
  | control_read
  | control_write
  | data_in
  | data_out
deriving DecidableEq, Repr

/-- Operation selection in the spec's words (spec 4.5): "CONTROL, IN →
control-read", "CONTROL, OUT → control-write", "non-CONTROL, IN → data-in",
"non-CONTROL, OUT → data-out". -/
def spec_select_operation (tr_type : usb_transfer_type_t) (dir : usb_direction_t) :
    executor_operation :=
  match tr_type, dir with
  | USB_TRANSFER_CONTROL, USB_DIRECTION_IN => executor_operation.control_read
  | USB_TRANSFER_CONTROL, USB_DIRECTION_OUT => executor_operation.control_write
  | _, USB_DIRECTION_IN => executor_operation.data_in
  | _, USB_DIRECTION_OUT => executor_operation.data_out

/-- Whether the callback slot for the transfer's direction is bound, the slot
the completion calls (transfer.c 218-225). -/
def callback_bound (t : vhc_transfer_t) : Bool :=
  match t.direction with
  | USB_DIRECTION_IN => t.callback_in.isSome
  | USB_DIRECTION_OUT => t.callback_out.isSome

/-! ## Locking discipline, read off a trace -/

/-- One call checked against the locking discipline of spec section 5, by a
fibril that holds the guards `held`; `reg` is the registry guard, every other
guard a device guard.  The registry guard is taken only while nothing is
held; a device guard is taken only while nothing or the registry guard alone
is held; no guard is taken twice; only a held guard is released; an executor
operation or a completion callback is called only while nothing is held.
`none` is a violation, otherwise the guards held after the call. -/
def lock_step (reg : Nat) (held : List Nat) (e : Event) : Option (List Nat) :=
  match e with
  | Event.fibril_mutex_lock g =>
    if g ∈ held then
      none
    else if g = reg then
      if held = [] then some [g] else none
    else if held = [] ∨ held = [reg] then
      some (g :: held)
    else
      none
  | Event.fibril_mutex_unlock g =>
    if g ∈ held then some (held.erase g) else none
  | _ =>
    if (e.is_callback || e.is_executor) && !held.isEmpty then none else some held

/-- A trace checked call by call against the locking discipline: `none` on a
violation, otherwise the guards held at the end. -/
def lock_check (reg : Nat) : List Nat → List Event → Option (List Nat)
  | held, [] => some held
  | held, e :: es =>
    match lock_step reg held e with
    | none => none
    | some held' => lock_check reg held' es

/-! ## The registry and its processors as one system

Submissions and processors run in different fibrils.  The guards make three
kinds of step atomic: a whole `vhc_virtdev_add_transfer`; the pop of a
processor (transfer.c 176-179); and what a processor does after its executor
call has returned (transfer.c 197-227).  Between its pop and its finish a
processor holds the popped transfer in flight. -/

/-- All queued transfers of a registry, device by device in queue order. -/
def queued (vhc : vhc_data_t) : List vhc_transfer_t :=
  (vhc.devices.map fun d => d.transfer_queue).flatten

/-- The registry together with what its processors hold and have done. -/
structure sys_state where
  /-- The registry. -/
  vhc : vhc_data_t
  /-- For each processor between pop and finish: the position of its device
  and the transfer it is executing. -/
  inflight : List (Nat × vhc_transfer_t)
  /-- One entry for each completion callback call made so far, in call order:
  the transfer completed and the call. -/
  completed : List (vhc_transfer_t × Event)
  /-- The transfers for which a submission has returned `EOK`, in order. -/
  accepted : List vhc_transfer_t

/-- Every transfer the system knows: queued, in flight or completed. -/
def sys_transfers (s : sys_state) : List vhc_transfer_t :=
  queued s.vhc ++ s.inflight.map Prod.snd ++ s.completed.map Prod.fst

/-- The atomic steps of the system. -/
inductive sys_action where
  /-- A call of `vhc_virtdev_add_transfer`. -/
  | submit (t : vhc_transfer_t)
  /-- The processor of the device at position `i` pops the head of the
  queue. -/
  | pop (i : Nat)
  /-- The executor call of the processor of the device at position `i` has
  returned `rc` and `size`, and the processor finishes its pass. -/
  | finish (i : Nat) (rc : errno_t) (size : Nat)

/-- One atomic step; `none` when the step cannot be taken.  A transfer is
submitted only by a caller that owns it, so not while the system holds it; a
processor pops only when its device is plugged, has a queued transfer and the
processor is not in the middle of a pass; a pass that ends in a NULL access
is no step. -/
def sys_step : sys_action → sys_state → Option sys_state
  | sys_action.submit t, s =>
    if t ∈ sys_transfers s then
      none
    else
      let r := vhc_virtdev_add_transfer s.vhc t
      some
        { s with
          vhc := r.vhc
          accepted := if r.rc = EOK then s.accepted ++ [t] else s.accepted }
  | sys_action.pop i, s =>
    if s.inflight.any (fun p => p.1 = i) then
      none
    else
      match s.vhc.devices[i]? with
      | none => none
      | some dev =>
        if dev.plugged then
          match dev.transfer_queue with
          | [] => none
          | t :: rest =>
            some
              { s with
                vhc :=
                  { s.vhc with
                    devices := s.vhc.devices.set i { dev with transfer_queue := rest } }
                inflight := (i, t) :: s.inflight }
        else
          none
  | sys_action.finish i rc size, s =>
    match s.inflight.find? (fun p => p.1 = i) with
    | none => none
    | some p =>
      match s.vhc.devices[i]? with
      | none => none
      | some dev =>
        match processor_set_address dev p.2 rc with
        | none => none
        | some dev2 =>
          match processor_complete p.2 rc size with
          | none => none
          | some done =>
            some
              { s with
                vhc :=
                  { s.vhc with
                    devices := s.vhc.devices.set i (processor_requeue dev2 p.2 rc) }
                inflight := s.inflight.erase p
                completed := s.completed ++
                  (done.filter Event.is_callback).map fun cb => (p.2, cb) }

/-- A sequence of atomic steps, in any interleaving the list spells out. -/
def sys_run : List sys_action → sys_state → Option sys_state
  | [], s => some s
  | a :: rest, s =>
    match sys_step a s with
    | none => none
    | some s' => sys_run rest s'

/-- The registry with a device at address 6 and the sample device, nothing in
flight, completed or accepted yet. -/
def sample_system : sys_state :=
  { vhc := ⟨0, [sample_device6, sample_device]⟩, inflight := [], completed := [],
    accepted := [] }

/-- Two submissions for address 5, a pop, a third submission while the first
transfer executes, `ENAK` for the first transfer, a pop and `ESTALL` for the
second, and a submission for an address no device has. -/
def sample_actions : List sys_action :=
  [sys_action.submit sample_transfer, sys_action.submit sample_transfer2, sys_action.pop 1,
    sys_action.submit sample_set_address, sys_action.finish 1 ENAK 0, sys_action.pop 1,
    sys_action.finish 1 ESTALL 0,
    sys_action.submit { sample_transfer with address := 7 }]

/-- The sample device holding the canonical SET_ADDRESS transfer followed by
the two sample transfers for address 5. -/
def sample_readdressed_device : vhc_virtdev_t :=
  { sample_device with
    transfer_queue := [sample_set_address, sample_transfer, sample_transfer2] }

/-- The sample transfer, addressed to 9. -/
def sample_transfer9 : vhc_transfer_t :=
  { sample_transfer with address := 9 }

/-- What the spec's FIFO queue does over a run of passes: the transfers handed
to the executor, in order, each with the executor operations of its pass; the
transfers appended to the queue during the run, in order of arrival; and the
queue at the end. -/
structure fifo_run where
  executed : List (usbvirt_ops × vhc_transfer_t)
  arrivals : List vhc_transfer_t
  queue : List vhc_transfer_t

/-- Strict FIFO in the spec's words ("insertion order = arrival order (FIFO)",
"strict per-device FIFO execution order"), for a run in which nothing is
re-queued: while the device is plugged, a pass that finds the queue empty
executes nothing and the transfers arriving during its sleep form the queue; a
pass that finds a transfer at the head executes that transfer, and those
arriving during the executor call and after it queue up, in that order, behind
what is left.  The second argument is `plugged`, the third the queue. -/
def spec_fifo : List pass_env → Bool → List vhc_transfer_t → fifo_run
  | [], _, queue => ⟨[], [], queue⟩
  | _ :: _, false, queue => ⟨[], [], queue⟩
  | env :: envs, true, [] =>
    let r := spec_fifo envs (!env.unplug) env.arrived
    ⟨r.executed, env.arrived ++ r.arrivals, r.queue⟩
  | env :: envs, true, t :: rest =>
    let r := spec_fifo envs (!env.unplug) (rest ++ env.submitted ++ env.arrived)
    ⟨(env.ops, t) :: r.executed, env.submitted ++ env.arrived ++ r.arrivals, r.queue⟩

/-- Four passes over the sample device holding the sample transfer: during the
first executor call the second sample transfer arrives, after the second pass
the transfer for address 9; the fourth pass finds the queue empty and the
SET_ADDRESS transfer arrives during its sleep.  The executor answers `EOK`
with 7 bytes, `ESTALL`, `EOK`; the fourth pass makes no executor call (its
operations would answer `ENAK`). -/
def sample_envs : List pass_env :=
  [ { ops := const_ops EOK 7, submitted := [sample_transfer2], arrived := [], unplug := false },
    { ops := const_ops ESTALL 0, submitted := [], arrived := [sample_transfer9],
      unplug := false },
    { ops := const_ops EOK 0, submitted := [], arrived := [], unplug := false },
    { ops := const_ops ENAK 0, submitted := [], arrived := [sample_set_address],
      unplug := false } ]

/-! ## The dispatcher loop -/

/-- Once a target has been found the loop changes no device. -/
theorem add_transfer_loop_found (t : vhc_transfer_t) (devs : List vhc_virtdev_t) :
    (add_transfer_loop t devs true).1 = devs ∧ (add_transfer_loop t devs true).2.1 = true := by
  induction devs with
  | nil => simp [add_transfer_loop]
  | cons d rest ih =>
    by_cases h : d.address = t.address
    · simp [add_transfer_loop, h, ih.1, ih.2]
    · simp [add_transfer_loop, h, ih.1, ih.2]

/-- Over devices none of which has the transfer's address the loop changes
neither the devices nor `target_found`. -/
theorem add_transfer_loop_no_match (t : vhc_transfer_t) (devs : List vhc_virtdev_t)
    (found : Bool) (h : ∀ d ∈ devs, d.address ≠ t.address) :
    (add_transfer_loop t devs found).1 = devs ∧ (add_transfer_loop t devs found).2.1 = found := by
  induction devs with
  | nil => simp [add_transfer_loop]
  | cons d rest ih =>
    have hd : d.address ≠ t.address := h d (List.mem_cons_self _ _)
    have hr := ih (fun x hx => h x (List.mem_cons_of_mem _ hx))
    simp [add_transfer_loop, hd, hr.1, hr.2]

/-- The loop entered with `target_found = false` appends to the first device
that has the transfer's address, and to no other. -/
theorem add_transfer_loop_first_match (t : vhc_transfer_t)
    (pre : List vhc_virtdev_t) (d : vhc_virtdev_t) (post : List vhc_virtdev_t)
    (hpre : ∀ x ∈ pre, x.address ≠ t.address) (hd : d.address = t.address) :
    (add_transfer_loop t (pre ++ d :: post) false).1 =
        pre ++ { d with transfer_queue := d.transfer_queue ++ [t] } :: post ∧
      (add_transfer_loop t (pre ++ d :: post) false).2.1 = true := by
  induction pre with
  | nil =>
    have hf := add_transfer_loop_found t post
    simp [add_transfer_loop, hd, hf.1, hf.2, list_append]
  | cons p pre ih =>
    have hp : p.address ≠ t.address := hpre p (List.mem_cons_self _ _)
    have hr := ih (fun x hx => hpre x (List.mem_cons_of_mem _ hx))
    simp [add_transfer_loop, hp, hr.1, hr.2]

/-- A list with an element that satisfies `p` splits at the first such
element. -/
theorem exists_first_match (p : vhc_virtdev_t → Prop) [DecidablePred p]
    (devs : List vhc_virtdev_t) (h : ∃ d ∈ devs, p d) :
    ∃ pre d post, devs = pre ++ d :: post ∧ (∀ x ∈ pre, ¬ p x) ∧ p d := by
  induction devs with
  | nil => simp at h
  | cons a rest ih =>
    by_cases ha : p a
    · exact ⟨[], a, rest, by simp, by simp, ha⟩
    · have h' : ∃ d ∈ rest, p d := by
        obtain ⟨d, hmem, hpd⟩ := h
        rcases List.mem_cons.mp hmem with rfl | hmem
        · exact absurd hpd ha
        · exact ⟨d, hmem, hpd⟩
      obtain ⟨pre, d, post, hsplit, hpre, hd⟩ := ih h'
      refine ⟨a :: pre, d, post, by simp [hsplit], ?_, hd⟩
      intro x hx
      rcases List.mem_cons.mp hx with rfl | hx
      · exact ha
      · exact hpre x hx

/-- The function returns `ENOENT` exactly when no device has the transfer's
address. -/
theorem add_transfer_rc_enoent_iff (vhc : vhc_data_t) (t : vhc_transfer_t) :
    (vhc_virtdev_add_transfer vhc t).rc = ENOENT ↔ ∀ d ∈ vhc.devices, d.address ≠ t.address := by
  constructor
  · intro hrc d hmem hd
    obtain ⟨pre, d0, post, hsplit, hpre, hd0⟩ :=
      exists_first_match (fun x => x.address = t.address) vhc.devices ⟨d, hmem, hd⟩
    have hm := add_transfer_loop_first_match t pre d0 post hpre hd0
    simp [vhc_virtdev_add_transfer, hsplit, hm.2] at hrc
  · intro h
    have hn := add_transfer_loop_no_match t vhc.devices false h
    simp [vhc_virtdev_add_transfer, hn.2]

/-- The function returns `EOK` or `ENOENT`. -/
theorem add_transfer_rc_cases (vhc : vhc_data_t) (t : vhc_transfer_t) :
    (vhc_virtdev_add_transfer vhc t).rc = EOK ∨ (vhc_virtdev_add_transfer vhc t).rc = ENOENT := by
  unfold vhc_virtdev_add_transfer
  cases (add_transfer_loop t vhc.devices false).2.1 <;> simp

/-- Effect of a call whose first matching device is `d`. -/
theorem add_transfer_first_match (vhc : vhc_data_t) (t : vhc_transfer_t)
    (pre : List vhc_virtdev_t) (d : vhc_virtdev_t) (post : List vhc_virtdev_t)
    (hsplit : vhc.devices = pre ++ d :: post)
    (hpre : ∀ x ∈ pre, x.address ≠ t.address) (hd : d.address = t.address) :
    (vhc_virtdev_add_transfer vhc t).rc = EOK ∧
      (vhc_virtdev_add_transfer vhc t).vhc =
        { vhc with devices :=
            pre ++ { d with transfer_queue := d.transfer_queue ++ [t] } :: post } := by
  have hm := add_transfer_loop_first_match t pre d post hpre hd
  simp [vhc_virtdev_add_transfer, hsplit, hm.1, hm.2]

/-- With `target_found` already set, a further device that has the transfer's
address makes the loop log the warning. -/
theorem add_transfer_loop_warns (t : vhc_transfer_t) (devs : List vhc_virtdev_t)
    (h : ∃ e ∈ devs, e.address = t.address) :
    Event.usb_log_warning warning_t.more_devices ∈ (add_transfer_loop t devs true).2.2 := by
  induction devs with
  | nil => simp at h
  | cons a rest ih =>
    by_cases ha : a.address = t.address
    · simp [add_transfer_loop, ha]
    · have h' : ∃ e ∈ rest, e.address = t.address := by
        obtain ⟨e, hmem, he⟩ := h
        rcases List.mem_cons.mp hmem with rfl | hmem
        · exact absurd he ha
        · exact ⟨e, hmem, he⟩
      have := ih h'
      simp [add_transfer_loop, ha, this]

/-- The calls made after the first matching device are those of the loop
continued with `target_found` set. -/
theorem add_transfer_loop_trace_after_match (t : vhc_transfer_t)
    (pre : List vhc_virtdev_t) (d : vhc_virtdev_t) (post : List vhc_virtdev_t)
    (hpre : ∀ x ∈ pre, x.address ≠ t.address) (hd : d.address = t.address) :
    ∀ e ∈ (add_transfer_loop t post true).2.2,
      e ∈ (add_transfer_loop t (pre ++ d :: post) false).2.2 := by
  induction pre with
  | nil =>
    intro e he
    simp [add_transfer_loop, hd, he]
  | cons p pre ih =>
    have hp : p.address ≠ t.address := hpre p (List.mem_cons_self _ _)
    intro e he
    have := ih (fun x hx => hpre x (List.mem_cons_of_mem _ hx)) e he
    simp [add_transfer_loop, hp, this]

/-- Appending one transfer to one device's queue adds one to the sum of the
queue lengths. -/
theorem total_queued_append (vhc : vhc_data_t) (t : vhc_transfer_t)
    (pre : List vhc_virtdev_t) (d : vhc_virtdev_t) (post : List vhc_virtdev_t)
    (hsplit : vhc.devices = pre ++ d :: post) :
    total_queued { vhc with devices :=
        pre ++ { d with transfer_queue := d.transfer_queue ++ [t] } :: post } =
      total_queued vhc + 1 := by
  simp [total_queued, hsplit]
  omega

/-- Successive submissions for the address of the first matching device all
succeed and extend that device's queue in call order. -/
theorem submit_all_first_match (ts : List vhc_transfer_t) :
    ∀ (vhc : vhc_data_t) (pre : List vhc_virtdev_t) (d : vhc_virtdev_t)
      (post : List vhc_virtdev_t),
      vhc.devices = pre ++ d :: post → (∀ x ∈ pre, x.address ≠ d.address) →
      (∀ s ∈ ts, s.address = d.address) →
      (submit_all vhc ts).1 = List.replicate ts.length EOK ∧
        (submit_all vhc ts).2 =
          { vhc with devices :=
              pre ++ { d with transfer_queue := d.transfer_queue ++ ts } :: post } := by
  induction ts with
  | nil =>
    intro vhc pre d post hsplit _ _
    simp [submit_all, ← hsplit]
  | cons t ts ih =>
    intro vhc pre d post hsplit hpre hts
    have ht : t.address = d.address := hts t (List.mem_cons_self _ _)
    have hstep := add_transfer_first_match vhc t pre d post hsplit
      (fun x hx => by rw [ht]; exact hpre x hx) ht.symm
    have hrest := ih (vhc_virtdev_add_transfer vhc t).vhc pre
      { d with transfer_queue := d.transfer_queue ++ [t] } post
      (by rw [hstep.2]) hpre (fun s hs => hts s (List.mem_cons_of_mem _ hs))
    rw [hstep.2] at hrest
    simp only [submit_all, hstep.1, hstep.2]
    refine ⟨by simp [hrest.1, List.replicate_succ], ?_⟩
    rw [hrest.2]
    simp

/-! ## Properties of `vhc_virtdev_add_transfer` -/

/-- C1: in a registry that holds exactly one device, a transfer whose address
is that device's address is accepted with `EOK`, and the device's queue is one
longer after the call than before (the transfer is its new last element). -/
theorem add_transfer_single_device (vhc : vhc_data_t) (d : vhc_virtdev_t)
    (t : vhc_transfer_t) (hreg : vhc.devices = [d]) (haddr : t.address = d.address) :
    (vhc_virtdev_add_transfer vhc t).rc = EOK ∧
      ∃ d', (vhc_virtdev_add_transfer vhc t).vhc.devices = [d'] ∧
        d'.transfer_queue = d.transfer_queue ++ [t] ∧
        d'.transfer_queue.length = d.transfer_queue.length + 1 := by
  have h := add_transfer_first_match vhc t [] d [] (by simpa using hreg) (by simp) haddr.symm
  refine ⟨h.1, { d with transfer_queue := d.transfer_queue ++ [t] }, ?_, rfl, by simp⟩
  rw [h.2]
  simp

/-- C1 at a registry holding the sample device (address 5) and the sample
transfer for address 5. -/
theorem add_transfer_single_device_witness :
    (vhc_virtdev_add_transfer ⟨0, [sample_device]⟩ sample_transfer).rc = EOK ∧
      ∃ d', (vhc_virtdev_add_transfer ⟨0, [sample_device]⟩ sample_transfer).vhc.devices = [d'] ∧
        d'.transfer_queue = sample_device.transfer_queue ++ [sample_transfer] ∧
        d'.transfer_queue.length = sample_device.transfer_queue.length + 1 :=
  add_transfer_single_device ⟨0, [sample_device]⟩ sample_device sample_transfer rfl rfl

/-- C2: when no device of the registry has the transfer's address the call
returns `ENOENT` and leaves the registry, hence every queue, exactly as it
was; and `ENOENT` is returned in that case only. -/
theorem add_transfer_no_match (vhc : vhc_data_t) (t : vhc_transfer_t) :
    ((∀ d ∈ vhc.devices, d.address ≠ t.address) →
        (vhc_virtdev_add_transfer vhc t).rc = ENOENT ∧
          (vhc_virtdev_add_transfer vhc t).vhc = vhc) ∧
      ((vhc_virtdev_add_transfer vhc t).rc = ENOENT →
        ∀ d ∈ vhc.devices, d.address ≠ t.address) := by
  refine ⟨fun h => ⟨(add_transfer_rc_enoent_iff vhc t).mpr h, ?_⟩,
    (add_transfer_rc_enoent_iff vhc t).mp⟩
  have hn := add_transfer_loop_no_match t vhc.devices false h
  simp [vhc_virtdev_add_transfer, hn.1]

/-- C2 at a registry whose only device has address 6, with the sample
transfer for address 5. -/
theorem add_transfer_no_match_witness :
    (vhc_virtdev_add_transfer ⟨0, [sample_device6]⟩ sample_transfer).rc = ENOENT ∧
      (vhc_virtdev_add_transfer ⟨0, [sample_device6]⟩ sample_transfer).vhc =
        ⟨0, [sample_device6]⟩ :=
  (add_transfer_no_match ⟨0, [sample_device6]⟩ sample_transfer).1 (by decide)

/-- C3: when two or more devices have the transfer's address the call returns
`EOK`, appends the transfer to the queue of the first of them in registry
order and to no other queue (the later matching devices included), logs the
warning, and the sum of all queue lengths grows by exactly one. -/
theorem add_transfer_multiple_match (vhc : vhc_data_t) (t : vhc_transfer_t)
    (hmany : 2 ≤ vhc.devices.countP (fun d => d.address = t.address)) :
    (vhc_virtdev_add_transfer vhc t).rc = EOK ∧
      (∃ pre d post, vhc.devices = pre ++ d :: post ∧
        (∀ x ∈ pre, x.address ≠ t.address) ∧ d.address = t.address ∧
        (∃ e ∈ post, e.address = t.address) ∧
        (vhc_virtdev_add_transfer vhc t).vhc.devices =
          pre ++ { d with transfer_queue := d.transfer_queue ++ [t] } :: post) ∧
      Event.usb_log_warning warning_t.more_devices ∈ (vhc_virtdev_add_transfer vhc t).trace ∧
      total_queued (vhc_virtdev_add_transfer vhc t).vhc = total_queued vhc + 1 := by
  have hex : ∃ d ∈ vhc.devices, d.address = t.address := by
    have hpos : 0 < vhc.devices.countP (fun d => d.address = t.address) := by omega
    obtain ⟨d, hmem, hd⟩ := List.countP_pos_iff.mp hpos
    exact ⟨d, hmem, by simpa using hd⟩
  obtain ⟨pre, d, post, hsplit, hpre, hd⟩ :=
    exists_first_match (fun x => x.address = t.address) vhc.devices hex
  have hpre0 : pre.countP (fun d => d.address = t.address) = 0 := by
    rw [List.countP_eq_zero]
    intro x hx
    simpa using hpre x hx
  have hpost : ∃ e ∈ post, e.address = t.address := by
    have hcnt : 0 < post.countP (fun d => d.address = t.address) := by
      rw [hsplit, List.countP_append, List.countP_cons, hpre0] at hmany
      simp only [hd, decide_True, if_true] at hmany
      omega
    obtain ⟨e, hmem, he⟩ := List.countP_pos_iff.mp hcnt
    exact ⟨e, hmem, by simpa using he⟩
  have h := add_transfer_first_match vhc t pre d post hsplit hpre hd
  refine ⟨h.1, ⟨pre, d, post, hsplit, hpre, hd, hpost, by rw [h.2]⟩, ?_, ?_⟩
  · have hw := add_transfer_loop_trace_after_match t pre d post hpre hd _
      (add_transfer_loop_warns t post hpost)
    simp [vhc_virtdev_add_transfer, hsplit, hw]
  · rw [h.2]
    exact total_queued_append vhc t pre d post hsplit

/-- C3 at a registry with a device at address 6 followed by two devices at
address 5. -/
theorem add_transfer_multiple_match_witness :
    (vhc_virtdev_add_transfer ⟨0, [sample_device6, sample_device, sample_device5b]⟩
        sample_transfer).vhc.devices =
      [sample_device6, { sample_device with transfer_queue := [sample_transfer] },
        sample_device5b] ∧
    total_queued (vhc_virtdev_add_transfer ⟨0, [sample_device6, sample_device, sample_device5b]⟩
        sample_transfer).vhc =
      total_queued ⟨0, [sample_device6, sample_device, sample_device5b]⟩ + 1 :=
  ⟨by decide,
    (add_transfer_multiple_match ⟨0, [sample_device6, sample_device, sample_device5b]⟩
      sample_transfer (by decide)).2.2.2⟩

/-- C4: a call that returns `EOK` leaves the first matching device with its
former queue followed by the transfer as last element, every earlier element
at its former position; and successive calls for one device's address, with
nothing processed in between, all return `EOK` and leave that device's queue
equal to its former queue followed by the transfers in call order. -/
theorem add_transfer_appends_in_arrival_order (vhc : vhc_data_t) (t : vhc_transfer_t) :
    ((vhc_virtdev_add_transfer vhc t).rc = EOK →
        ∃ pre d post, vhc.devices = pre ++ d :: post ∧
          (∀ x ∈ pre, x.address ≠ t.address) ∧ d.address = t.address ∧
          (vhc_virtdev_add_transfer vhc t).vhc.devices =
            pre ++ { d with transfer_queue := d.transfer_queue ++ [t] } :: post) ∧
      (∀ (pre : List vhc_virtdev_t) (d : vhc_virtdev_t) (post : List vhc_virtdev_t)
          (ts : List vhc_transfer_t),
        vhc.devices = pre ++ d :: post → (∀ x ∈ pre, x.address ≠ d.address) →
        (∀ s ∈ ts, s.address = d.address) →
        (submit_all vhc ts).1 = List.replicate ts.length EOK ∧
          (submit_all vhc ts).2.devices =
            pre ++ { d with transfer_queue := d.transfer_queue ++ ts } :: post) := by
  constructor
  · intro hrc
    have hex : ∃ d ∈ vhc.devices, d.address = t.address := by
      by_contra hno
      have hall : ∀ d ∈ vhc.devices, d.address ≠ t.address := by
        intro d hmem hd
        exact hno ⟨d, hmem, hd⟩
      have := (add_transfer_rc_enoent_iff vhc t).mpr hall
      rw [hrc] at this
      exact absurd this (by decide)
    obtain ⟨pre, d, post, hsplit, hpre, hd⟩ :=
      exists_first_match (fun x => x.address = t.address) vhc.devices hex
    have h := add_transfer_first_match vhc t pre d post hsplit hpre hd
    exact ⟨pre, d, post, hsplit, hpre, hd, by rw [h.2]⟩
  · intro pre d post ts hsplit hpre hts
    have h := submit_all_first_match ts vhc pre d post hsplit hpre hts
    exact ⟨h.1, by rw [h.2]⟩

/-- C4 at the registry with a device at address 6 followed by the sample
device: two submissions for address 5 queue up in call order. -/
theorem add_transfer_appends_in_arrival_order_witness :
    (submit_all ⟨0, [sample_device6, sample_device]⟩ [sample_transfer, sample_transfer2]).1 =
        [EOK, EOK] ∧
      (submit_all ⟨0, [sample_device6, sample_device]⟩
          [sample_transfer, sample_transfer2]).2.devices =
        [sample_device6] ++
          { sample_device with
            transfer_queue :=
              sample_device.transfer_queue ++ [sample_transfer, sample_transfer2] } :: [] :=
  (add_transfer_appends_in_arrival_order ⟨0, [sample_device6, sample_device]⟩
    sample_transfer).2 [sample_device6] sample_device [] [sample_transfer, sample_transfer2]
    rfl (by decide) (by decide)

/-! ## Properties of `vhc_transfer_create` and `is_set_address_transfer` -/

/-- C5: when allocation succeeds `vhc_transfer_create` returns a transfer
whose address, endpoint, direction, transfer type, owner handle and callback
argument are the arguments, whose setup and data buffers are NULL with size 0,
whose two callback slots are NULL, and whose link is initialised, that is in
no list (both link pointers NULL). -/
theorem transfer_create_fields (address ep : Int) (dir : usb_direction_t)
    (tr_type : usb_transfer_type_t) (ddf_fun callback_arg : Nat) :
    ∃ t, vhc_transfer_create true address ep dir tr_type ddf_fun callback_arg = some t ∧
      t.address = address ∧ t.endpoint = ep ∧ t.direction = dir ∧
      t.transfer_type = tr_type ∧ t.ddf_fun = ddf_fun ∧ t.callback_arg = callback_arg ∧
      t.setup_buffer = none ∧ t.setup_buffer_size = 0 ∧
      t.data_buffer = none ∧ t.data_buffer_size = 0 ∧
      t.callback_in = none ∧ t.callback_out = none ∧
      t.link = link_initialize ∧ t.link.prev = none ∧ t.link.next = none :=
  ⟨_, rfl, rfl, rfl, rfl, rfl, rfl, rfl, rfl, rfl, rfl, rfl, rfl, rfl, rfl, rfl, rfl⟩

/-- C6: `is_set_address_transfer` answers true exactly when the endpoint is
0, the type is CONTROL, the direction is OUT, the setup size is that of a
setup packet and the setup packet has request type 0 and request SET_ADDRESS;
falsifying one of the first four conditions, or one of the two conditions on
a setup packet that is present, makes the answer false.  (With the first four
conditions true and a NULL setup buffer the function reads through NULL.) -/
theorem is_set_address_transfer_iff (t : vhc_transfer_t) :
    (is_set_address_transfer t = some true ↔
        t.endpoint = 0 ∧ t.transfer_type = USB_TRANSFER_CONTROL ∧
        t.direction = USB_DIRECTION_OUT ∧ t.setup_buffer_size = sizeof_setup_packet ∧
        ∃ setup, t.setup_buffer = some setup ∧ setup.request_type = 0 ∧
          setup.request = USB_DEVREQ_SET_ADDRESS) ∧
      ((t.endpoint ≠ 0 ∨ t.transfer_type ≠ USB_TRANSFER_CONTROL ∨
          t.direction ≠ USB_DIRECTION_OUT ∨ t.setup_buffer_size ≠ sizeof_setup_packet) →
        is_set_address_transfer t = some false) ∧
      (∀ setup, t.setup_buffer = some setup →
        (setup.request_type ≠ 0 ∨ setup.request ≠ USB_DEVREQ_SET_ADDRESS) →
        is_set_address_transfer t = some false) ∧
      ((t.endpoint = 0 ∧ t.transfer_type = USB_TRANSFER_CONTROL ∧
          t.direction = USB_DIRECTION_OUT ∧ t.setup_buffer_size = sizeof_setup_packet ∧
          t.setup_buffer = none) →
        is_set_address_transfer t = none) := by
  unfold is_set_address_transfer
  by_cases h1 : t.endpoint = 0 <;> by_cases h2 : t.transfer_type = USB_TRANSFER_CONTROL <;>
    by_cases h3 : t.direction = USB_DIRECTION_OUT <;>
    by_cases h4 : t.setup_buffer_size = sizeof_setup_packet <;>
    simp [h1, h2, h3, h4]
  cases hs : t.setup_buffer with
  | none => simp
  | some setup =>
    by_cases h5 : setup.request_type = 0 <;>
      by_cases h6 : setup.request = USB_DEVREQ_SET_ADDRESS <;> simp [h5, h6]

/-- C6 at the canonical SET_ADDRESS transfer and at six transfers that each
falsify one condition. -/
theorem is_set_address_transfer_iff_witness :
    is_set_address_transfer sample_set_address = some true ∧
      is_set_address_transfer { sample_set_address with endpoint := 1 } = some false ∧
      is_set_address_transfer
        { sample_set_address with transfer_type := USB_TRANSFER_BULK } = some false ∧
      is_set_address_transfer
        { sample_set_address with direction := USB_DIRECTION_IN } = some false ∧
      is_set_address_transfer
        { sample_set_address with setup_buffer_size := sizeof_setup_packet + 1 } = some false ∧
      is_set_address_transfer
        { sample_set_address with
          setup_buffer := some ⟨1, USB_DEVREQ_SET_ADDRESS, 9, 0, 0⟩ } = some false ∧
      is_set_address_transfer
        { sample_set_address with
          setup_buffer := some ⟨0, USB_DEVREQ_SET_ADDRESS + 1, 9, 0, 0⟩ } = some false :=
  ⟨(is_set_address_transfer_iff sample_set_address).1.mpr (by decide),
    by decide, by decide, by decide, by decide, by decide, by decide⟩

/-! ## One pass of the queue processor -/

/-- The executor dispatch reads the device's phone and local handle only, not
its queue or address. -/
theorem processor_execute_congr (ops : usbvirt_ops) (dev dev' : vhc_virtdev_t)
    (t : vhc_transfer_t) (hphone : dev'.dev_phone = dev.dev_phone)
    (hlocal : dev'.dev_local = dev.dev_local) :
    processor_execute ops dev' t = processor_execute ops dev t := by
  simp [processor_execute, hphone, hlocal]

/-- The executor dispatch calls neither a completion callback nor `free`. -/
theorem processor_execute_trace (ops : usbvirt_ops) (dev : vhc_virtdev_t)
    (t : vhc_transfer_t) :
    ∀ e ∈ (processor_execute ops dev t).trace,
      e.is_callback = false ∧ e.is_free = false ∧ e.callback_rc = none := by
  intro e he
  unfold processor_execute at he
  split at he
  · unfold process_transfer_remote at he
    split at he <;> split at he <;> simp at he <;> subst he <;>
      simp [Event.is_callback, Event.is_free, Event.callback_rc]
  · split at he
    · unfold process_transfer_local at he
      split at he <;> split at he <;> simp at he <;> subst he <;>
        simp [Event.is_callback, Event.is_free, Event.callback_rc]
    · simp at he
      subst he
      simp [Event.is_callback, Event.is_free, Event.callback_rc]

/-- The address update leaves every field but the address as it was. -/
theorem processor_set_address_frame (dev dev2 : vhc_virtdev_t) (t : vhc_transfer_t)
    (rc : errno_t) (h : processor_set_address dev t rc = some dev2) :
    dev2.transfer_queue = dev.transfer_queue ∧ dev2.guard = dev.guard ∧
      dev2.plugged = dev.plugged ∧ dev2.dev_phone = dev.dev_phone ∧
      dev2.dev_local = dev.dev_local := by
  unfold processor_set_address at h
  split at h
  · split at h
    · simp at h
    · simp at h
      subst h
      simp
    · split at h
      · simp at h
      · simp at h
        subst h
        simp
  · simp at h
    subst h
    simp

/-- The address update changes the address only when the result is `EOK` and
the transfer matches the set-address pattern. -/
theorem processor_set_address_unchanged (dev dev2 : vhc_virtdev_t) (t : vhc_transfer_t)
    (rc : errno_t) (h : processor_set_address dev t rc = some dev2)
    (hno : rc ≠ EOK ∨ is_set_address_transfer t ≠ some true) : dev2 = dev := by
  unfold processor_set_address at h
  by_cases hrc : rc = EOK
  · have hset : is_set_address_transfer t ≠ some true := by
      rcases hno with hno | hno
      · exact absurd hrc hno
      · exact hno
    simp only [hrc, if_true] at h
    split at h
    · simp at h
    · simpa using h.symm
    · rename_i heq
      exact absurd heq hset
  · simpa [hrc] using h.symm

/-- With an attached transfer the address update does not read through
NULL. -/
theorem processor_set_address_total (dev : vhc_virtdev_t) (t : vhc_transfer_t)
    (rc : errno_t) (hatt : transfer_attached t = true) :
    ∃ dev2, processor_set_address dev t rc = some dev2 := by
  have hbuf : t.setup_buffer_size ≠ sizeof_setup_packet ∨ ∃ s, t.setup_buffer = some s := by
    simp only [transfer_attached, Bool.and_eq_true, Bool.or_eq_true, decide_eq_true_eq] at hatt
    rcases hatt.1 with h | h
    · exact Or.inl h
    · exact Or.inr (Option.isSome_iff_exists.mp h)
  unfold processor_set_address is_set_address_transfer
  by_cases hrc : rc = EOK
  · simp only [hrc, if_true]
    rcases hbuf with h | ⟨s, hs⟩
    · by_cases h1 : t.endpoint = 0 <;> by_cases h2 : t.transfer_type = USB_TRANSFER_CONTROL <;>
        by_cases h3 : t.direction = USB_DIRECTION_OUT <;> simp [h1, h2, h3, h]
    · by_cases h1 : t.endpoint = 0 <;> by_cases h2 : t.transfer_type = USB_TRANSFER_CONTROL <;>
        by_cases h3 : t.direction = USB_DIRECTION_OUT <;>
        by_cases h4 : t.setup_buffer_size = sizeof_setup_packet <;>
        by_cases h5 : s.request_type = 0 <;>
        by_cases h6 : s.request = USB_DEVREQ_SET_ADDRESS <;> simp [h1, h2, h3, h4, h5, h6, hs]
  · simp [hrc]

/-- With an attached transfer and a result other than `ENAK` the completion
calls one callback, then `free`. -/
theorem processor_complete_total (t : vhc_transfer_t) (rc : errno_t) (size : Nat)
    (hatt : transfer_attached t = true) (hrc : rc ≠ ENAK) :
    ∃ cb, processor_complete t rc size =
      some [cb, Event.free t] ∧ cb.is_callback = true ∧ cb.callback_rc = some rc := by
  simp only [transfer_attached, Bool.and_eq_true] at hatt
  have hdir := hatt.2
  unfold processor_complete
  cases hd : t.direction with
  | USB_DIRECTION_IN =>
    simp only [hd] at hdir
    obtain ⟨cb, hcb⟩ := Option.isSome_iff_exists.mp hdir
    simp [hrc, hcb, Event.is_callback, Event.callback_rc]
  | USB_DIRECTION_OUT =>
    simp only [hd] at hdir
    obtain ⟨cb, hcb⟩ := Option.isSome_iff_exists.mp hdir
    simp [hrc, hcb, Event.is_callback, Event.callback_rc]

/-- Every callback the completion calls gets the result code the completion
was entered with, which is not `ENAK`. -/
theorem processor_complete_rc (t : vhc_transfer_t) (rc : errno_t) (size : Nat)
    (done : List Event) (h : processor_complete t rc size = some done) :
    ∀ e ∈ done, ∀ c, e.callback_rc = some c → c = rc ∧ c ≠ ENAK := by
  unfold processor_complete at h
  by_cases hrc : rc = ENAK
  · simp [hrc] at h
    subst h
    simp
  · simp only [ne_eq, hrc, not_false_eq_true, if_true] at h
    split at h
    · split at h
      · simp at h
      · simp at h
        subst h
        intro e he c hc
        simp at he
        rcases he with rfl | rfl
        · simp [Event.callback_rc] at hc
          exact ⟨hc.symm, hc ▸ hrc⟩
        · simp [Event.callback_rc] at hc
    · split at h
      · simp at h
      · simp at h
        subst h
        intro e he c hc
        simp at he
        rcases he with rfl | rfl
        · simp [Event.callback_rc] at hc
          exact ⟨hc.symm, hc ▸ hrc⟩
        · simp [Event.callback_rc] at hc

/-- A pass whose executor call returns `ENAK`: the transfer goes back to the
tail of the queue, nothing is completed and the address stays. -/
theorem processor_pass_enak (ops : usbvirt_ops) (submitted : List vhc_transfer_t)
    (dev : vhc_virtdev_t) (t : vhc_transfer_t) (rest : List vhc_transfer_t)
    (hq : dev.transfer_queue = t :: rest) (hrc : (processor_execute ops dev t).rc = ENAK) :
    vhc_transfer_queue_processor_pass ops submitted dev =
      some
        { dev := { dev with transfer_queue := rest ++ submitted ++ [t] }
          trace := [Event.fibril_mutex_unlock dev.guard] ++
            (processor_execute ops dev t).trace ++
            [Event.fibril_mutex_lock dev.guard, Event.fibril_mutex_unlock dev.guard] ++
            [Event.async_usleep (1000 * 100), Event.fibril_mutex_lock dev.guard] } := by
  have hex : processor_execute ops { dev with transfer_queue := rest ++ submitted } t =
      processor_execute ops dev t := processor_execute_congr ops dev _ t rfl rfl
  unfold vhc_transfer_queue_processor_pass
  simp only [hq, hex, hrc]
  simp [processor_set_address, processor_requeue, processor_complete, list_append]

/-- A pass over an attached transfer whose executor call returns something
other than `ENAK`: the pass completes, the transfer leaves the queue, one
callback is called with the result, then `free`. -/
theorem processor_pass_done (ops : usbvirt_ops) (submitted : List vhc_transfer_t)
    (dev : vhc_virtdev_t) (t : vhc_transfer_t) (rest : List vhc_transfer_t)
    (hq : dev.transfer_queue = t :: rest) (hatt : transfer_attached t = true)
    (hrc : (processor_execute ops dev t).rc ≠ ENAK) :
    ∃ dev2 cb,
      processor_set_address { dev with transfer_queue := rest ++ submitted } t
        (processor_execute ops dev t).rc = some dev2 ∧
      cb.is_callback = true ∧ cb.callback_rc = some (processor_execute ops dev t).rc ∧
      vhc_transfer_queue_processor_pass ops submitted dev =
        some
          { dev := dev2
            trace := [Event.fibril_mutex_unlock dev.guard] ++
              (processor_execute ops dev t).trace ++
              [Event.fibril_mutex_lock dev.guard, Event.fibril_mutex_unlock dev.guard] ++
              [cb, Event.free t] ++
              [Event.async_usleep (1000 * 100), Event.fibril_mutex_lock dev.guard] } := by
  have hex : processor_execute ops { dev with transfer_queue := rest ++ submitted } t =
      processor_execute ops dev t := processor_execute_congr ops dev _ t rfl rfl
  obtain ⟨dev2, hdev2⟩ := processor_set_address_total
    { dev with transfer_queue := rest ++ submitted } t (processor_execute ops dev t).rc hatt
  obtain ⟨cb, hcb, hiscb, hcbrc⟩ := processor_complete_total t (processor_execute ops dev t).rc
    (processor_execute ops dev t).actual_size hatt hrc
  refine ⟨dev2, cb, hdev2, hiscb, hcbrc, ?_⟩
  unfold vhc_transfer_queue_processor_pass
  simp only [hq, hex, hdev2, hcb]
  simp [processor_requeue, hrc]

/-- A transfer that matches the set-address pattern is an OUT transfer with a
setup buffer. -/
theorem is_set_address_transfer_true (t : vhc_transfer_t)
    (h : is_set_address_transfer t = some true) :
    t.direction = USB_DIRECTION_OUT ∧ ∃ setup, t.setup_buffer = some setup := by
  unfold is_set_address_transfer at h
  by_cases h1 : t.endpoint = 0 <;> by_cases h2 : t.transfer_type = USB_TRANSFER_CONTROL <;>
    by_cases h3 : t.direction = USB_DIRECTION_OUT <;>
    by_cases h4 : t.setup_buffer_size = sizeof_setup_packet <;>
    simp [h1, h2, h3, h4] at h
  refine ⟨h3, ?_⟩
  cases hs : t.setup_buffer with
  | none => simp [hs] at h
  | some setup => exact ⟨setup, rfl⟩

/-- The dispatcher loop changes no device's address. -/
theorem add_transfer_loop_addresses (t : vhc_transfer_t) (devs : List vhc_virtdev_t) :
    ∀ found, (add_transfer_loop t devs found).1.map (fun d => d.address) =
      devs.map (fun d => d.address) := by
  induction devs with
  | nil => intro found; simp [add_transfer_loop]
  | cons d rest ih =>
    intro found
    by_cases h : d.address = t.address
    · cases found <;> simp [add_transfer_loop, h, ih]
    · simp [add_transfer_loop, h, ih]

/-! ## Properties of one pass of `vhc_transfer_queue_processor` -/

/-- C7: in a pass whose executor call returns `EOK` for the popped transfer,
and whose popped transfer matches the set-address pattern (its OUT callback
being bound, so that the pass runs to its end), the device's address after the
pass is the `value` field of the transfer's setup packet, whatever that value
and whatever the address before. -/
theorem processor_pass_set_address (ops : usbvirt_ops) (submitted : List vhc_transfer_t)
    (dev : vhc_virtdev_t) (t : vhc_transfer_t) (rest : List vhc_transfer_t)
    (hq : dev.transfer_queue = t :: rest)
    (hrc : (processor_execute ops dev t).rc = EOK)
    (hset : is_set_address_transfer t = some true)
    (hcb : t.callback_out.isSome = true) :
    ∃ r setup, vhc_transfer_queue_processor_pass ops submitted dev = some r ∧
      t.setup_buffer = some setup ∧ r.dev.address = (setup.value : Int) := by
  obtain ⟨hdir, setup, hsetup⟩ := is_set_address_transfer_true t hset
  have hatt : transfer_attached t = true := by
    simp [transfer_attached, hsetup, hdir, hcb]
  obtain ⟨dev2, cb, hdev2, -, -, hpass⟩ := processor_pass_done ops submitted dev t rest hq hatt
    (by rw [hrc]; decide)
  refine ⟨_, setup, hpass, hsetup, ?_⟩
  simp only [processor_set_address, hrc, if_true, hset, hsetup, Option.some.injEq] at hdev2
  rw [← hdev2]

/-- C7 at the sample device (address 5) holding the canonical SET_ADDRESS
transfer with value 9: after the pass the address is 9. -/
theorem processor_pass_set_address_witness :
    ∃ r setup, vhc_transfer_queue_processor_pass (const_ops EOK 0) []
        { sample_device with transfer_queue := [sample_set_address] } = some r ∧
      sample_set_address.setup_buffer = some setup ∧ r.dev.address = (setup.value : Int) :=
  processor_pass_set_address (const_ops EOK 0) []
    { sample_device with transfer_queue := [sample_set_address] } sample_set_address []
    rfl (by decide) (by decide) (by decide)

/-- C8: `vhc_virtdev_add_transfer` changes no device's address; a processor
pass that finds the queue empty, or whose executor result is not `EOK`, or
whose popped transfer does not match the set-address pattern, leaves the
device's address as it was; and a pass of the processor of the device at
position `i` leaves every other device of the registry as it was. -/
theorem address_changed_only_by_set_address (vhc : vhc_data_t) (t : vhc_transfer_t)
    (ops : usbvirt_ops) (submitted : List vhc_transfer_t) (i : Nat) :
    (vhc_virtdev_add_transfer vhc t).vhc.devices.map (fun d => d.address) =
        vhc.devices.map (fun d => d.address) ∧
      (∀ dev r, vhc_transfer_queue_processor_pass ops submitted dev = some r →
        (dev.transfer_queue = [] ∨
          ∃ h rest, dev.transfer_queue = h :: rest ∧
            ((processor_execute ops dev h).rc ≠ EOK ∨
              is_set_address_transfer h ≠ some true)) →
        r.dev.address = dev.address) ∧
      (∀ vhc' tr, processor_pass_at ops submitted vhc i = some (vhc', tr) →
        vhc'.devices.length = vhc.devices.length ∧
          ∀ j, j ≠ i → vhc'.devices[j]? = vhc.devices[j]?) := by
  refine ⟨?_, ?_, ?_⟩
  · simpa [vhc_virtdev_add_transfer] using add_transfer_loop_addresses t vhc.devices false
  · intro dev r hpass hcase
    rcases hcase with hempty | ⟨h, rest, hq, hno⟩
    · simp only [vhc_transfer_queue_processor_pass, hempty, Option.some.injEq] at hpass
      rw [← hpass]
    · have hex : processor_execute ops { dev with transfer_queue := rest ++ submitted } h =
          processor_execute ops dev h := processor_execute_congr ops dev _ h rfl rfl
      simp only [vhc_transfer_queue_processor_pass, hq, hex] at hpass
      split at hpass
      · simp at hpass
      · rename_i dev2 hdev2
        split at hpass
        · simp at hpass
        · simp only [Option.some.injEq] at hpass
          have := processor_set_address_unchanged _ dev2 h _ hdev2 hno
          rw [← hpass, this]
          simp only [processor_requeue]
          split <;> rfl
  · intro vhc' tr hat
    unfold processor_pass_at at hat
    split at hat
    · simp at hat
    · split at hat
      · simp at hat
      · simp only [Option.some.injEq, Prod.mk.injEq] at hat
        obtain ⟨hv, -⟩ := hat
        subst hv
        refine ⟨by simp, ?_⟩
        intro j hj
        simp [List.getElem?_set, Ne.symm hj]

/-- C8 at the registry with devices at addresses 6 and 5: a submission, and a
pass of the second device's processor over a bulk transfer that completes
with `EOK`, leave both addresses as they were. -/
theorem address_changed_only_by_set_address_witness :
    (vhc_virtdev_add_transfer ⟨0, [sample_device6, sample_device]⟩
        sample_transfer).vhc.devices.map (fun d => d.address) = [6, 5] ∧
      (∀ r, vhc_transfer_queue_processor_pass (const_ops EOK 2) []
          { sample_device with transfer_queue := [sample_transfer] } = some r →
        r.dev.address = 5) ∧
      (vhc_transfer_queue_processor_pass (const_ops EOK 2) []
          { sample_device with transfer_queue := [sample_transfer] }).isSome = true :=
  ⟨(address_changed_only_by_set_address ⟨0, [sample_device6, sample_device]⟩ sample_transfer
      (const_ops EOK 2) [] 1).1,
    fun r hr =>
      (address_changed_only_by_set_address ⟨0, [sample_device6, sample_device]⟩ sample_transfer
        (const_ops EOK 2) [] 1).2.1
        { sample_device with transfer_queue := [sample_transfer] } r hr
        (Or.inr ⟨sample_transfer, [], rfl, Or.inr (by decide)⟩),
    by decide⟩

/-- Every completion callback called in a pass gets a result code other than
`ENAK`. -/
theorem processor_pass_callback_rc (ops : usbvirt_ops) (submitted : List vhc_transfer_t)
    (dev : vhc_virtdev_t) (r : processor_result)
    (hpass : vhc_transfer_queue_processor_pass ops submitted dev = some r) :
    ∀ e ∈ r.trace, e.callback_rc ≠ some ENAK := by
  unfold vhc_transfer_queue_processor_pass at hpass
  split at hpass
  · simp only [Option.some.injEq] at hpass
    subst hpass
    intro e he
    simp at he
    rcases he with rfl | rfl | rfl <;> simp [Event.callback_rc]
  · rename_i t rest hq
    dsimp only at hpass
    split at hpass
    · simp at hpass
    · split at hpass
      · simp at hpass
      · rename_i done hdone
        simp only [Option.some.injEq] at hpass
        subst hpass
        intro e he hc
        simp only [List.mem_append, List.mem_cons, List.mem_singleton, List.not_mem_nil,
          or_false] at he
        rcases he with (((rfl | he) | (rfl | rfl)) | he) | (rfl | rfl)
        · simp [Event.callback_rc] at hc
        · have := (processor_execute_trace ops _ t e he).2.2
          rw [this] at hc
          simp at hc
        · simp [Event.callback_rc] at hc
        · simp [Event.callback_rc] at hc
        · exact (processor_complete_rc t _ _ done hdone e he ENAK hc).2 rfl
        · simp [Event.callback_rc] at hc
        · simp [Event.callback_rc] at hc

/-- C9: in a pass whose executor call returns `ENAK` for the popped transfer
(and during which nothing is submitted) the pass runs to its end, calls
neither completion callback and does not call `free`, the transfer is in the
queue afterwards and the queue is as long as before; and in no pass at all is
a completion callback called with result code `ENAK`. -/
theorem processor_pass_nak_no_completion (ops : usbvirt_ops) (dev : vhc_virtdev_t)
    (t : vhc_transfer_t) (rest : List vhc_transfer_t)
    (hq : dev.transfer_queue = t :: rest)
    (hrc : (processor_execute ops dev t).rc = ENAK) :
    (∃ r, vhc_transfer_queue_processor_pass ops [] dev = some r ∧
        (∀ e ∈ r.trace, e.is_callback = false ∧ e.is_free = false) ∧
        t ∈ r.dev.transfer_queue ∧
        r.dev.transfer_queue.length = dev.transfer_queue.length) ∧
      (∀ (ops' : usbvirt_ops) (submitted : List vhc_transfer_t) (dev' : vhc_virtdev_t)
          (r' : processor_result),
        vhc_transfer_queue_processor_pass ops' submitted dev' = some r' →
        ∀ e ∈ r'.trace, e.callback_rc ≠ some ENAK) := by
  refine ⟨⟨_, processor_pass_enak ops [] dev t rest hq hrc, ?_, by simp, by simp [hq]⟩,
    fun ops' submitted dev' r' h => processor_pass_callback_rc ops' submitted dev' r' h⟩
  intro e he
  simp only [List.mem_append, List.mem_cons, List.mem_singleton, List.not_mem_nil,
    or_false] at he
  rcases he with ((rfl | he) | (rfl | rfl)) | (rfl | rfl)
  · simp [Event.is_callback, Event.is_free]
  · exact ⟨(processor_execute_trace ops dev t e he).1, (processor_execute_trace ops dev t e he).2.1⟩
  · simp [Event.is_callback, Event.is_free]
  · simp [Event.is_callback, Event.is_free]
  · simp [Event.is_callback, Event.is_free]
  · simp [Event.is_callback, Event.is_free]

/-- C9 at the sample device holding two transfers, with an executor that
answers `ENAK`. -/
theorem processor_pass_nak_no_completion_witness :
    ∃ r, vhc_transfer_queue_processor_pass (const_ops ENAK 0) []
        { sample_device with transfer_queue := [sample_transfer, sample_transfer2] } = some r ∧
      (∀ e ∈ r.trace, e.is_callback = false ∧ e.is_free = false) ∧
      sample_transfer ∈ r.dev.transfer_queue ∧
      r.dev.transfer_queue.length = 2 :=
  (processor_pass_nak_no_completion (const_ops ENAK 0)
    { sample_device with transfer_queue := [sample_transfer, sample_transfer2] }
    sample_transfer [sample_transfer2] rfl (by decide)).1

/-- C10: when the executor returns `ENAK` for the head `t` of the queue
`t :: rest`, and `submitted` is appended by other fibrils while `t` executes,
the queue after the pass is `rest ++ submitted ++ [t]`; so if that queue
starts with an attached transfer `s` for which the executor then returns
something other than `ENAK`, the next pass calls the callback of `s` and
frees `s` while `t` is still the last element of the queue. -/
theorem processor_pass_nak_requeues_at_tail (ops : usbvirt_ops)
    (submitted : List vhc_transfer_t) (dev : vhc_virtdev_t)
    (t : vhc_transfer_t) (rest : List vhc_transfer_t)
    (hq : dev.transfer_queue = t :: rest)
    (hrc : (processor_execute ops dev t).rc = ENAK) :
    ∃ r, vhc_transfer_queue_processor_pass ops submitted dev = some r ∧
      r.dev.transfer_queue = rest ++ submitted ++ [t] ∧
      ∀ (s : vhc_transfer_t) (more : List vhc_transfer_t) (ops2 : usbvirt_ops),
        rest ++ submitted = s :: more → transfer_attached s = true →
        (processor_execute ops2 dev s).rc ≠ ENAK →
        ∃ r2 cb, vhc_transfer_queue_processor_pass ops2 [] r.dev = some r2 ∧
          cb ∈ r2.trace ∧ cb.is_callback = true ∧
          cb.callback_rc = some (processor_execute ops2 dev s).rc ∧
          Event.free s ∈ r2.trace ∧
          r2.dev.transfer_queue = more ++ [t] := by
  refine ⟨_, processor_pass_enak ops submitted dev t rest hq hrc, rfl, ?_⟩
  intro s more ops2 hs hatt hrc2
  have hq1 : ({ dev with transfer_queue := rest ++ submitted ++ [t] } :
      vhc_virtdev_t).transfer_queue = s :: (more ++ [t]) := by
    simp [hs]
  have hex : processor_execute ops2 { dev with transfer_queue := rest ++ submitted ++ [t] } s =
      processor_execute ops2 dev s := processor_execute_congr ops2 dev _ s rfl rfl
  obtain ⟨dev2, cb, hdev2, hiscb, hcbrc, hpass⟩ := processor_pass_done ops2 []
    { dev with transfer_queue := rest ++ submitted ++ [t] } s (more ++ [t]) hq1 hatt
    (by rw [hex]; exact hrc2)
  rw [hex] at hcbrc hpass hdev2
  refine ⟨_, cb, hpass, by simp, hiscb, hcbrc, by simp, ?_⟩
  have := (processor_set_address_frame _ dev2 s _ hdev2).1
  simpa using this

/-- C10 at the sample device with queue `[sample_transfer]` while
`sample_transfer2` is submitted during the executor call that answers
`ENAK`: the queue becomes `[sample_transfer2, sample_transfer]`. -/
theorem processor_pass_nak_requeues_at_tail_witness :
    ∃ r, vhc_transfer_queue_processor_pass (const_ops ENAK 0) [sample_transfer2]
        { sample_device with transfer_queue := [sample_transfer] } = some r ∧
      r.dev.transfer_queue = [] ++ [sample_transfer2] ++ [sample_transfer] ∧
      ∃ r2, vhc_transfer_queue_processor_pass (const_ops EOK 0) [] r.dev = some r2 ∧
        Event.free sample_transfer2 ∈ r2.trace ∧
        r2.dev.transfer_queue = [sample_transfer] := by
  obtain ⟨r, hr, hqueue, hnext⟩ := processor_pass_nak_requeues_at_tail (const_ops ENAK 0)
    [sample_transfer2] { sample_device with transfer_queue := [sample_transfer] }
    sample_transfer [] rfl (by decide)
  obtain ⟨r2, cb, hr2, -, -, -, hfree, hq2⟩ := hnext sample_transfer2 [] (const_ops EOK 0)
    rfl (by decide) (by decide)
  exact ⟨r, hr, hqueue, r2, hr2, hfree, by simpa using hq2⟩

/-! ## Completion of a transfer -/

/-- For a result other than `ENAK` the completion is the callback call for the
transfer's direction followed by `free`. -/
theorem processor_complete_eq (t : vhc_transfer_t) (rc : errno_t) (size : Nat)
    (hrc : rc ≠ ENAK) :
    processor_complete t rc size =
      (completion_callback t rc size).map fun cb => [cb, Event.free t] := by
  unfold processor_complete completion_callback
  by_cases hd : t.direction = USB_DIRECTION_IN
  · cases hcb : t.callback_in <;> simp [hrc, hd, hcb]
  · cases hcb : t.callback_out <;> simp [hrc, hd, hcb]

/-- An attached transfer has a completion callback call. -/
theorem completion_callback_attached (t : vhc_transfer_t) (rc : errno_t) (size : Nat)
    (hatt : transfer_attached t = true) :
    ∃ cb, completion_callback t rc size = some cb ∧ cb.is_callback = true ∧
      cb.is_free = false ∧ cb.is_executor = false ∧ cb.freed = none := by
  simp only [transfer_attached, Bool.and_eq_true] at hatt
  have hdir := hatt.2
  unfold completion_callback
  cases hd : t.direction with
  | USB_DIRECTION_IN =>
    simp only [hd] at hdir
    obtain ⟨cb, hcb⟩ := Option.isSome_iff_exists.mp hdir
    simp [hcb, Event.is_callback, Event.is_free, Event.is_executor, Event.freed]
  | USB_DIRECTION_OUT =>
    simp only [hd] at hdir
    obtain ⟨cb, hcb⟩ := Option.isSome_iff_exists.mp hdir
    simp [hcb, Event.is_callback, Event.is_free, Event.is_executor, Event.freed]

/-- The executor dispatch frees nothing, and what it calls besides executor
operations is the warning only. -/
theorem processor_execute_trace_freed (ops : usbvirt_ops) (dev : vhc_virtdev_t)
    (t : vhc_transfer_t) :
    (processor_execute ops dev t).trace.filter Event.is_callback = [] ∧
      (processor_execute ops dev t).trace.filter Event.is_free = [] ∧
      (processor_execute ops dev t).trace.filterMap Event.freed = [] := by
  refine ⟨?_, ?_, ?_⟩
  · rw [List.filter_eq_nil_iff]
    intro e he
    simp [(processor_execute_trace ops dev t e he).1]
  · rw [List.filter_eq_nil_iff]
    intro e he
    simp [(processor_execute_trace ops dev t e he).2.1]
  · rw [List.filterMap_eq_nil_iff]
    intro e he
    have := (processor_execute_trace ops dev t e he).2.1
    cases e <;> simp_all [Event.is_free, Event.freed]

/-- A pass over an attached transfer whose executor call returns something
other than `ENAK`, with the callback call made explicit. -/
theorem processor_pass_completes (ops : usbvirt_ops) (submitted : List vhc_transfer_t)
    (dev : vhc_virtdev_t) (t : vhc_transfer_t) (rest : List vhc_transfer_t)
    (hq : dev.transfer_queue = t :: rest) (hatt : transfer_attached t = true)
    (hrc : (processor_execute ops dev t).rc ≠ ENAK) :
    ∃ dev2 cb,
      processor_set_address { dev with transfer_queue := rest ++ submitted } t
        (processor_execute ops dev t).rc = some dev2 ∧
      completion_callback t (processor_execute ops dev t).rc
        (processor_execute ops dev t).actual_size = some cb ∧
      vhc_transfer_queue_processor_pass ops submitted dev =
        some
          { dev := dev2
            trace := [Event.fibril_mutex_unlock dev.guard] ++
              (processor_execute ops dev t).trace ++
              [Event.fibril_mutex_lock dev.guard, Event.fibril_mutex_unlock dev.guard] ++
              [cb, Event.free t] ++
              [Event.async_usleep (1000 * 100), Event.fibril_mutex_lock dev.guard] } := by
  have hex : processor_execute ops { dev with transfer_queue := rest ++ submitted } t =
      processor_execute ops dev t := processor_execute_congr ops dev _ t rfl rfl
  obtain ⟨dev2, hdev2⟩ := processor_set_address_total
    { dev with transfer_queue := rest ++ submitted } t (processor_execute ops dev t).rc hatt
  obtain ⟨cb, hcb, -⟩ := completion_callback_attached t (processor_execute ops dev t).rc
    (processor_execute ops dev t).actual_size hatt
  have hdone := processor_complete_eq t (processor_execute ops dev t).rc
    (processor_execute ops dev t).actual_size hrc
  rw [hcb] at hdone
  refine ⟨dev2, cb, hdev2, hcb, ?_⟩
  unfold vhc_transfer_queue_processor_pass
  simp only [hq, hex, hdev2, hdone]
  simp [processor_requeue, hrc]

/-- C11: in a pass (with nothing submitted meanwhile) over an attached
transfer `t` whose executor result `rc` is not `ENAK`, exactly one completion
callback is called, once: the IN slot with `(ddf_fun, rc, actual_size,
callback_arg)` when `t` is an IN transfer, `actual_size` being what the
executor reported, and the OUT slot with `(ddf_fun, rc, callback_arg)` when `t`
is an OUT transfer; `free(t)` is the only `free` and follows the callback
directly; `t` has left the queue, which is one shorter. -/
theorem processor_pass_completion (ops : usbvirt_ops) (dev : vhc_virtdev_t)
    (t : vhc_transfer_t) (rest : List vhc_transfer_t)
    (hq : dev.transfer_queue = t :: rest) (hatt : transfer_attached t = true)
    (hrc : (processor_execute ops dev t).rc ≠ ENAK) :
    ∃ r cb, vhc_transfer_queue_processor_pass ops [] dev = some r ∧
      r.trace.filter Event.is_callback = [cb] ∧
      (t.direction = USB_DIRECTION_IN → ∃ f, t.callback_in = some f ∧
        cb = Event.callback_in f t.ddf_fun (processor_execute ops dev t).rc
          (processor_execute ops dev t).actual_size t.callback_arg) ∧
      (t.direction = USB_DIRECTION_OUT → ∃ f, t.callback_out = some f ∧
        cb = Event.callback_out f t.ddf_fun (processor_execute ops dev t).rc t.callback_arg) ∧
      r.trace.filter Event.is_free = [Event.free t] ∧
      (∃ before after, r.trace = before ++ [cb, Event.free t] ++ after) ∧
      r.dev.transfer_queue = rest ∧
      r.dev.transfer_queue.length + 1 = dev.transfer_queue.length := by
  obtain ⟨dev2, cb, hdev2, hcb, hpass⟩ := processor_pass_completes ops [] dev t rest hq hatt hrc
  obtain ⟨cb', hcb', hiscb, hnotfree, -, -⟩ := completion_callback_attached t
    (processor_execute ops dev t).rc (processor_execute ops dev t).actual_size hatt
  have hcbeq : cb' = cb := by
    rw [hcb] at hcb'
    exact (Option.some.inj hcb').symm
  subst hcbeq
  have hex := processor_execute_trace_freed ops dev t
  have hqueue : dev2.transfer_queue = rest := by
    have := (processor_set_address_frame _ dev2 t _ hdev2).1
    simpa using this
  refine ⟨_, cb', hpass, ?_, ?_, ?_, ?_, ⟨_, _, rfl⟩, hqueue, by simp [hqueue, hq]⟩
  · simp only [List.filter_append, List.filter_cons, List.filter_nil, hex.1, hiscb]
    simp [Event.is_callback]
  · intro hd
    simp only [completion_callback, hd, if_true, Option.map_eq_some'] at hcb
    obtain ⟨f, hf, hcbf⟩ := hcb
    exact ⟨f, hf, hcbf.symm⟩
  · intro hd
    simp [completion_callback, hd] at hcb
    obtain ⟨f, hf, hcbf⟩ := hcb
    exact ⟨f, hf, hcbf.symm⟩
  · simp only [List.filter_append, List.filter_cons, List.filter_nil, hex.2.1, hnotfree]
    simp [Event.is_free]

/-- C11 at the sample device holding the sample IN transfer, the executor
reporting `EOK` with 7 bytes: the IN callback is called once with
`(EOK, 7)`. -/
theorem processor_pass_completion_witness :
    ∃ r, vhc_transfer_queue_processor_pass (const_ops EOK 7) []
        { sample_device with transfer_queue := [sample_transfer] } = some r ∧
      r.trace.filter Event.is_callback = [Event.callback_in 21 11 EOK 7 12] ∧
      r.trace.filter Event.is_free = [Event.free sample_transfer] ∧
      r.dev.transfer_queue = [] := by
  obtain ⟨r, cb, hr, hcbs, hin, -, hfree, -, hqueue, -⟩ :=
    processor_pass_completion (const_ops EOK 7)
      { sample_device with transfer_queue := [sample_transfer] } sample_transfer []
      rfl (by decide) (by decide)
  obtain ⟨f, hf, hcb⟩ := hin rfl
  have hf21 : f = 21 := by
    have : sample_transfer.callback_in = some 21 := rfl
    rw [this] at hf
    exact (Option.some.inj hf).symm
  subst hf21
  refine ⟨r, hr, ?_, hfree, hqueue⟩
  rw [hcbs, hcb]
  rfl

/-- The executor dispatch for a device without a phone and with a local
handle, on a CONTROL OUT transfer, is one `usbvirt_control_write`. -/
theorem processor_execute_local_control_write (ops : usbvirt_ops) (dev : vhc_virtdev_t)
    (t : vhc_transfer_t) (h : Nat) (hphone : dev.dev_phone ≤ 0)
    (hlocal : dev.dev_local = some h) (htype : t.transfer_type = USB_TRANSFER_CONTROL)
    (hdir : t.direction = USB_DIRECTION_OUT) :
    processor_execute ops dev t =
      { rc := ops.usbvirt_control_write h t.setup_buffer t.setup_buffer_size
          t.data_buffer t.data_buffer_size,
        actual_size := 0,
        trace := [Event.usbvirt_control_write h t.setup_buffer t.setup_buffer_size
          t.data_buffer t.data_buffer_size] } := by
  have hnot : ¬ dev.dev_phone > 0 := by omega
  simp [processor_execute, hnot, hlocal, process_transfer_local, htype, hdir]

/-- One pass of the loop on a plugged device, the other fibrils leaving the
device alone. -/
theorem processor_loop_one_quiet_pass (ops : usbvirt_ops) (dev : vhc_virtdev_t)
    (r : processor_result) (hplug : dev.plugged = true)
    (hpass : vhc_transfer_queue_processor_pass ops [] dev = some r)
    (hrplug : r.dev.plugged = true) :
    processor_loop [quiet_env ops] dev = some { rc := none, dev := r.dev, trace := r.trace } := by
  obtain ⟨⟨g, a, p, ph, l, q⟩, tr⟩ := r
  simp only at hrplug
  subst hrplug
  simp [processor_loop, quiet_env, hplug, hpass]

/-- C12: a registry holds a plugged device `D` with address 5, a local handle,
no phone and an empty queue, and no device before it has address 5.
Submitting an OUT CONTROL transfer for address 5, endpoint 0, whose setup
packet has request type 0, request SET_ADDRESS and value 9 (OUT callback
bound) returns `EOK` and puts the transfer in `D`'s queue; after one pass of
`D`'s processor in which the control write reports `EOK`, `D` has address 9
and an empty queue, and the only completion callback called is the OUT
callback, once, with `EOK`. -/
theorem set_address_end_to_end (vhc : vhc_data_t) (pre : List vhc_virtdev_t)
    (D : vhc_virtdev_t) (post : List vhc_virtdev_t) (t : vhc_transfer_t)
    (setup : usb_device_request_setup_packet_t) (h f : Nat) (ops : usbvirt_ops)
    (hsplit : vhc.devices = pre ++ D :: post) (hpre : ∀ x ∈ pre, x.address ≠ 5)
    (haddr : D.address = 5) (hplug : D.plugged = true) (hphone : D.dev_phone ≤ 0)
    (hlocal : D.dev_local = some h) (hempty : D.transfer_queue = [])
    (htaddr : t.address = 5) (hep : t.endpoint = 0)
    (hdir : t.direction = USB_DIRECTION_OUT)
    (htype : t.transfer_type = USB_TRANSFER_CONTROL)
    (hsize : t.setup_buffer_size = sizeof_setup_packet)
    (hsetup : t.setup_buffer = some setup) (hreqtype : setup.request_type = 0)
    (hreq : setup.request = USB_DEVREQ_SET_ADDRESS) (hvalue : setup.value = 9)
    (hcb : t.callback_out = some f)
    (hexec : ops.usbvirt_control_write h t.setup_buffer t.setup_buffer_size
      t.data_buffer t.data_buffer_size = EOK) :
    (vhc_virtdev_add_transfer vhc t).rc = EOK ∧
      ∃ D1 run, (vhc_virtdev_add_transfer vhc t).vhc.devices = pre ++ D1 :: post ∧
        D1.transfer_queue = [t] ∧
        processor_loop [quiet_env ops] D1 = some run ∧
        run.dev.address = 9 ∧ run.dev.transfer_queue = [] ∧
        run.trace.filter Event.is_callback =
          [Event.callback_out f t.ddf_fun EOK t.callback_arg] ∧
        run.trace.filter Event.is_free = [Event.free t] := by
  have hadd := add_transfer_first_match vhc t pre D post hsplit
    (fun x hx => by rw [htaddr]; exact hpre x hx) (by rw [haddr, htaddr])
  have hset : is_set_address_transfer t = some true := by
    simp [is_set_address_transfer, hep, hdir, htype, hsize, hsetup, hreqtype, hreq]
  have hatt : transfer_attached t = true := by
    simp [transfer_attached, hsetup, hdir, hcb]
  have hexe := processor_execute_local_control_write ops
    { D with transfer_queue := D.transfer_queue ++ [t] } t h hphone hlocal htype hdir
  rw [hexec] at hexe
  obtain ⟨dev2, cb, hdev2, hcbv, hpass⟩ := processor_pass_completes ops []
    { D with transfer_queue := D.transfer_queue ++ [t] } t [] (by simp [hempty]) hatt
    (by rw [hexe]; simp)
  rw [hexe] at hdev2 hcbv hpass
  simp only [processor_set_address, if_true, hset, hsetup, Option.some.injEq] at hdev2
  simp [completion_callback, hdir, hcb] at hcbv
  subst hdev2 hcbv
  have hloop := processor_loop_one_quiet_pass ops
    { D with transfer_queue := D.transfer_queue ++ [t] } _ hplug hpass hplug
  refine ⟨hadd.1, { D with transfer_queue := D.transfer_queue ++ [t] }, _, by rw [hadd.2],
    by simp [hempty], hloop, by simp [hvalue], by simp, ?_, ?_⟩
  · simp [List.filter_cons, Event.is_callback]
  · simp [List.filter_cons, Event.is_free]

/-- C12 at the registry that holds the sample device alone, with the canonical
SET_ADDRESS transfer and an executor that reports `EOK`. -/
theorem set_address_end_to_end_witness :
    (vhc_virtdev_add_transfer ⟨0, [sample_device]⟩ sample_set_address).rc = EOK ∧
      ∃ D1 run,
        (vhc_virtdev_add_transfer ⟨0, [sample_device]⟩ sample_set_address).vhc.devices =
          [] ++ D1 :: [] ∧
        D1.transfer_queue = [sample_set_address] ∧
        processor_loop [quiet_env (const_ops EOK 0)] D1 = some run ∧
        run.dev.address = 9 ∧ run.dev.transfer_queue = [] ∧
        run.trace.filter Event.is_callback =
          [Event.callback_out 22 sample_set_address.ddf_fun EOK
            sample_set_address.callback_arg] ∧
        run.trace.filter Event.is_free = [Event.free sample_set_address] :=
  set_address_end_to_end ⟨0, [sample_device]⟩ [] sample_device [] sample_set_address
    ⟨0, USB_DEVREQ_SET_ADDRESS, 9, 0, 0⟩ 7 22 (const_ops EOK 0)
    rfl (by simp) rfl rfl (by decide) rfl rfl rfl rfl rfl rfl rfl rfl rfl rfl rfl rfl rfl

/-! ## The two executor variants -/

/-- C13: `process_transfer_local` and `process_transfer_remote` both make the
one call that the spec's selection by (transfer type, direction) names,
control read and control write with the setup and data buffers, data in and
data out with the endpoint and the data buffer; each returns the result code
of that call, the IN operations also the size the call reported, and the OUT
operations leave the size as it was. -/
theorem process_transfer_refines_selection (ops : usbvirt_ops) (t : vhc_transfer_t)
    (dev : Nat) (phone : Int) (a : Nat) :
    (spec_select_operation t.transfer_type t.direction = executor_operation.control_read →
        process_transfer_local ops t dev a =
          { rc := (ops.usbvirt_control_read dev t.setup_buffer t.setup_buffer_size
              t.data_buffer t.data_buffer_size).1,
            actual_size := (ops.usbvirt_control_read dev t.setup_buffer t.setup_buffer_size
              t.data_buffer t.data_buffer_size).2,
            trace := [Event.usbvirt_control_read dev t.setup_buffer t.setup_buffer_size
              t.data_buffer t.data_buffer_size] } ∧
        process_transfer_remote ops t phone a =
          { rc := (ops.usbvirt_ipc_send_control_read phone t.setup_buffer t.setup_buffer_size
              t.data_buffer t.data_buffer_size).1,
            actual_size := (ops.usbvirt_ipc_send_control_read phone t.setup_buffer
              t.setup_buffer_size t.data_buffer t.data_buffer_size).2,
            trace := [Event.usbvirt_ipc_send_control_read phone t.setup_buffer
              t.setup_buffer_size t.data_buffer t.data_buffer_size] }) ∧
      (spec_select_operation t.transfer_type t.direction = executor_operation.control_write →
        process_transfer_local ops t dev a =
          { rc := ops.usbvirt_control_write dev t.setup_buffer t.setup_buffer_size
              t.data_buffer t.data_buffer_size,
            actual_size := a,
            trace := [Event.usbvirt_control_write dev t.setup_buffer t.setup_buffer_size
              t.data_buffer t.data_buffer_size] } ∧
        process_transfer_remote ops t phone a =
          { rc := ops.usbvirt_ipc_send_control_write phone t.setup_buffer t.setup_buffer_size
              t.data_buffer t.data_buffer_size,
            actual_size := a,
            trace := [Event.usbvirt_ipc_send_control_write phone t.setup_buffer
              t.setup_buffer_size t.data_buffer t.data_buffer_size] }) ∧
      (spec_select_operation t.transfer_type t.direction = executor_operation.data_in →
        process_transfer_local ops t dev a =
          { rc := (ops.usbvirt_data_in dev t.transfer_type t.endpoint
              t.data_buffer t.data_buffer_size).1,
            actual_size := (ops.usbvirt_data_in dev t.transfer_type t.endpoint
              t.data_buffer t.data_buffer_size).2,
            trace := [Event.usbvirt_data_in dev t.transfer_type t.endpoint
              t.data_buffer t.data_buffer_size] } ∧
        process_transfer_remote ops t phone a =
          { rc := (ops.usbvirt_ipc_send_data_in phone t.endpoint t.transfer_type
              t.data_buffer t.data_buffer_size).1,
            actual_size := (ops.usbvirt_ipc_send_data_in phone t.endpoint t.transfer_type
              t.data_buffer t.data_buffer_size).2,
            trace := [Event.usbvirt_ipc_send_data_in phone t.endpoint t.transfer_type
              t.data_buffer t.data_buffer_size] }) ∧
      (spec_select_operation t.transfer_type t.direction = executor_operation.data_out →
        process_transfer_local ops t dev a =
          { rc := ops.usbvirt_data_out dev t.transfer_type t.endpoint
              t.data_buffer t.data_buffer_size,
            actual_size := a,
            trace := [Event.usbvirt_data_out dev t.transfer_type t.endpoint
              t.data_buffer t.data_buffer_size] } ∧
        process_transfer_remote ops t phone a =
          { rc := ops.usbvirt_ipc_send_data_out phone t.endpoint t.transfer_type
              t.data_buffer t.data_buffer_size,
            actual_size := a,
            trace := [Event.usbvirt_ipc_send_data_out phone t.endpoint t.transfer_type
              t.data_buffer t.data_buffer_size] }) ∧
      ((process_transfer_local ops t dev a).trace.filter Event.is_executor).length = 1 ∧
      ((process_transfer_remote ops t phone a).trace.filter Event.is_executor).length = 1 ∧
      (process_transfer_local ops t dev a).trace.length = 1 ∧
      (process_transfer_remote ops t phone a).trace.length = 1 := by
  cases htype : t.transfer_type <;> cases hdir : t.direction <;>
    simp [spec_select_operation, process_transfer_local, process_transfer_remote, htype, hdir,
      Event.is_executor]

/-- C13 at the sample transfers: a bulk IN transfer is a data-in call, the
SET_ADDRESS control transfer a control-write call, in both variants. -/
theorem process_transfer_refines_selection_witness :
    (process_transfer_local (const_ops EOK 7) sample_transfer 7 0).trace =
        [Event.usbvirt_data_in 7 USB_TRANSFER_BULK 1 (some [0, 0]) 2] ∧
      (process_transfer_remote (const_ops EOK 7) sample_transfer 3 0).trace =
        [Event.usbvirt_ipc_send_data_in 3 1 USB_TRANSFER_BULK (some [0, 0]) 2] ∧
      (process_transfer_local (const_ops ESTALL 7) sample_set_address 7 0).rc = ESTALL :=
  ⟨congrArg exec_result.trace
      ((process_transfer_refines_selection (const_ops EOK 7) sample_transfer 7 3 0).2.2.1
        rfl).1,
    congrArg exec_result.trace
      ((process_transfer_refines_selection (const_ops EOK 7) sample_transfer 7 3 0).2.2.1
        rfl).2,
    by decide⟩

/-! ## A device with neither phone nor local handle -/

/-- A transfer whose callback slot for its direction is bound has a
completion callback call. -/
theorem completion_callback_bound (t : vhc_transfer_t) (rc : errno_t) (size : Nat)
    (hcb : callback_bound t = true) :
    ∃ cb, completion_callback t rc size = some cb := by
  unfold callback_bound at hcb
  unfold completion_callback
  cases hd : t.direction with
  | USB_DIRECTION_IN =>
    simp only [hd] at hcb
    obtain ⟨f, hf⟩ := Option.isSome_iff_exists.mp hcb
    simp [hf]
  | USB_DIRECTION_OUT =>
    simp only [hd] at hcb
    obtain ⟨f, hf⟩ := Option.isSome_iff_exists.mp hcb
    simp [hf]

/-- The completion callback call by direction. -/
theorem completion_callback_cases (t : vhc_transfer_t) (rc : errno_t) (size : Nat)
    (cb : Event) (h : completion_callback t rc size = some cb) :
    (t.direction = USB_DIRECTION_IN → ∃ f, t.callback_in = some f ∧
        cb = Event.callback_in f t.ddf_fun rc size t.callback_arg) ∧
      (t.direction = USB_DIRECTION_OUT → ∃ f, t.callback_out = some f ∧
        cb = Event.callback_out f t.ddf_fun rc t.callback_arg) := by
  constructor
  · intro hd
    simp only [completion_callback, hd, if_true, Option.map_eq_some'] at h
    obtain ⟨f, hf, hcbf⟩ := h
    exact ⟨f, hf, hcbf.symm⟩
  · intro hd
    simp [completion_callback, hd] at h
    obtain ⟨f, hf, hcbf⟩ := h
    exact ⟨f, hf, hcbf.symm⟩

/-- C14: when the device has no phone (`dev_phone <= 0`) and no local handle
(`dev_local == NULL`), a pass over a transfer whose callback slot is bound
calls no executor operation, logs the warning, calls the callback selected by
the direction with `ESTALL` (and size 0 for IN), frees the transfer, leaves the
queue without it and the address as it was; and the loop goes on with the
next pass on that device. -/
theorem processor_pass_no_target (env : pass_env) (envs : List pass_env)
    (dev : vhc_virtdev_t) (t : vhc_transfer_t) (rest : List vhc_transfer_t)
    (hphone : dev.dev_phone ≤ 0) (hlocal : dev.dev_local = none)
    (hq : dev.transfer_queue = t :: rest) (hcb : callback_bound t = true) :
    ∃ r cb, vhc_transfer_queue_processor_pass env.ops env.submitted dev = some r ∧
      r.trace = [Event.fibril_mutex_unlock dev.guard,
        Event.usb_log_warning warning_t.no_phone_nor_local,
        Event.fibril_mutex_lock dev.guard, Event.fibril_mutex_unlock dev.guard,
        cb, Event.free t,
        Event.async_usleep (1000 * 100), Event.fibril_mutex_lock dev.guard] ∧
      (t.direction = USB_DIRECTION_IN → ∃ f, t.callback_in = some f ∧
        cb = Event.callback_in f t.ddf_fun ESTALL 0 t.callback_arg) ∧
      (t.direction = USB_DIRECTION_OUT → ∃ f, t.callback_out = some f ∧
        cb = Event.callback_out f t.ddf_fun ESTALL t.callback_arg) ∧
      r.trace.filter Event.is_executor = [] ∧
      r.dev = { dev with transfer_queue := rest ++ env.submitted } ∧
      r.dev.address = dev.address ∧
      (dev.plugged = true →
        processor_loop (env :: envs) dev =
          (processor_loop envs
            { dev with
              transfer_queue := rest ++ env.submitted ++ env.arrived
              plugged := !env.unplug }).map
            fun run => { run with trace := r.trace ++ run.trace }) := by
  have hnot : ¬ dev.dev_phone > 0 := by omega
  have hexe : ∀ q, processor_execute env.ops { dev with transfer_queue := q } t =
      { rc := ESTALL, actual_size := 0,
        trace := [Event.usb_log_warning warning_t.no_phone_nor_local] } := by
    intro q
    simp [processor_execute, hnot, hlocal]
  obtain ⟨cb, hcbv⟩ := completion_callback_bound t ESTALL 0 hcb
  have hdone := processor_complete_eq t ESTALL 0 (by decide)
  rw [hcbv] at hdone
  have hcases := completion_callback_cases t ESTALL 0 cb hcbv
  have hiscb : cb.is_executor = false := by
    cases hd : t.direction with
    | USB_DIRECTION_IN =>
      obtain ⟨f, -, hf⟩ := hcases.1 hd
      rw [hf]
      rfl
    | USB_DIRECTION_OUT =>
      obtain ⟨f, -, hf⟩ := hcases.2 hd
      rw [hf]
      rfl
  have hpass : vhc_transfer_queue_processor_pass env.ops env.submitted dev =
      some
        { dev := { dev with transfer_queue := rest ++ env.submitted }
          trace := [Event.fibril_mutex_unlock dev.guard,
            Event.usb_log_warning warning_t.no_phone_nor_local,
            Event.fibril_mutex_lock dev.guard, Event.fibril_mutex_unlock dev.guard,
            cb, Event.free t,
            Event.async_usleep (1000 * 100), Event.fibril_mutex_lock dev.guard] } := by
    unfold vhc_transfer_queue_processor_pass
    simp only [hq, hexe]
    simp [processor_set_address, processor_requeue, hdone]
  refine ⟨_, cb, hpass, rfl, hcases.1, hcases.2, ?_, rfl, rfl, ?_⟩
  · simp only [List.filter_cons, List.filter_nil, hiscb]
    simp [Event.is_executor]
  · intro hplug
    simp only [processor_loop, hplug, if_true, hpass, Bool.true_and, List.append_assoc]
    cases processor_loop envs _ <;> rfl

/-- C14 at a device without phone and local handle that holds the two sample
transfers: the IN transfer is completed with `(ESTALL, 0)`, no executor
operation is called, the other transfer stays queued and the address stays
5. -/
theorem processor_pass_no_target_witness :
    ∃ r, vhc_transfer_queue_processor_pass (const_ops EOK 7) []
        { sample_device with
          dev_local := none
          transfer_queue := [sample_transfer, sample_transfer2] } = some r ∧
      r.trace.filter Event.is_callback = [Event.callback_in 21 11 ESTALL 0 12] ∧
      r.trace.filter Event.is_executor = [] ∧
      r.dev.transfer_queue = [sample_transfer2] ∧ r.dev.address = 5 := by
  obtain ⟨r, cb, hpass, htrace, hin, -, hexec, hdev, haddr, -⟩ := processor_pass_no_target
    (quiet_env (const_ops EOK 7)) []
    { sample_device with
      dev_local := none
      transfer_queue := [sample_transfer, sample_transfer2] }
    sample_transfer [sample_transfer2] (by decide) rfl rfl (by decide)
  obtain ⟨f, hf, hcb⟩ := hin rfl
  have hf21 : f = 21 := by
    have : sample_transfer.callback_in = some 21 := rfl
    rw [this] at hf
    exact (Option.some.inj hf).symm
  subst hf21
  subst hcb
  refine ⟨r, hpass, ?_, hexec, ?_, haddr⟩
  · rw [htrace]
    rfl
  · rw [hdev]
    rfl

/-! ## FIFO order of execution -/

/-- What a completing pass shows of executor calls, callbacks and frees. -/
theorem completing_trace_observations (g : Nat) (ex : List Event) (cb : Event)
    (t : vhc_transfer_t)
    (hex1 : ex.filter Event.is_callback = []) (hex2 : ex.filterMap Event.freed = [])
    (hcb1 : cb.is_callback = true) (hcb2 : cb.is_executor = false)
    (hcb3 : cb.freed = none) :
    ([Event.fibril_mutex_unlock g] ++ ex ++
          [Event.fibril_mutex_lock g, Event.fibril_mutex_unlock g] ++ [cb, Event.free t] ++
          [Event.async_usleep (1000 * 100), Event.fibril_mutex_lock g]).filter
        Event.is_callback = [cb] ∧
      ([Event.fibril_mutex_unlock g] ++ ex ++
          [Event.fibril_mutex_lock g, Event.fibril_mutex_unlock g] ++ [cb, Event.free t] ++
          [Event.async_usleep (1000 * 100), Event.fibril_mutex_lock g]).filterMap
        Event.freed = [t] ∧
      ([Event.fibril_mutex_unlock g] ++ ex ++
          [Event.fibril_mutex_lock g, Event.fibril_mutex_unlock g] ++ [cb, Event.free t] ++
          [Event.async_usleep (1000 * 100), Event.fibril_mutex_lock g]).filter
        Event.is_executor = ex.filter Event.is_executor := by
  refine ⟨?_, ?_, ?_⟩
  · simp only [List.filter_append, List.filter_cons, List.filter_nil, hex1, hcb1]
    simp [Event.is_callback]
  · simp only [List.filterMap_append, List.filterMap_cons, List.filterMap_nil, hex2, hcb3]
    simp [Event.freed]
  · simp only [List.filter_append, List.filter_cons, List.filter_nil, hcb2]
    simp [Event.is_executor]

/-- The loop over a queue of attached transfers, one quiet pass for each, no
executor call answering `ENAK`: every transfer is executed, called back and
freed in queue order. -/
theorem processor_loop_fifo (dev0 : vhc_virtdev_t) (opss : List usbvirt_ops)
    (ts : List vhc_transfer_t)
    (hall : List.Forall₂
      (fun ops t => transfer_attached t = true ∧ (processor_execute ops dev0 t).rc ≠ ENAK)
      opss ts) :
    ∀ dev : vhc_virtdev_t, dev.plugged = true → dev.transfer_queue = ts →
      dev.dev_phone = dev0.dev_phone → dev.dev_local = dev0.dev_local →
      ∃ run, processor_loop (opss.map quiet_env) dev = some run ∧
        run.rc = none ∧ run.dev.transfer_queue = [] ∧
        run.trace.filterMap Event.freed = ts ∧
        (run.trace.filter Event.is_callback).map some =
          List.zipWith (fun ops t => completion_callback t (processor_execute ops dev0 t).rc
            (processor_execute ops dev0 t).actual_size) opss ts ∧
        run.trace.filter Event.is_executor =
          (List.zipWith (fun ops t =>
            (processor_execute ops dev0 t).trace.filter Event.is_executor) opss ts).flatten := by
  induction hall with
  | nil =>
    intro dev hplug hq _ _
    exact ⟨{ rc := none, dev := dev, trace := [] }, by simp [processor_loop, hplug],
      rfl, hq, by simp, by simp, by simp⟩
  | @cons ops t opss ts hhead _ ih =>
    intro dev hplug hq hphone hlocal
    have hexe : processor_execute ops dev t = processor_execute ops dev0 t :=
      processor_execute_congr ops dev0 dev t hphone hlocal
    obtain ⟨dev2, cb, hdev2, hcb, hpass⟩ := processor_pass_completes ops [] dev t ts hq
      hhead.1 (by rw [hexe]; exact hhead.2)
    obtain ⟨cb', hcb', hcb1, -, hcb2, hcb3⟩ := completion_callback_attached t
      (processor_execute ops dev t).rc (processor_execute ops dev t).actual_size hhead.1
    have hcbeq : cb' = cb := by
      rw [hcb] at hcb'
      exact (Option.some.inj hcb').symm
    subst hcbeq
    have hframe := processor_set_address_frame _ dev2 t _ hdev2
    obtain ⟨run, hrun, hrc, hqueue, hfreed, hcbs, hexs⟩ := ih
      { dev2 with
        transfer_queue := dev2.transfer_queue ++ []
        plugged := dev2.plugged && !false }
      (by simp [hframe.2.2.1, hplug]) (by simp [hframe.1])
      (by simp [hframe.2.2.2.1, hphone]) (by simp [hframe.2.2.2.2, hlocal])
    have hobs := completing_trace_observations dev.guard (processor_execute ops dev t).trace
      cb' t (processor_execute_trace_freed ops dev t).1
      (processor_execute_trace_freed ops dev t).2.2 hcb1 hcb2 hcb3
    refine ⟨{ run with
        trace := ([Event.fibril_mutex_unlock dev.guard] ++
          (processor_execute ops dev t).trace ++
          [Event.fibril_mutex_lock dev.guard, Event.fibril_mutex_unlock dev.guard] ++
          [cb', Event.free t] ++
          [Event.async_usleep (1000 * 100), Event.fibril_mutex_lock dev.guard]) ++ run.trace },
      ?_, hrc, hqueue, ?_, ?_, ?_⟩
    · have h1 : (quiet_env ops).ops = ops := rfl
      have h2 : (quiet_env ops).submitted = [] := rfl
      have h3 : (quiet_env ops).arrived = [] := rfl
      have h4 : (quiet_env ops).unplug = false := rfl
      simp only [List.map_cons, processor_loop, hplug, if_true, h1, h2, h3, h4, hpass, hrun]
    · show List.filterMap Event.freed (_ ++ run.trace) = _
      rw [List.filterMap_append, hobs.2.1, hfreed]
      rfl
    · show List.map some (List.filter Event.is_callback (_ ++ run.trace)) = _
      rw [List.filter_append, hobs.1, List.map_append, hcbs, List.zipWith_cons_cons, ← hexe,
        hcb']
      rfl
    · show List.filter Event.is_executor (_ ++ run.trace) = _
      rw [List.filter_append, hobs.2.2, hexs, List.zipWith_cons_cons, List.flatten_cons,
        ← hexe]

/-- In the FIFO queue of the spec the executed transfers followed by the
queue at the end are the queue at the start followed by the arrivals. -/
theorem spec_fifo_order : ∀ (envs : List pass_env) (plugged : Bool)
    (queue : List vhc_transfer_t),
    (spec_fifo envs plugged queue).executed.map Prod.snd ++ (spec_fifo envs plugged queue).queue
      = queue ++ (spec_fifo envs plugged queue).arrivals
  | [], _, queue => by simp [spec_fifo]
  | _ :: _, false, queue => by simp [spec_fifo]
  | env :: envs, true, [] => by
    have ih := spec_fifo_order envs (!env.unplug) env.arrived
    simp only [spec_fifo, List.nil_append]
    exact ih
  | env :: envs, true, t :: rest => by
    have ih := spec_fifo_order envs (!env.unplug) (rest ++ env.submitted ++ env.arrived)
    simp only [spec_fifo, List.map_cons, List.cons_append]
    rw [ih]
    simp only [List.append_assoc]

/-- The loop under any passes, any arrivals during them and any unplugging:
as long as the transfer at the head of the queue is attached and the executor
does not answer `ENAK` for it, the loop executes, calls back and frees the
transfers the FIFO queue of the spec executes, in that order, and leaves that
queue. -/
theorem processor_loop_follows_fifo (dev0 : vhc_virtdev_t) :
    ∀ (envs : List pass_env) (dev : vhc_virtdev_t),
      dev.dev_phone = dev0.dev_phone → dev.dev_local = dev0.dev_local →
      (∀ p ∈ (spec_fifo envs dev.plugged dev.transfer_queue).executed,
        transfer_attached p.2 = true ∧ (processor_execute p.1 dev0 p.2).rc ≠ ENAK) →
      ∃ run, processor_loop envs dev = some run ∧
        run.dev.transfer_queue = (spec_fifo envs dev.plugged dev.transfer_queue).queue ∧
        run.trace.filterMap Event.freed =
          (spec_fifo envs dev.plugged dev.transfer_queue).executed.map Prod.snd ∧
        (run.trace.filter Event.is_callback).map some =
          (spec_fifo envs dev.plugged dev.transfer_queue).executed.map
            (fun p => completion_callback p.2 (processor_execute p.1 dev0 p.2).rc
              (processor_execute p.1 dev0 p.2).actual_size) ∧
        run.trace.filter Event.is_executor =
          ((spec_fifo envs dev.plugged dev.transfer_queue).executed.map
            (fun p => (processor_execute p.1 dev0 p.2).trace.filter Event.is_executor)).flatten := by
  intro envs
  induction envs with
  | nil =>
    intro dev _ _ _
    by_cases hplug : dev.plugged = true
    · exact ⟨{ rc := none, dev := dev, trace := [] }, by simp [processor_loop, hplug],
        by simp [spec_fifo], by simp [spec_fifo], by simp [spec_fifo], by simp [spec_fifo]⟩
    · exact ⟨{ rc := some EOK, dev := dev, trace := [Event.fibril_mutex_unlock dev.guard] },
        by simp [processor_loop, hplug], by simp [spec_fifo],
        by simp [spec_fifo, Event.freed], by simp [spec_fifo, Event.is_callback],
        by simp [spec_fifo, Event.is_executor]⟩
  | cons env envs ih =>
    intro dev hphone hlocal hcalls
    by_cases hplug : dev.plugged = true
    · cases hq : dev.transfer_queue with
      | nil =>
        rw [hplug, hq] at hcalls
        simp only [spec_fifo] at hcalls
        obtain ⟨run, hrun, hqueue, hfreed, hcbs, hexs⟩ := ih
          { dev with
            transfer_queue := dev.transfer_queue ++ env.arrived
            plugged := dev.plugged && !env.unplug }
          hphone hlocal (by simpa [hplug, hq] using hcalls)
        simp only [hplug, hq, List.nil_append, Bool.true_and] at hqueue hfreed hcbs hexs
        have hpass : vhc_transfer_queue_processor_pass env.ops env.submitted dev =
            some
              { dev := dev
                trace := [Event.fibril_mutex_unlock dev.guard, Event.async_usleep (10 * 1000),
                  Event.fibril_mutex_lock dev.guard] } := by
          simp [vhc_transfer_queue_processor_pass, hq]
        refine ⟨{ run with
            trace := [Event.fibril_mutex_unlock dev.guard, Event.async_usleep (10 * 1000),
              Event.fibril_mutex_lock dev.guard] ++ run.trace }, ?_, ?_, ?_, ?_, ?_⟩
        · rw [hplug] at hrun
          simp only [processor_loop, hplug, if_true, hpass, hrun]
        · rw [hplug]
          simp only [spec_fifo]
          exact hqueue
        · rw [hplug]
          simp only [spec_fifo]
          show List.filterMap Event.freed (_ ++ run.trace) = _
          rw [List.filterMap_append, hfreed]
          simp [Event.freed]
        · rw [hplug]
          simp only [spec_fifo]
          show List.map some (List.filter Event.is_callback (_ ++ run.trace)) = _
          rw [List.filter_append, List.map_append, hcbs]
          simp [Event.is_callback]
        · rw [hplug]
          simp only [spec_fifo]
          show List.filter Event.is_executor (_ ++ run.trace) = _
          rw [List.filter_append, hexs]
          simp [Event.is_executor]
      | cons t rest =>
        rw [hplug, hq] at hcalls
        simp only [spec_fifo, List.mem_cons, forall_eq_or_imp] at hcalls
        obtain ⟨hhead, htail⟩ := hcalls
        have hexe : processor_execute env.ops dev t = processor_execute env.ops dev0 t :=
          processor_execute_congr env.ops dev0 dev t hphone hlocal
        obtain ⟨dev2, cb, hdev2, hcb, hpass⟩ := processor_pass_completes env.ops env.submitted
          dev t rest hq hhead.1 (by rw [hexe]; exact hhead.2)
        obtain ⟨cb', hcb', hcb1, -, hcb2, hcb3⟩ := completion_callback_attached t
          (processor_execute env.ops dev t).rc (processor_execute env.ops dev t).actual_size
          hhead.1
        have hcbeq : cb' = cb := by
          rw [hcb] at hcb'
          exact (Option.some.inj hcb').symm
        subst hcbeq
        have hframe := processor_set_address_frame _ dev2 t _ hdev2
        obtain ⟨run, hrun, hqueue, hfreed, hcbs, hexs⟩ := ih
          { dev2 with
            transfer_queue := dev2.transfer_queue ++ env.arrived
            plugged := dev2.plugged && !env.unplug }
          (by simp [hframe.2.2.2.1, hphone]) (by simp [hframe.2.2.2.2, hlocal])
          (by simpa [hframe.1, hframe.2.2.1, hplug] using htail)
        simp only [hframe.1, hframe.2.2.1, hplug, Bool.true_and] at hqueue hfreed hcbs hexs
        have hobs := completing_trace_observations dev.guard
          (processor_execute env.ops dev t).trace cb' t
          (processor_execute_trace_freed env.ops dev t).1
          (processor_execute_trace_freed env.ops dev t).2.2 hcb1 hcb2 hcb3
        refine ⟨{ run with
            trace := ([Event.fibril_mutex_unlock dev.guard] ++
              (processor_execute env.ops dev t).trace ++
              [Event.fibril_mutex_lock dev.guard, Event.fibril_mutex_unlock dev.guard] ++
              [cb', Event.free t] ++
              [Event.async_usleep (1000 * 100), Event.fibril_mutex_lock dev.guard]) ++
              run.trace }, ?_, ?_, ?_, ?_, ?_⟩
        · simp only [processor_loop, hplug, if_true, hpass, hrun]
        · rw [hplug]
          simp only [spec_fifo]
          exact hqueue
        · rw [hplug]
          simp only [spec_fifo, List.map_cons]
          show List.filterMap Event.freed (_ ++ run.trace) = _
          rw [List.filterMap_append, hobs.2.1, hfreed]
          rfl
        · rw [hplug]
          simp only [spec_fifo, List.map_cons]
          show List.map some (List.filter Event.is_callback (_ ++ run.trace)) = _
          rw [List.filter_append, hobs.1, List.map_append, hcbs, ← hexe, hcb']
          rfl
        · rw [hplug]
          simp only [spec_fifo, List.map_cons, List.flatten_cons]
          show List.filter Event.is_executor (_ ++ run.trace) = _
          rw [List.filter_append, hobs.2.2, hexs, ← hexe]
    · have hfalse : dev.plugged = false := by simpa using hplug
      refine ⟨{ rc := some EOK, dev := dev, trace := [Event.fibril_mutex_unlock dev.guard] },
        by simp [processor_loop, hfalse], ?_, ?_, ?_, ?_⟩
      · rw [hfalse]; simp [spec_fifo]
      · rw [hfalse]; simp [spec_fifo, Event.freed]
      · rw [hfalse]; simp [spec_fifo, Event.is_callback]
      · rw [hfalse]; simp [spec_fifo, Event.is_executor]

/-- C15: for every device `d` and every run of its processor, whatever
transfers arrive during the executor calls, the callbacks and the sleeps,
however many passes find the queue empty and whenever the device is unplugged:
if every executor call made answers something other than `ENAK` (the
transfers executed being attached), the processor returns or is still
running, and the transfers it calls the executor for, calls the completion
callback for and frees are, in this order, the transfers the FIFO queue of the
spec executes, each pass taking the head of the queue.  Those transfers
followed by the queue at the end are the queue at the start followed by the
arrivals in arrival order: transfers are executed in exactly the order they
were submitted, none overtaking another.  Transfers submitted through
`vhc_virtdev_add_transfer` for the address of `d`, the first device with that
address, are all accepted and reach the tail of its queue in call order; and
left alone for one pass for each queued transfer, the plugged device's
processor executes and frees all of them and empties the queue. -/
theorem fifo_execution (d : vhc_virtdev_t) (envs : List pass_env)
    (hcalls : ∀ p ∈ (spec_fifo envs d.plugged d.transfer_queue).executed,
      transfer_attached p.2 = true ∧ (processor_execute p.1 d p.2).rc ≠ ENAK) :
    (∀ (vhc : vhc_data_t) (pre post : List vhc_virtdev_t) (ts : List vhc_transfer_t),
      vhc.devices = pre ++ d :: post → (∀ x ∈ pre, x.address ≠ d.address) →
      (∀ s ∈ ts, s.address = d.address) →
      (submit_all vhc ts).1 = List.replicate ts.length EOK ∧
        (submit_all vhc ts).2.devices =
          pre ++ { d with transfer_queue := d.transfer_queue ++ ts } :: post) ∧
      (∀ opss : List usbvirt_ops, d.plugged = true →
        List.Forall₂
          (fun ops t => transfer_attached t = true ∧ (processor_execute ops d t).rc ≠ ENAK)
          opss d.transfer_queue →
        ∃ run, processor_loop (opss.map quiet_env) d = some run ∧
          run.dev.transfer_queue = [] ∧
          run.trace.filterMap Event.freed = d.transfer_queue) ∧
      (spec_fifo envs d.plugged d.transfer_queue).executed.map Prod.snd ++
          (spec_fifo envs d.plugged d.transfer_queue).queue
        = d.transfer_queue ++ (spec_fifo envs d.plugged d.transfer_queue).arrivals ∧
      ∃ run, processor_loop envs d = some run ∧
        run.dev.transfer_queue = (spec_fifo envs d.plugged d.transfer_queue).queue ∧
        run.trace.filterMap Event.freed =
          (spec_fifo envs d.plugged d.transfer_queue).executed.map Prod.snd ∧
        (run.trace.filter Event.is_callback).map some =
          (spec_fifo envs d.plugged d.transfer_queue).executed.map
            (fun p => completion_callback p.2 (processor_execute p.1 d p.2).rc
              (processor_execute p.1 d p.2).actual_size) ∧
        run.trace.filter Event.is_executor =
          ((spec_fifo envs d.plugged d.transfer_queue).executed.map
            (fun p => (processor_execute p.1 d p.2).trace.filter Event.is_executor)).flatten := by
  refine ⟨?_, ?_, spec_fifo_order envs d.plugged d.transfer_queue,
    processor_loop_follows_fifo d envs d rfl rfl hcalls⟩
  · intro vhc pre post ts hsplit hpre hts
    have hsub := submit_all_first_match ts vhc pre d post hsplit hpre hts
    exact ⟨hsub.1, by rw [hsub.2]⟩
  · intro opss hplug hall
    obtain ⟨run, hrun, -, hqueue, hfreed, -, -⟩ :=
      processor_loop_fifo d opss d.transfer_queue hall d hplug rfl rfl rfl
    exact ⟨run, hrun, hqueue, hfreed⟩

/-- C15 at the sample device holding the sample transfer, over the four sample
passes: the second transfer arrives while the first executes, the third after
the second pass, and the SET_ADDRESS transfer during the sleep of the idle
fourth pass.  The three transfers are freed and called back in arrival order
and the SET_ADDRESS transfer is left in the queue. -/
theorem fifo_execution_witness :
    (∀ p ∈ (spec_fifo sample_envs true [sample_transfer]).executed,
      transfer_attached p.2 = true ∧
        (processor_execute p.1 { sample_device with transfer_queue := [sample_transfer] }
          p.2).rc ≠ ENAK) ∧
    ∃ run,
      processor_loop sample_envs { sample_device with transfer_queue := [sample_transfer] }
        = some run ∧
      run.dev.transfer_queue = [sample_set_address] ∧
      run.trace.filterMap Event.freed = [sample_transfer, sample_transfer2, sample_transfer9] ∧
      run.trace.filter Event.is_callback =
        [Event.callback_in 21 11 EOK 7 12, Event.callback_out 22 11 ESTALL 12,
          Event.callback_in 21 11 EOK 0 12] := by
  have hcalls : ∀ p ∈ (spec_fifo sample_envs true [sample_transfer]).executed,
      transfer_attached p.2 = true ∧
        (processor_execute p.1 { sample_device with transfer_queue := [sample_transfer] }
          p.2).rc ≠ ENAK := by
    decide
  obtain ⟨run, hrun, hqueue, hfreed, hcbs, -⟩ :=
    (fifo_execution { sample_device with transfer_queue := [sample_transfer] } sample_envs
      hcalls).2.2.2
  refine ⟨hcalls, run, hrun, ?_, ?_, ?_⟩
  · rw [hqueue]
    rfl
  · rw [hfreed]
    rfl
  · have hsome : (run.trace.filter Event.is_callback).map some =
        [Event.callback_in 21 11 EOK 7 12, Event.callback_out 22 11 ESTALL 12,
          Event.callback_in 21 11 EOK 0 12].map some := by
      rw [hcbs]
      decide
    exact List.map_injective_iff.mpr (Option.some_injective _) hsome

/-! ## When the processor pops a transfer -/

/-- C16: (1) a pass that finds the queue empty releases the guard, sleeps and
takes the guard again: no executor call, no callback, the device (queue and
address) as it was; (2) when `plugged` is false the processor returns `EOK`
having only locked and unlocked the guard, and the device, with every
transfer of its queue, is as it was: nothing executed, called back or freed;
(3) when the device is plugged and its queue starts with an attached transfer
`t`, the loop makes a pass that runs the executor dispatch for `t` and takes
`t` off the head of the queue (it goes back to the tail only on `ENAK`), then
goes on with the next pass. -/
theorem processor_pops_iff_plugged_and_queued (env : pass_env) (envs : List pass_env)
    (dev : vhc_virtdev_t) :
    (dev.transfer_queue = [] →
        vhc_transfer_queue_processor_pass env.ops env.submitted dev =
          some
            { dev := dev
              trace := [Event.fibril_mutex_unlock dev.guard, Event.async_usleep (10 * 1000),
                Event.fibril_mutex_lock dev.guard] }) ∧
      (dev.plugged = false →
        vhc_transfer_queue_processor (env :: envs) dev =
          some
            { rc := some EOK
              dev := dev
              trace := [Event.fibril_mutex_lock dev.guard,
                Event.fibril_mutex_unlock dev.guard] }) ∧
      (∀ t rest, dev.plugged = true → dev.transfer_queue = t :: rest →
        transfer_attached t = true →
        ∃ r before after,
          vhc_transfer_queue_processor_pass env.ops env.submitted dev = some r ∧
          r.trace = before ++ (processor_execute env.ops dev t).trace ++ after ∧
          r.dev.transfer_queue = rest ++ env.submitted ++
            (if (processor_execute env.ops dev t).rc = ENAK then [t] else []) ∧
          processor_loop (env :: envs) dev =
            (processor_loop envs
              { r.dev with
                transfer_queue := r.dev.transfer_queue ++ env.arrived
                plugged := r.dev.plugged && !env.unplug }).map
              fun run => { run with trace := r.trace ++ run.trace }) := by
  refine ⟨?_, ?_, ?_⟩
  · intro hempty
    simp [vhc_transfer_queue_processor_pass, hempty]
  · intro hplug
    simp [vhc_transfer_queue_processor, processor_loop, hplug]
  · intro t rest hplug hq hatt
    have hloop : ∀ r, vhc_transfer_queue_processor_pass env.ops env.submitted dev = some r →
        processor_loop (env :: envs) dev =
          (processor_loop envs
            { r.dev with
              transfer_queue := r.dev.transfer_queue ++ env.arrived
              plugged := r.dev.plugged && !env.unplug }).map
            fun run => { run with trace := r.trace ++ run.trace } := by
      intro r hr
      simp only [processor_loop, hplug, if_true, hr]
      cases processor_loop envs _ <;> rfl
    by_cases hrc : (processor_execute env.ops dev t).rc = ENAK
    · have hpass := processor_pass_enak env.ops env.submitted dev t rest hq hrc
      exact ⟨_, [Event.fibril_mutex_unlock dev.guard],
        [Event.fibril_mutex_lock dev.guard, Event.fibril_mutex_unlock dev.guard] ++
          [Event.async_usleep (1000 * 100), Event.fibril_mutex_lock dev.guard],
        hpass, by simp, by simp [hrc], hloop _ hpass⟩
    · obtain ⟨dev2, cb, hdev2, -, hpass⟩ := processor_pass_completes env.ops env.submitted dev t
        rest hq hatt hrc
      have hframe := (processor_set_address_frame _ dev2 t _ hdev2).1
      exact ⟨_, [Event.fibril_mutex_unlock dev.guard],
        [Event.fibril_mutex_lock dev.guard, Event.fibril_mutex_unlock dev.guard] ++
          [cb, Event.free t] ++
          [Event.async_usleep (1000 * 100), Event.fibril_mutex_lock dev.guard],
        hpass, by simp, by simp [hrc, hframe], hloop _ hpass⟩

/-- C16 at the sample device, unplugged and holding the two sample transfers:
the processor returns `EOK` at once and both transfers stay queued. -/
theorem processor_pops_iff_plugged_and_queued_witness :
    vhc_transfer_queue_processor [quiet_env (const_ops EOK 7), quiet_env (const_ops EOK 7)]
        { sample_device with
          plugged := false
          transfer_queue := [sample_transfer, sample_transfer2] } =
      some
        { rc := some EOK
          dev :=
            { sample_device with
              plugged := false
              transfer_queue := [sample_transfer, sample_transfer2] }
          trace := [Event.fibril_mutex_lock 1, Event.fibril_mutex_unlock 1] } :=
  (processor_pops_iff_plugged_and_queued (quiet_env (const_ops EOK 7))
    [quiet_env (const_ops EOK 7)]
    { sample_device with
      plugged := false
      transfer_queue := [sample_transfer, sample_transfer2] }).2.1 rfl

/-! ## Unbounded retry -/

/-- The calls of a completion free the completed transfer and nothing else,
and only for a result other than `ENAK`. -/
theorem processor_complete_frees (t : vhc_transfer_t) (rc : errno_t) (size : Nat)
    (done : List Event) (h : processor_complete t rc size = some done) :
    ∀ x, Event.free x ∈ done → x = t ∧ rc ≠ ENAK := by
  by_cases hrc : rc = ENAK
  · simp [processor_complete, hrc] at h
    subst h
    simp
  · rw [processor_complete_eq t rc size hrc] at h
    cases hcb : completion_callback t rc size with
    | none => simp [hcb] at h
    | some cb =>
      simp only [hcb, Option.map_some', Option.some.injEq] at h
      subst h
      intro x hx
      simp only [List.mem_cons, List.mem_singleton, List.not_mem_nil, or_false] at hx
      rcases hx with hx | hx
      · have hcases := completion_callback_cases t rc size cb hcb
        cases hd : t.direction with
        | USB_DIRECTION_IN =>
          obtain ⟨f, -, hf⟩ := hcases.1 hd
          rw [hf] at hx
          simp at hx
        | USB_DIRECTION_OUT =>
          obtain ⟨f, -, hf⟩ := hcases.2 hd
          rw [hf] at hx
          simp at hx
      · simp only [Event.free.injEq] at hx
        exact ⟨hx, hrc⟩

/-- What any pass that runs to its end does to a device whose queue starts
with `h`: `h` leaves the head and returns to the tail exactly on `ENAK`, the
other fields but the address stay, and `free` is called on `h` at most, and
only when the result is not `ENAK`. -/
theorem processor_pass_spec (ops : usbvirt_ops) (submitted : List vhc_transfer_t)
    (dev : vhc_virtdev_t) (r : processor_result) (h : vhc_transfer_t)
    (rest : List vhc_transfer_t)
    (hpass : vhc_transfer_queue_processor_pass ops submitted dev = some r)
    (hq : dev.transfer_queue = h :: rest) :
    r.dev.transfer_queue = rest ++ submitted ++
        (if (processor_execute ops dev h).rc = ENAK then [h] else []) ∧
      r.dev.guard = dev.guard ∧ r.dev.plugged = dev.plugged ∧
      r.dev.dev_phone = dev.dev_phone ∧ r.dev.dev_local = dev.dev_local ∧
      (∀ x, Event.free x ∈ r.trace → x = h ∧ (processor_execute ops dev h).rc ≠ ENAK) := by
  have hex : processor_execute ops { dev with transfer_queue := rest ++ submitted } h =
      processor_execute ops dev h := processor_execute_congr ops dev _ h rfl rfl
  simp only [vhc_transfer_queue_processor_pass, hq, hex] at hpass
  split at hpass
  · simp at hpass
  · rename_i dev2 hdev2
    split at hpass
    · simp at hpass
    · rename_i done hdone
      simp only [Option.some.injEq] at hpass
      subst hpass
      have hframe := processor_set_address_frame _ dev2 h _ hdev2
      refine ⟨?_, ?_, ?_, ?_, ?_, ?_⟩
      · by_cases hrc : (processor_execute ops dev h).rc = ENAK
        · simp [processor_requeue, hrc, list_append, hframe.1]
        · simp [processor_requeue, hrc, hframe.1]
      · simp only [processor_requeue]
        split <;> simp [hframe.2.1]
      · simp only [processor_requeue]
        split <;> simp [hframe.2.2.1]
      · simp only [processor_requeue]
        split <;> simp [hframe.2.2.2.1]
      · simp only [processor_requeue]
        split <;> simp [hframe.2.2.2.2]
      · intro x hx
        simp only [List.mem_append, List.mem_cons, List.mem_singleton, List.not_mem_nil,
          or_false] at hx
        rcases hx with (((hx | hx) | (hx | hx)) | hx) | (hx | hx)
        · simp at hx
        · have := (processor_execute_trace ops dev h _ hx).2.1
          simp [Event.is_free] at this
        · simp at hx
        · simp at hx
        · exact processor_complete_frees h _ _ done hdone x hx
        · simp at hx
        · simp at hx

/-- A transfer for which every executor call answers `ENAK` stays in the queue
and is never freed, whatever else the loop processes. -/
theorem processor_loop_nak_stays (dev0 : vhc_virtdev_t) (t : vhc_transfer_t)
    (envs : List pass_env)
    (hnak : ∀ env ∈ envs, (processor_execute env.ops dev0 t).rc = ENAK) :
    ∀ (dev : vhc_virtdev_t) (run : processor_run), processor_loop envs dev = some run →
      dev.dev_phone = dev0.dev_phone → dev.dev_local = dev0.dev_local →
      t ∈ dev.transfer_queue →
      t ∈ run.dev.transfer_queue ∧ Event.free t ∉ run.trace := by
  induction envs with
  | nil =>
    intro dev run hrun _ _ hmem
    by_cases hplug : dev.plugged = true
    · simp [processor_loop, hplug] at hrun
      subst hrun
      exact ⟨hmem, by simp⟩
    · simp [processor_loop, hplug] at hrun
      subst hrun
      exact ⟨hmem, by simp⟩
  | cons env envs ih =>
    intro dev run hrun hphone hlocal hmem
    by_cases hplug : dev.plugged = true
    · simp only [processor_loop, hplug, if_true] at hrun
      split at hrun
      · simp at hrun
      · rename_i r hr
        split at hrun
        · simp at hrun
        · rename_i run' hrun'
          simp only [Option.some.injEq] at hrun
          subst hrun
          have henv : (processor_execute env.ops dev t).rc = ENAK := by
            rw [processor_execute_congr env.ops dev0 dev t hphone hlocal]
            exact hnak env (List.mem_cons_self _ _)
          have hstep : t ∈ r.dev.transfer_queue ∧ Event.free t ∉ r.trace ∧
              r.dev.dev_phone = dev.dev_phone ∧ r.dev.dev_local = dev.dev_local := by
            cases hq : dev.transfer_queue with
            | nil => simp [hq] at hmem
            | cons h rest =>
              obtain ⟨hqueue, -, -, hph, hlo, hfree⟩ :=
                processor_pass_spec env.ops env.submitted dev r h rest hr hq
              refine ⟨?_, ?_, hph, hlo⟩
              · rw [hqueue]
                rw [hq] at hmem
                rcases List.mem_cons.mp hmem with hth | hth
                · subst hth
                  simp [henv]
                · simp [hth]
              · intro hin
                obtain ⟨hth, hne⟩ := hfree t hin
                subst hth
                exact hne henv
          obtain ⟨hmem', hfree'⟩ := ih
            (fun e he => hnak e (List.mem_cons_of_mem _ he)) _ run' hrun'
            (by simp [hstep.2.2.1, hphone]) (by simp [hstep.2.2.2, hlocal])
            (by simp [hstep.1])
          exact ⟨hmem', by simp [hstep.2.1, hfree']⟩
    · simp [processor_loop, hplug] at hrun
      subst hrun
      exact ⟨hmem, by simp⟩

/-- The loop over a queue that holds `t` alone, one quiet pass for each
executor of the list, each answering `ENAK`: the device comes out as it went
in and the calls are those of the retries, one block a pass. -/
theorem processor_loop_nak_only (dev : vhc_virtdev_t) (t : vhc_transfer_t)
    (hplug : dev.plugged = true) (hq : dev.transfer_queue = [t]) (opss : List usbvirt_ops)
    (hnak : ∀ ops ∈ opss, (processor_execute ops dev t).rc = ENAK) :
    ∃ run, processor_loop (opss.map quiet_env) dev = some run ∧
      run.rc = none ∧ run.dev = dev ∧
      run.trace = (opss.map fun ops =>
        [Event.fibril_mutex_unlock dev.guard] ++ (processor_execute ops dev t).trace ++
          [Event.fibril_mutex_lock dev.guard, Event.fibril_mutex_unlock dev.guard] ++
          [Event.async_usleep (1000 * 100), Event.fibril_mutex_lock dev.guard]).flatten ∧
      run.trace.filter Event.is_callback = [] ∧ run.trace.filter Event.is_free = [] := by
  induction opss with
  | nil =>
    exact ⟨{ rc := none, dev := dev, trace := [] }, by simp [processor_loop, hplug], rfl, rfl,
      by simp, by simp, by simp⟩
  | cons ops opss ih =>
    obtain ⟨run, hrun, hrc, hdev, htrace, hcbs, hfrees⟩ :=
      ih (fun o ho => hnak o (List.mem_cons_of_mem _ ho))
    have hhead := hnak ops (List.mem_cons_self _ _)
    have hpass := processor_pass_enak ops [] dev t [] hq hhead
    have hsame : ({ dev with
        transfer_queue := ([] ++ [] ++ [t]) ++ []
        plugged := true && !false } : vhc_virtdev_t) = dev := by
      obtain ⟨g, a, p, ph, l, q⟩ := dev
      simp only at hq hplug
      subst hq hplug
      simp
    have h1 : (quiet_env ops).ops = ops := rfl
    have h2 : (quiet_env ops).submitted = [] := rfl
    have h3 : (quiet_env ops).arrived = [] := rfl
    have h4 : (quiet_env ops).unplug = false := rfl
    have hex := processor_execute_trace_freed ops dev t
    refine ⟨{ run with
        trace := ([Event.fibril_mutex_unlock dev.guard] ++
          (processor_execute ops dev t).trace ++
          [Event.fibril_mutex_lock dev.guard, Event.fibril_mutex_unlock dev.guard] ++
          [Event.async_usleep (1000 * 100), Event.fibril_mutex_lock dev.guard]) ++ run.trace },
      ?_, hrc, hdev, ?_, ?_, ?_⟩
    · simp only [List.map_cons, processor_loop, hplug, if_true, h1, h2, h3, h4, hpass, hsame,
        hrun]
    · show _ ++ run.trace = _
      rw [htrace, List.map_cons, List.flatten_cons]
    · show List.filter Event.is_callback (_ ++ run.trace) = _
      rw [List.filter_append, hcbs]
      simp only [List.filter_append, List.filter_cons, List.filter_nil, hex.1]
      simp [Event.is_callback]
    · show List.filter Event.is_free (_ ++ run.trace) = _
      rw [List.filter_append, hfrees]
      simp only [List.filter_append, List.filter_cons, List.filter_nil, hex.2.1]
      simp [Event.is_free]

/-- C18: for every `n`, when the executor answers `ENAK` on each of `n`
executions of a transfer `t` that is alone in the queue, the loop makes `n`
passes, each one executor dispatch for `t`, and never completes `t`: after
them `t` is still the queue, no callback has been called and nothing has been
freed, and the loop is still running; and in any run of the loop at all, a
queued transfer whose every execution is answered `ENAK` is still queued at
the end and has not been freed. -/
theorem nak_retry_unbounded (n : Nat) (dev : vhc_virtdev_t) (t : vhc_transfer_t)
    (opss : List usbvirt_ops) (hn : opss.length = n)
    (hplug : dev.plugged = true) (hq : dev.transfer_queue = [t])
    (hnak : ∀ ops ∈ opss, (processor_execute ops dev t).rc = ENAK) :
    (∃ run, processor_loop (opss.map quiet_env) dev = some run ∧
        run.rc = none ∧ run.dev.transfer_queue = [t] ∧ run.dev = dev ∧
        run.trace = (opss.map fun ops =>
          [Event.fibril_mutex_unlock dev.guard] ++ (processor_execute ops dev t).trace ++
            [Event.fibril_mutex_lock dev.guard, Event.fibril_mutex_unlock dev.guard] ++
            [Event.async_usleep (1000 * 100), Event.fibril_mutex_lock dev.guard]).flatten ∧
        (opss.map fun ops => (processor_execute ops dev t).trace).length = n ∧
        run.trace.filter Event.is_callback = [] ∧ run.trace.filter Event.is_free = []) ∧
      (∀ (envs : List pass_env) (dev' : vhc_virtdev_t) (run' : processor_run),
        (∀ env ∈ envs, (processor_execute env.ops dev' t).rc = ENAK) →
        processor_loop envs dev' = some run' → t ∈ dev'.transfer_queue →
        t ∈ run'.dev.transfer_queue ∧ Event.free t ∉ run'.trace) := by
  obtain ⟨run, hrun, hrc, hdev, htrace, hcbs, hfrees⟩ :=
    processor_loop_nak_only dev t hplug hq opss hnak
  refine ⟨⟨run, hrun, hrc, by rw [hdev, hq], hdev, htrace, by simp [hn], hcbs, hfrees⟩, ?_⟩
  intro envs dev' run' hnak' hrun' hmem
  exact processor_loop_nak_stays dev' t envs hnak' dev' run' hrun' rfl rfl hmem

/-- C18 at the sample device holding the sample transfer alone, with three
executions answered `ENAK`. -/
theorem nak_retry_unbounded_witness :
    ∃ run, processor_loop ((List.replicate 3 (const_ops ENAK 0)).map quiet_env)
        { sample_device with transfer_queue := [sample_transfer] } = some run ∧
      run.rc = none ∧ run.dev.transfer_queue = [sample_transfer] ∧
      run.trace.filter Event.is_callback = [] ∧ run.trace.filter Event.is_free = [] := by
  obtain ⟨run, hrun, hrc, hqueue, -, -, -, hcbs, hfrees⟩ :=
    (nak_retry_unbounded 3 { sample_device with transfer_queue := [sample_transfer] }
      sample_transfer (List.replicate 3 (const_ops ENAK 0)) rfl rfl rfl (by decide)).1
  exact ⟨run, hrun, hrc, hqueue, hcbs, hfrees⟩

/-! ## Locking discipline -/

/-- Checking a concatenation is checking the parts one after the other. -/
theorem lock_check_append (reg : Nat) (a b : List Event) :
    ∀ held, lock_check reg held (a ++ b) =
      (lock_check reg held a).bind fun h => lock_check reg h b := by
  induction a with
  | nil => intro held; simp [lock_check]
  | cons e es ih =>
    intro held
    simp only [List.cons_append, lock_check]
    cases lock_step reg held e with
    | none => simp
    | some h => simp [ih]

/-- Checking a trace whose first call passes is checking the rest from the
guards held after that call. -/
theorem lock_check_cons (reg : Nat) (held held' : List Nat) (e : Event) (es : List Event)
    (h : lock_step reg held e = some held') :
    lock_check reg held (e :: es) = lock_check reg held' es := by
  simp [lock_check, h]

/-- While nothing is held, calls that are neither lock nor unlock pass the
check and leave nothing held. -/
theorem lock_check_no_locks (reg : Nat) (es : List Event)
    (h : ∀ e ∈ es, (∀ g, e ≠ Event.fibril_mutex_lock g) ∧
      (∀ g, e ≠ Event.fibril_mutex_unlock g)) :
    lock_check reg [] es = some [] := by
  induction es with
  | nil => simp [lock_check]
  | cons e es ih =>
    have he := h e (List.mem_cons_self _ _)
    have hstep : lock_step reg [] e = some [] := by
      cases e <;> first
        | exact absurd rfl (he.1 _)
        | exact absurd rfl (he.2 _)
        | simp [lock_step]
    simp [lock_check, hstep, ih (fun x hx => h x (List.mem_cons_of_mem _ hx))]

/-- The executor dispatch locks and unlocks nothing. -/
theorem processor_execute_no_locks (ops : usbvirt_ops) (dev : vhc_virtdev_t)
    (t : vhc_transfer_t) :
    ∀ e ∈ (processor_execute ops dev t).trace,
      (∀ g, e ≠ Event.fibril_mutex_lock g) ∧ (∀ g, e ≠ Event.fibril_mutex_unlock g) := by
  intro e he
  unfold processor_execute at he
  split at he
  · unfold process_transfer_remote at he
    split at he <;> split at he <;> simp at he <;> subst he <;> simp
  · split at he
    · unfold process_transfer_local at he
      split at he <;> split at he <;> simp at he <;> subst he <;> simp
    · simp at he
      subst he
      simp

/-- The completion locks and unlocks nothing. -/
theorem processor_complete_no_locks (t : vhc_transfer_t) (rc : errno_t) (size : Nat)
    (done : List Event) (h : processor_complete t rc size = some done) :
    ∀ e ∈ done,
      (∀ g, e ≠ Event.fibril_mutex_lock g) ∧ (∀ g, e ≠ Event.fibril_mutex_unlock g) := by
  by_cases hrc : rc = ENAK
  · simp [processor_complete, hrc] at h
    subst h
    simp
  · rw [processor_complete_eq t rc size hrc] at h
    cases hcb : completion_callback t rc size with
    | none => simp [hcb] at h
    | some cb =>
      simp only [hcb, Option.map_some', Option.some.injEq] at h
      subst h
      have hcases := completion_callback_cases t rc size cb hcb
      intro e he
      simp only [List.mem_cons, List.mem_singleton, List.not_mem_nil, or_false] at he
      rcases he with rfl | rfl
      · cases hd : t.direction with
        | USB_DIRECTION_IN =>
          obtain ⟨f, -, hf⟩ := hcases.1 hd
          subst hf
          simp
        | USB_DIRECTION_OUT =>
          obtain ⟨f, -, hf⟩ := hcases.2 hd
          subst hf
          simp
      · simp

/-- The calls of a pass that pops a transfer, checked from the device guard
held: unlock, executor dispatch, lock and unlock, completion, sleep, lock. -/
theorem lock_check_pass_shape (reg g n : Nat) (ex done : List Event) (hreg : g ≠ reg)
    (hex : lock_check reg [] ex = some []) (hdn : lock_check reg [] done = some []) :
    lock_check reg [g]
        ([Event.fibril_mutex_unlock g] ++ ex ++
          [Event.fibril_mutex_lock g, Event.fibril_mutex_unlock g] ++ done ++
          [Event.async_usleep n, Event.fibril_mutex_lock g]) = some [g] := by
  have e1 : lock_step reg [g] (Event.fibril_mutex_unlock g) = some [] := by simp [lock_step]
  have e2 : lock_step reg [] (Event.fibril_mutex_lock g) = some [g] := by
    simp [lock_step, hreg]
  have e3 : lock_step reg [] (Event.async_usleep n) = some [] := by
    simp [lock_step, Event.is_callback, Event.is_executor]
  have step : ∀ (held : List Nat) (e : Event) (es : List Event) (held' : List Nat),
      lock_step reg held e = some held' →
      lock_check reg held (e :: es) = lock_check reg held' es := by
    intro held e es held' hs
    simp [lock_check, hs]
  simp only [List.append_assoc, List.singleton_append, List.cons_append, List.nil_append]
  rw [step _ _ _ _ e1, lock_check_append, hex]
  simp only [Option.some_bind]
  rw [step _ _ _ _ e2, step _ _ _ _ e1, lock_check_append, hdn]
  simp only [Option.some_bind]
  rw [step _ _ _ _ e3, step _ _ _ _ e2]
  rfl

/-- A pass entered with the device guard held keeps the discipline and ends
with the device guard held. -/
theorem processor_pass_lock_check (reg : Nat) (ops : usbvirt_ops)
    (submitted : List vhc_transfer_t) (dev : vhc_virtdev_t) (r : processor_result)
    (hreg : dev.guard ≠ reg)
    (hpass : vhc_transfer_queue_processor_pass ops submitted dev = some r) :
    lock_check reg [dev.guard] r.trace = some [dev.guard] ∧ r.dev.guard = dev.guard := by
  unfold vhc_transfer_queue_processor_pass at hpass
  split at hpass
  · simp only [Option.some.injEq] at hpass
    subst hpass
    simp [lock_check, lock_step, hreg, Event.is_callback, Event.is_executor]
  · rename_i t rest hq
    dsimp only at hpass
    split at hpass
    · simp at hpass
    · rename_i dev2 hdev2
      split at hpass
      · simp at hpass
      · rename_i done hdone
        simp only [Option.some.injEq] at hpass
        subst hpass
        have hframe := processor_set_address_frame _ dev2 t _ hdev2
        have hex := lock_check_no_locks reg _ (processor_execute_no_locks ops
          { dev with transfer_queue := rest ++ submitted } t)
        have hdn := lock_check_no_locks reg _ (processor_complete_no_locks t _ _ done hdone)
        constructor
        · exact lock_check_pass_shape reg dev.guard _ _ done hreg hex hdn
        · simp only [processor_requeue]
          split <;> simp [hframe.2.1]

/-- The loop entered with the device guard held keeps the discipline; it ends
with nothing held when it has returned and with the device guard held while
it is still running. -/
theorem processor_loop_lock_check (reg : Nat) (envs : List pass_env) :
    ∀ (dev : vhc_virtdev_t) (run : processor_run), dev.guard ≠ reg →
      processor_loop envs dev = some run →
      lock_check reg [dev.guard] run.trace =
        some (if run.rc = none then [dev.guard] else []) := by
  induction envs with
  | nil =>
    intro dev run _ hrun
    by_cases hplug : dev.plugged = true
    · simp [processor_loop, hplug] at hrun
      subst hrun
      simp [lock_check]
    · simp [processor_loop, hplug] at hrun
      subst hrun
      simp [lock_check, lock_step]
  | cons env envs ih =>
    intro dev run hreg hrun
    by_cases hplug : dev.plugged = true
    · simp only [processor_loop, hplug, if_true] at hrun
      split at hrun
      · simp at hrun
      · rename_i r hr
        split at hrun
        · simp at hrun
        · rename_i run' hrun'
          simp only [Option.some.injEq] at hrun
          subst hrun
          obtain ⟨hcheck, hguard⟩ := processor_pass_lock_check reg env.ops env.submitted dev r
            hreg hr
          have hrest := ih _ run' (by simpa [hguard] using hreg) hrun'
          simp only [hguard] at hrest
          simp only [lock_check_append, hcheck, Option.some_bind, hrest]
    · simp [processor_loop, hplug] at hrun
      subst hrun
      simp [lock_check, lock_step]

/-- An executor operation or a completion callback passes the check exactly
when nothing is held. -/
theorem lock_step_call (reg : Nat) (held : List Nat) (e : Event)
    (he : (e.is_callback || e.is_executor) = true) :
    lock_step reg held e = if held = [] then some held else none := by
  cases e <;> simp [Event.is_callback, Event.is_executor] at he <;>
    cases held <;> simp [lock_step, Event.is_callback, Event.is_executor]

/-- In a trace that passes the check nothing is held when an executor
operation or a completion callback is called. -/
theorem lock_check_before_call (reg : Nat) (held held' : List Nat)
    (before : List Event) (e : Event) (after : List Event)
    (hcheck : lock_check reg held (before ++ e :: after) = some held')
    (he : (e.is_callback || e.is_executor) = true) :
    lock_check reg held before = some [] := by
  rw [lock_check_append] at hcheck
  cases hb : lock_check reg held before with
  | none => simp [hb] at hcheck
  | some mid =>
    simp only [hb, Option.some_bind, lock_check, lock_step_call reg mid e he] at hcheck
    by_cases hmid : mid = []
    · rw [hmid]
    · simp [hmid] at hcheck

/-- The dispatcher loop entered with the registry guard held keeps the
discipline and ends with the registry guard alone held. -/
theorem add_transfer_loop_lock_check (reg : Nat) (t : vhc_transfer_t)
    (devs : List vhc_virtdev_t) (hdistinct : ∀ d ∈ devs, d.guard ≠ reg) :
    ∀ found, lock_check reg [reg] (add_transfer_loop t devs found).2.2 = some [reg] := by
  induction devs with
  | nil => intro found; simp [add_transfer_loop, lock_check]
  | cons d rest ih =>
    intro found
    have hd : d.guard ≠ reg := hdistinct d (List.mem_cons_self _ _)
    have hrest := ih (fun x hx => hdistinct x (List.mem_cons_of_mem _ hx))
    have e1 : lock_step reg [reg] (Event.fibril_mutex_lock d.guard) = some [d.guard, reg] := by
      simp [lock_step, hd]
    have e2 : lock_step reg [d.guard, reg] (Event.fibril_mutex_unlock d.guard) = some [reg] := by
      simp [lock_step]
    have e3 : lock_step reg [d.guard, reg] (Event.usb_log_warning warning_t.more_devices) =
        some [d.guard, reg] := by
      simp [lock_step, Event.is_callback, Event.is_executor]
    by_cases h : d.address = t.address
    · cases found
      · simp only [add_transfer_loop, h, if_true, Bool.false_eq_true, if_false, List.cons_append,
          List.nil_append, lock_check, e1, e2]
        exact hrest true
      · simp only [add_transfer_loop, h, if_true, List.cons_append, List.nil_append, lock_check,
          e1, e2, e3]
        exact hrest true
    · simp only [add_transfer_loop, h, if_false, List.cons_append, List.nil_append, lock_check,
        e1, e2]
      exact hrest found

/-- `vhc_virtdev_add_transfer`, called with nothing held, keeps the discipline
and returns with nothing held. -/
theorem add_transfer_lock_check (vhc : vhc_data_t) (t : vhc_transfer_t)
    (hdistinct : ∀ d ∈ vhc.devices, d.guard ≠ vhc.guard) :
    lock_check vhc.guard [] (vhc_virtdev_add_transfer vhc t).trace = some [] := by
  have hloop := add_transfer_loop_lock_check vhc.guard t vhc.devices hdistinct false
  have e1 : lock_step vhc.guard [] (Event.fibril_mutex_lock vhc.guard) = some [vhc.guard] := by
    simp [lock_step]
  have e2 : lock_step vhc.guard [vhc.guard] (Event.fibril_mutex_unlock vhc.guard) = some [] := by
    simp [lock_step]
  simp only [vhc_virtdev_add_transfer, List.singleton_append, List.cons_append,
    List.append_assoc, List.nil_append]
  rw [lock_check_cons _ _ _ _ _ e1, lock_check_append, hloop]
  simp only [Option.some_bind]
  rw [lock_check_cons _ _ _ _ _ e2]
  rfl

/-- C19: with the device guards distinct from the registry guard, (1) every
call of `vhc_virtdev_add_transfer` takes the registry guard first, each device
guard only under it, releases all it took and returns with nothing held;
(2) every run of `vhc_transfer_queue_processor` on a device of the registry
takes only guards it does not hold, releases only guards it holds, has
nothing held when it has returned, and (3) has nothing held at the moment it
calls an executor operation or a completion callback, so that a call of
`vhc_virtdev_add_transfer` made from inside that call passes the check as
well. -/
theorem locking_discipline (vhc : vhc_data_t) (t : vhc_transfer_t)
    (envs : List pass_env) (dev : vhc_virtdev_t)
    (hdistinct : ∀ d ∈ vhc.devices, d.guard ≠ vhc.guard) (hdev : dev ∈ vhc.devices) :
    lock_check vhc.guard [] (vhc_virtdev_add_transfer vhc t).trace = some [] ∧
      ∀ run, vhc_transfer_queue_processor envs dev = some run →
        lock_check vhc.guard [] run.trace =
            some (if run.rc = none then [dev.guard] else []) ∧
          ∀ before e after, run.trace = before ++ e :: after →
            (e.is_callback || e.is_executor) = true →
            lock_check vhc.guard [] before = some [] ∧
              ∀ (vhc' : vhc_data_t) (t' : vhc_transfer_t), vhc'.guard = vhc.guard →
                (∀ d ∈ vhc'.devices, d.guard ≠ vhc'.guard) →
                lock_check vhc.guard []
                  (before ++ e :: (vhc_virtdev_add_transfer vhc' t').trace) = some [] := by
  refine ⟨add_transfer_lock_check vhc t hdistinct, ?_⟩
  intro run hrun
  have hreg : dev.guard ≠ vhc.guard := hdistinct dev hdev
  have hcheck : lock_check vhc.guard [] run.trace =
      some (if run.rc = none then [dev.guard] else []) := by
    unfold vhc_transfer_queue_processor at hrun
    split at hrun
    · simp at hrun
    · rename_i run' hrun'
      simp only [Option.some.injEq] at hrun
      subst hrun
      have hloop := processor_loop_lock_check vhc.guard envs dev run' hreg hrun'
      have e1 : lock_step vhc.guard [] (Event.fibril_mutex_lock dev.guard) = some [dev.guard] := by
        simp [lock_step, hreg]
      simp only [lock_check, e1, hloop]
  refine ⟨hcheck, ?_⟩
  intro before e after hsplit he
  rw [hsplit] at hcheck
  have hbefore := lock_check_before_call vhc.guard [] _ before e after hcheck he
  refine ⟨hbefore, ?_⟩
  intro vhc' t' hguard hdistinct'
  have hadd := add_transfer_lock_check vhc' t' hdistinct'
  rw [hguard] at hadd
  have hstep := lock_step_call vhc.guard [] e he
  simp only [if_true] at hstep
  rw [lock_check_append, hbefore]
  simp only [Option.some_bind]
  rw [lock_check_cons _ _ _ _ _ hstep]
  exact hadd

/-- C19 at the registry with devices at addresses 6 and 5 (guards 2 and 1,
registry guard 0): a submission, and a run of the second device's processor
that completes the sample transfer and then finds the device unplugged. -/
theorem locking_discipline_witness :
    lock_check 0 [] (vhc_virtdev_add_transfer ⟨0, [sample_device6, sample_device]⟩
        sample_transfer).trace = some [] ∧
      ∀ run, vhc_transfer_queue_processor
          [{ ops := const_ops EOK 7, submitted := [], arrived := [], unplug := true }]
          { sample_device with transfer_queue := [sample_transfer] } = some run →
        lock_check 0 [] run.trace = some (if run.rc = none then [1] else []) := by
  have h := locking_discipline ⟨0, [sample_device6,
      { sample_device with transfer_queue := [sample_transfer] }]⟩ sample_transfer
    [{ ops := const_ops EOK 7, submitted := [], arrived := [], unplug := true }]
    { sample_device with transfer_queue := [sample_transfer] } (by decide) (by simp)
  exact ⟨by decide, fun run hrun => (h.2 run hrun).1⟩

/-! ## No completion lost or duplicated -/

/-- A list splits at a position it has, and replacing that position replaces
the middle of the split. -/
theorem split_at_position (devs : List vhc_virtdev_t) :
    ∀ (i : Nat) (dev : vhc_virtdev_t), devs[i]? = some dev →
      ∃ pre post, devs = pre ++ dev :: post ∧
        ∀ dev', devs.set i dev' = pre ++ dev' :: post := by
  induction devs with
  | nil => intro i dev h; simp at h
  | cons d rest ih =>
    intro i dev h
    cases i with
    | zero =>
      simp at h
      subst h
      exact ⟨[], rest, rfl, fun _ => rfl⟩
    | succ j =>
      simp at h
      obtain ⟨pre, post, hsplit, hset⟩ := ih j dev h
      refine ⟨d :: pre, post, by simp [hsplit], ?_⟩
      intro dev'
      simp [hset dev']

/-- The queued transfers of a registry split at a device. -/
theorem queued_split (vhc : vhc_data_t) (pre : List vhc_virtdev_t) (d : vhc_virtdev_t)
    (post : List vhc_virtdev_t) (h : vhc.devices = pre ++ d :: post) :
    queued vhc = queued { vhc with devices := pre } ++ d.transfer_queue ++
      queued { vhc with devices := post } := by
  simp [queued, h]

/-- Two lists with the same number of occurrences of every transfer are
permutations of each other; stated for the rearrangements used below. -/
theorem perm_move_to_end (a b c : List vhc_transfer_t) (t : vhc_transfer_t) :
    List.Perm (a ++ (b ++ [t]) ++ c) (a ++ b ++ c ++ [t]) := by
  rw [List.perm_iff_count]
  intro x
  simp only [List.count_append]
  omega

/-- Taking the head of the middle queue out and putting it in front. -/
theorem perm_move_head (a b c : List vhc_transfer_t) (t : vhc_transfer_t) :
    List.Perm (a ++ (t :: b) ++ c) (t :: (a ++ b ++ c)) := by
  rw [List.perm_iff_count]
  intro x
  simp only [List.count_append, List.count_cons]
  omega

/-- What a submission does to the queued transfers. -/
theorem queued_add_transfer (vhc : vhc_data_t) (t : vhc_transfer_t) :
    ((vhc_virtdev_add_transfer vhc t).rc = EOK ∧
        List.Perm (queued (vhc_virtdev_add_transfer vhc t).vhc) (queued vhc ++ [t])) ∨
      ((vhc_virtdev_add_transfer vhc t).rc ≠ EOK ∧
        (vhc_virtdev_add_transfer vhc t).vhc = vhc) := by
  by_cases hex : ∃ d ∈ vhc.devices, d.address = t.address
  · obtain ⟨pre, d, post, hsplit, hpre, hd⟩ :=
      exists_first_match (fun x => x.address = t.address) vhc.devices hex
    have h := add_transfer_first_match vhc t pre d post hsplit hpre hd
    refine Or.inl ⟨h.1, ?_⟩
    rw [h.2, queued_split vhc pre d post hsplit,
      queued_split { vhc with devices := pre ++ { d with transfer_queue := d.transfer_queue ++ [t] } :: post }
        pre { d with transfer_queue := d.transfer_queue ++ [t] } post rfl]
    exact perm_move_to_end _ _ _ t
  · have hall : ∀ d ∈ vhc.devices, d.address ≠ t.address := by
      intro d hmem hd
      exact hex ⟨d, hmem, hd⟩
    have hrc := (add_transfer_rc_enoent_iff vhc t).mpr hall
    have hn := add_transfer_loop_no_match t vhc.devices false hall
    refine Or.inr ⟨by rw [hrc]; decide, ?_⟩
    simp [vhc_virtdev_add_transfer, hn.1]

/-- A completion callback call is a callback event. -/
theorem completion_callback_is_callback (t : vhc_transfer_t) (rc : errno_t) (size : Nat)
    (cb : Event) (h : completion_callback t rc size = some cb) : cb.is_callback = true := by
  have hcases := completion_callback_cases t rc size cb h
  cases hd : t.direction with
  | USB_DIRECTION_IN =>
    obtain ⟨f, -, hf⟩ := hcases.1 hd
    rw [hf]
    rfl
  | USB_DIRECTION_OUT =>
    obtain ⟨f, -, hf⟩ := hcases.2 hd
    rw [hf]
    rfl

/-- The callback calls of a completion: none on `ENAK`, otherwise the one
completion callback call of the transfer. -/
theorem processor_complete_callbacks (t : vhc_transfer_t) (rc : errno_t) (size : Nat)
    (done : List Event) (h : processor_complete t rc size = some done) :
    (rc = ENAK ∧ done.filter Event.is_callback = []) ∨
      (rc ≠ ENAK ∧ ∃ cb, completion_callback t rc size = some cb ∧
        done.filter Event.is_callback = [cb]) := by
  by_cases hrc : rc = ENAK
  · simp [processor_complete, hrc] at h
    subst h
    exact Or.inl ⟨hrc, rfl⟩
  · rw [processor_complete_eq t rc size hrc] at h
    cases hcb : completion_callback t rc size with
    | none => simp [hcb] at h
    | some cb =>
      simp only [hcb, Option.map_some', Option.some.injEq] at h
      subst h
      have hiscb := completion_callback_is_callback t rc size cb hcb
      refine Or.inr ⟨hrc, cb, rfl, ?_⟩
      simp only [List.filter_cons, List.filter_nil, hiscb]
      simp [Event.is_callback]

/-- One atomic step moves transfers between queue, flight and completion
without losing or doubling any: the transfers held afterwards are those held
before and the newly accepted one, if any; the completion log only grows, by
callback calls for results other than `ENAK`. -/
theorem sys_step_invariant (a : sys_action) (s s' : sys_state)
    (hstep : sys_step a s = some s') (hnodup : (sys_transfers s).Nodup) :
    ∃ new more, s'.accepted = s.accepted ++ new ∧ s'.completed = s.completed ++ more ∧
      List.Perm (sys_transfers s') (sys_transfers s ++ new) ∧
      (sys_transfers s').Nodup ∧
      (∀ c ∈ more, ∃ rc size, rc ≠ ENAK ∧ completion_callback c.1 rc size = some c.2) := by
  cases a with
  | submit t =>
    simp only [sys_step] at hstep
    split at hstep
    · simp at hstep
    · rename_i hfresh
      simp only [Option.some.injEq] at hstep
      subst hstep
      rcases queued_add_transfer s.vhc t with ⟨hrc, hperm⟩ | ⟨hrc, hsame⟩
      · have hp : List.Perm
            (queued (vhc_virtdev_add_transfer s.vhc t).vhc ++ s.inflight.map Prod.snd ++
              s.completed.map Prod.fst)
            (queued s.vhc ++ s.inflight.map Prod.snd ++ s.completed.map Prod.fst ++ [t]) := by
          rw [List.perm_iff_count] at hperm ⊢
          intro x
          have := hperm x
          simp only [List.count_append] at this ⊢
          omega
        refine ⟨[t], [], by simp [hrc], by simp, hp, ?_, by simp⟩
        exact hp.nodup_iff.mpr (List.Nodup.append hnodup (List.nodup_singleton t)
          (by rw [List.disjoint_singleton]; exact hfresh))
      · refine ⟨[], [], by simp [hrc], by simp, ?_, ?_, by simp⟩
        · simp [sys_transfers, hsame]
        · simpa [sys_transfers, hsame] using hnodup
  | pop i =>
    simp only [sys_step] at hstep
    split at hstep
    · simp at hstep
    · split at hstep
      · simp at hstep
      · rename_i dev hdev
        split at hstep
        · split at hstep
          · simp at hstep
          · rename_i t rest hq
            simp only [Option.some.injEq] at hstep
            subst hstep
            obtain ⟨pre, post, hsplit, hset⟩ := split_at_position s.vhc.devices i dev hdev
            have hp : List.Perm
                (sys_transfers
                  { s with
                    vhc :=
                      { s.vhc with
                        devices := s.vhc.devices.set i { dev with transfer_queue := rest } }
                    inflight := (i, t) :: s.inflight })
                (sys_transfers s ++ []) := by
              simp only [sys_transfers, List.append_nil, List.map_cons]
              rw [queued_split s.vhc pre dev post hsplit,
                queued_split _ pre { dev with transfer_queue := rest } post (hset _), hq]
              rw [List.perm_iff_count]
              intro x
              simp only [List.count_append, List.count_cons]
              omega
            refine ⟨[], [], by simp, by simp, hp, ?_, by simp⟩
            rw [hp.nodup_iff]
            simpa using hnodup
        · simp at hstep
  | finish i rc size =>
    simp only [sys_step] at hstep
    split at hstep
    · simp at hstep
    · rename_i p hfind
      split at hstep
      · simp at hstep
      · rename_i dev hdev
        split at hstep
        · simp at hstep
        · rename_i dev2 hdev2
          split at hstep
          · simp at hstep
          · rename_i done hdone
            simp only [Option.some.injEq] at hstep
            subst hstep
            obtain ⟨pre, post, hsplit, hset⟩ := split_at_position s.vhc.devices i dev hdev
            have hmem : p ∈ s.inflight := List.mem_of_find?_eq_some hfind
            have hfly : List.Perm (s.inflight.map Prod.snd)
                (p.2 :: (s.inflight.erase p).map Prod.snd) := by
              obtain ⟨l1, l2, -, e1, e2⟩ := List.exists_erase_eq hmem
              rw [e2, e1]
              simp only [List.map_append, List.map_cons]
              exact List.perm_middle
            have hframe := (processor_set_address_frame dev dev2 p.2 rc hdev2).1
            rcases processor_complete_callbacks p.2 rc size done hdone with
              ⟨hrc, hcbs⟩ | ⟨hrc, cb, hcb, hcbs⟩
            · have hqueue : (processor_requeue dev2 p.2 rc).transfer_queue =
                  dev.transfer_queue ++ [p.2] := by
                simp [processor_requeue, hrc, list_append, hframe]
              have hp : List.Perm
                  (sys_transfers
                    { s with
                      vhc :=
                        { s.vhc with
                          devices := s.vhc.devices.set i (processor_requeue dev2 p.2 rc) }
                      inflight := s.inflight.erase p
                      completed := s.completed ++
                        (done.filter Event.is_callback).map fun cb => (p.2, cb) })
                  (sys_transfers s ++ []) := by
                simp only [sys_transfers, List.append_nil, hcbs, List.map_nil]
                rw [queued_split s.vhc pre dev post hsplit,
                  queued_split _ pre (processor_requeue dev2 p.2 rc) post (hset _), hqueue]
                rw [List.perm_iff_count] at hfly ⊢
                intro x
                have := hfly x
                simp only [List.count_append, List.count_cons, List.count_nil] at this ⊢
                omega
              refine ⟨[], [], by simp, by simp [hcbs], hp, ?_, by simp⟩
              rw [hp.nodup_iff]
              simpa using hnodup
            · have hqueue : (processor_requeue dev2 p.2 rc).transfer_queue =
                  dev.transfer_queue := by
                simp [processor_requeue, hrc, hframe]
              have hp : List.Perm
                  (sys_transfers
                    { s with
                      vhc :=
                        { s.vhc with
                          devices := s.vhc.devices.set i (processor_requeue dev2 p.2 rc) }
                      inflight := s.inflight.erase p
                      completed := s.completed ++
                        (done.filter Event.is_callback).map fun cb => (p.2, cb) })
                  (sys_transfers s ++ []) := by
                simp only [sys_transfers, List.append_nil, hcbs, List.map_cons, List.map_nil,
                  List.map_append]
                rw [queued_split s.vhc pre dev post hsplit,
                  queued_split _ pre (processor_requeue dev2 p.2 rc) post (hset _), hqueue]
                rw [List.perm_iff_count] at hfly ⊢
                intro x
                have := hfly x
                simp only [List.count_append, List.count_cons, List.count_nil] at this ⊢
                omega
              refine ⟨[], [(p.2, cb)], by simp, by simp [hcbs], hp, ?_, ?_⟩
              · rw [hp.nodup_iff]
                simpa using hnodup
              · intro c hc
                simp only [List.mem_singleton] at hc
                subst hc
                exact ⟨rc, size, hrc, hcb⟩

/-- Running a concatenation of steps is running the parts one after the
other. -/
theorem sys_run_append (a1 a2 : List sys_action) :
    ∀ s, sys_run (a1 ++ a2) s = (sys_run a1 s).bind (sys_run a2) := by
  induction a1 with
  | nil => intro s; simp [sys_run]
  | cons a rest ih =>
    intro s
    simp only [List.cons_append, sys_run]
    cases sys_step a s with
    | none => simp
    | some s1 => simp [ih]

/-- Any sequence of atomic steps moves transfers between queue, flight and
completion without losing or doubling any. -/
theorem sys_run_invariant (actions : List sys_action) :
    ∀ s s', sys_run actions s = some s' → (sys_transfers s).Nodup →
      ∃ new more, s'.accepted = s.accepted ++ new ∧ s'.completed = s.completed ++ more ∧
        List.Perm (sys_transfers s') (sys_transfers s ++ new) ∧
        (sys_transfers s').Nodup ∧
        (∀ c ∈ more, ∃ rc size, rc ≠ ENAK ∧ completion_callback c.1 rc size = some c.2) := by
  induction actions with
  | nil =>
    intro s s' hrun hnodup
    simp only [sys_run, Option.some.injEq] at hrun
    subst hrun
    exact ⟨[], [], by simp, by simp, by simp, hnodup, by simp⟩
  | cons a rest ih =>
    intro s s' hrun hnodup
    simp only [sys_run] at hrun
    split at hrun
    · simp at hrun
    · rename_i s1 hstep
      obtain ⟨new1, more1, hacc1, hdone1, hperm1, hnodup1, hcb1⟩ :=
        sys_step_invariant a s s1 hstep hnodup
      obtain ⟨new2, more2, hacc2, hdone2, hperm2, hnodup2, hcb2⟩ := ih s1 s' hrun hnodup1
      refine ⟨new1 ++ new2, more1 ++ more2, by rw [hacc2, hacc1, List.append_assoc],
        by rw [hdone2, hdone1, List.append_assoc], ?_, hnodup2, ?_⟩
      · have := hperm2.trans (hperm1.append_right new2)
        simpa [List.append_assoc] using this
      · intro c hc
        rcases List.mem_append.mp hc with hc | hc
        · exact hcb1 c hc
        · exact hcb2 c hc

/-- C17: start from a registry whose queued transfers are pairwise distinct,
with nothing in flight and nothing completed, and take any sequence of atomic
steps: submissions of transfers the system does not hold (accepted or
refused), pops, and finishes with arbitrary executor results.  Then every
transfer that was queued at the start or has been accepted since is held
exactly once, counting all queue positions of all devices, the transfers in
flight and the completed ones together; every completion log entry is one
callback call for a result other than `ENAK`; no transfer is completed twice;
a completed transfer is in no queue and not in flight; and the completion log
of an earlier moment is an initial part of the log of any later one. -/
theorem no_completion_lost_or_duplicated (s0 : sys_state) (actions : List sys_action)
    (s : sys_state) (hfly : s0.inflight = []) (hdone : s0.completed = [])
    (hacc : s0.accepted = []) (hdistinct : (queued s0.vhc).Nodup)
    (hrun : sys_run actions s0 = some s) :
    (sys_transfers s).Nodup ∧
      List.Perm (sys_transfers s) (queued s0.vhc ++ s.accepted) ∧
      (∀ t ∈ queued s0.vhc ++ s.accepted, (sys_transfers s).count t = 1) ∧
      (∀ c ∈ s.completed, c.2.is_callback = true ∧
        ∃ rc size, rc ≠ ENAK ∧ completion_callback c.1 rc size = some c.2) ∧
      (s.completed.map Prod.fst).Nodup ∧
      (∀ c ∈ s.completed, c.1 ∉ queued s.vhc ∧ c.1 ∉ s.inflight.map Prod.snd) ∧
      (∀ a1 a2 s1, actions = a1 ++ a2 → sys_run a1 s0 = some s1 →
        ∃ more, s.completed = s1.completed ++ more) := by
  have h0 : sys_transfers s0 = queued s0.vhc := by simp [sys_transfers, hfly, hdone]
  have hnodup0 : (sys_transfers s0).Nodup := by rw [h0]; exact hdistinct
  obtain ⟨new, more, hnew, hmore, hperm, hnodup, hcb⟩ :=
    sys_run_invariant actions s0 s hrun hnodup0
  rw [hacc, List.nil_append] at hnew
  rw [hdone, List.nil_append] at hmore
  rw [h0, ← hnew] at hperm
  have hparts : (queued s.vhc ++ s.inflight.map Prod.snd).Nodup ∧
      (s.completed.map Prod.fst).Nodup ∧
      List.Disjoint (queued s.vhc ++ s.inflight.map Prod.snd) (s.completed.map Prod.fst) := by
    have := hnodup
    simp only [sys_transfers] at this
    exact List.nodup_append.mp this
  refine ⟨hnodup, hperm, ?_, ?_, hparts.2.1, ?_, ?_⟩
  · intro t ht
    exact List.count_eq_one_of_mem hnodup (hperm.mem_iff.mpr ht)
  · intro c hc
    rw [hmore] at hc
    obtain ⟨rc, size, hrc, hcall⟩ := hcb c hc
    exact ⟨completion_callback_is_callback c.1 rc size c.2 hcall, rc, size, hrc, hcall⟩
  · intro c hc
    have hmem : c.1 ∈ s.completed.map Prod.fst := List.mem_map_of_mem Prod.fst hc
    have hnot : c.1 ∉ queued s.vhc ++ s.inflight.map Prod.snd :=
      fun hin => hparts.2.2 hin hmem
    exact ⟨fun hq => hnot (List.mem_append_left _ hq),
      fun hf => hnot (List.mem_append_right _ hf)⟩
  · intro a1 a2 s1 hsplit hrun1
    obtain ⟨-, -, -, -, -, hnodup1, -⟩ := sys_run_invariant a1 s0 s1 hrun1 hnodup0
    rw [hsplit, sys_run_append, hrun1] at hrun
    simp only [Option.some_bind] at hrun
    obtain ⟨-, more2, -, hmore2, -⟩ := sys_run_invariant a2 s1 s hrun hnodup1
    exact ⟨more2, hmore2⟩

/-- C17 at the sample system and the sample steps: the run exists, the second
transfer is the one completed, once, and the other two accepted transfers are
queued. -/
theorem no_completion_lost_or_duplicated_witness :
    ∃ s, sys_run sample_actions sample_system = some s ∧
      (sys_transfers s).Nodup ∧
      (∀ t ∈ queued sample_system.vhc ++ s.accepted, (sys_transfers s).count t = 1) ∧
      (s.completed.map Prod.fst).Nodup := by
  obtain ⟨s, hs⟩ := Option.isSome_iff_exists.mp
    (show (sys_run sample_actions sample_system).isSome = true by decide)
  obtain ⟨hnodup, -, hcount, -, hdone, -, -⟩ :=
    no_completion_lost_or_duplicated sample_system sample_actions s rfl rfl rfl (by decide) hs
  exact ⟨s, hs, hnodup, hcount, hdone⟩

/-- A pop directly followed by the finish with the executor's own answer is
one pass of the queue processor on that device with nothing submitted
meanwhile: the two descriptions leave the same registry. -/
theorem sys_pop_finish_is_pass (ops : usbvirt_ops) (s : sys_state) (i : Nat)
    (dev : vhc_virtdev_t) (t : vhc_transfer_t) (rest : List vhc_transfer_t)
    (hdev : s.vhc.devices[i]? = some dev) (hplug : dev.plugged = true)
    (hq : dev.transfer_queue = t :: rest) (hidle : s.inflight = []) :
    (sys_run [sys_action.pop i,
        sys_action.finish i (processor_execute ops dev t).rc
          (processor_execute ops dev t).actual_size] s).map (fun s' => s'.vhc) =
      (processor_pass_at ops [] s.vhc i).map Prod.fst := by
  have hlt : i < s.vhc.devices.length := by
    rcases Nat.lt_or_ge i s.vhc.devices.length with h | h
    · exact h
    · rw [List.getElem?_eq_none h] at hdev
      simp at hdev
  obtain ⟨g, a, p, ph, l, q⟩ := dev
  simp only at hplug hq
  subst hplug hq
  have hex : ∀ q', processor_execute ops ⟨g, a, true, ph, l, q'⟩ t =
      processor_execute ops ⟨g, a, true, ph, l, t :: rest⟩ t :=
    fun q' => processor_execute_congr ops _ _ t rfl rfl
  simp only [sys_run, sys_step, hidle, List.any_nil, Bool.false_eq_true, if_false, hdev,
    if_true, List.find?_cons, decide_True, List.getElem?_set_self hlt, processor_pass_at,
    vhc_transfer_queue_processor_pass, hex, List.append_nil]
  cases processor_set_address ⟨g, a, true, ph, l, rest⟩ t
      (processor_execute ops ⟨g, a, true, ph, l, t :: rest⟩ t).rc with
  | none => simp
  | some dev2 =>
    cases processor_complete t (processor_execute ops ⟨g, a, true, ph, l, t :: rest⟩ t).rc
        (processor_execute ops ⟨g, a, true, ph, l, t :: rest⟩ t).actual_size with
    | none => simp
    | some done => simp [List.set_set]

end Vhc

namespace UiMenu

/-! ## Moving the selection up and down -/

/-- For an entry of the menu `ui_menu_entry_selectable` answers what
`selectable_at` says. -/
theorem selectable_of_lt (menu : ui_menu_t) (i : Nat) (hi : i < menu.entries.length) :
    ui_menu_entry_selectable menu (some i) = some (selectable_at menu i) := by
  simp [ui_menu_entry_selectable, selectable_at, List.getElem?_eq_getElem hi]

/-- The step backwards from an entry that is not the first. -/
theorem up_step_succ (menu : ui_menu_t) (i : Nat) :
    ui_menu_up_step menu (i + 1) = some i := by
  simp [ui_menu_up_step, ui_menu_entry_prev]

/-- The step backwards from the first entry of a menu that has entries. -/
theorem up_step_zero (menu : ui_menu_t) (hn : 0 < menu.entries.length) :
    ui_menu_up_step menu 0 = some (menu.entries.length - 1) := by
  have hne : ¬ menu.entries.length = 0 := by omega
  simp [ui_menu_up_step, ui_menu_entry_prev, ui_menu_entry_last, hne]

/-- One turn of the loop of `ui_menu_up` at an entry of the menu. -/
theorem up_loop_step (menu : ui_menu_t) (sel fuel i : Nat) (hi : i < menu.entries.length) :
    ui_menu_up_loop menu sel (fuel + 1) (some i) =
      if selectable_at menu i = true then some (some i)
      else if ui_menu_up_step menu i = some sel then some none
        else ui_menu_up_loop menu sel fuel (ui_menu_up_step menu i) := by
  conv_lhs => unfold ui_menu_up_loop
  rw [selectable_of_lt menu i hi]
  cases selectable_at menu i <;> simp

/-- The loop of `ui_menu_up` above the selected entry: from `sel + 1 + d` it
tests `sel + 1 + d, ..., sel + 1` and then has come around. -/
theorem up_loop_above (menu : ui_menu_t) (sel : Nat) :
    ∀ (d fuel : Nat), sel + 1 + d < menu.entries.length → d + 1 ≤ fuel →
      ui_menu_up_loop menu sel fuel (some (sel + 1 + d)) =
        some ((List.range' (sel + 1) (d + 1)).reverse.find? (selectable_at menu)) := by
  intro d
  induction d with
  | zero =>
    intro fuel hlt hfuel
    obtain ⟨f, rfl⟩ : ∃ f, fuel = f + 1 := ⟨fuel - 1, by omega⟩
    rw [up_loop_step menu sel f _ hlt]
    by_cases hp : selectable_at menu (sel + 1 + 0) = true
    · rw [if_pos hp]
      simp only [Nat.add_zero] at hp
      simp [hp]
    · rw [if_neg hp, up_step_succ, if_pos rfl]
      simp only [Nat.add_zero] at hp
      simp [hp]
  | succ d ih =>
    intro fuel hlt hfuel
    obtain ⟨f, rfl⟩ : ∃ f, fuel = f + 1 := ⟨fuel - 1, by omega⟩
    rw [up_loop_step menu sel f _ hlt, List.range'_1_concat, List.reverse_concat]
    by_cases hp : selectable_at menu (sel + 1 + (d + 1)) = true
    · rw [if_pos hp, List.find?_cons_of_pos _ hp]
    · have hstep : ui_menu_up_step menu (sel + 1 + (d + 1)) = some (sel + 1 + d) :=
        up_step_succ menu (sel + 1 + d)
      have hne : ¬ (some (sel + 1 + d) = some sel) := by
        simp only [Option.some.injEq]
        omega
      rw [if_neg hp, List.find?_cons_of_neg _ hp, hstep, if_neg hne]
      exact ih f (by omega) (by omega)

/-- The loop of `ui_menu_up` below the selected entry: from `i` it tests
`i, ..., 0`, wraps to the last entry and goes on above the selected entry. -/
theorem up_loop_below (menu : ui_menu_t) (sel : Nat) (hsel : sel < menu.entries.length) :
    ∀ (i fuel : Nat), i < sel → i + 1 + (menu.entries.length - (sel + 1)) ≤ fuel →
      ui_menu_up_loop menu sel fuel (some i) =
        some (((List.range (i + 1)).reverse ++
          (List.range' (sel + 1) (menu.entries.length - (sel + 1))).reverse).find?
            (selectable_at menu)) := by
  intro i
  induction i with
  | zero =>
    intro fuel hlt hfuel
    obtain ⟨f, rfl⟩ : ∃ f, fuel = f + 1 := ⟨fuel - 1, by omega⟩
    rw [up_loop_step menu sel f 0 (by omega)]
    have hrange : (List.range (0 + 1)).reverse = [0] := rfl
    rw [hrange, List.cons_append, List.nil_append]
    by_cases hp : selectable_at menu 0 = true
    · rw [if_pos hp, List.find?_cons_of_pos _ hp]
    · rw [if_neg hp, List.find?_cons_of_neg _ hp, up_step_zero menu (by omega)]
      by_cases hend : menu.entries.length - 1 = sel
      · have hzero : menu.entries.length - (sel + 1) = 0 := by omega
        rw [if_pos (by rw [hend]), hzero]
        rfl
      · have hne : ¬ (some (menu.entries.length - 1) = some sel) := by
          simp only [Option.some.injEq]
          exact hend
        obtain ⟨d, hd⟩ : ∃ d, menu.entries.length - 1 = sel + 1 + d :=
          ⟨menu.entries.length - 1 - (sel + 1), by omega⟩
        have hcount : menu.entries.length - (sel + 1) = d + 1 := by omega
        rw [if_neg hne, hd, hcount]
        exact up_loop_above menu sel d f (by omega) (by omega)
  | succ i ih =>
    intro fuel hlt hfuel
    obtain ⟨f, rfl⟩ : ∃ f, fuel = f + 1 := ⟨fuel - 1, by omega⟩
    rw [up_loop_step menu sel f (i + 1) (by omega), List.range_succ, List.reverse_concat,
      List.cons_append]
    by_cases hp : selectable_at menu (i + 1) = true
    · rw [if_pos hp, List.find?_cons_of_pos _ hp]
    · have hne : ¬ (some i = some sel) := by
        simp only [Option.some.injEq]
        omega
      rw [if_neg hp, List.find?_cons_of_neg _ hp, up_step_succ, if_neg hne]
      exact ih f (by omega) (by omega)

/-- The loop of `ui_menu_up`, entered as `ui_menu_up` enters it in a menu of
at least two entries, answers the first selectable entry of the walk
backwards. -/
theorem up_loop_walk (menu : ui_menu_t) (sel : Nat) (hsel : sel < menu.entries.length)
    (htwo : 2 ≤ menu.entries.length) :
    ui_menu_up_loop menu sel (menu.entries.length + 1) (ui_menu_up_step menu sel) =
      some ((walk_up menu.entries.length sel).find? (selectable_at menu)) := by
  cases sel with
  | zero =>
    obtain ⟨d, hd⟩ : ∃ d, menu.entries.length - 1 = 0 + 1 + d :=
      ⟨menu.entries.length - 2, by omega⟩
    have hcount : menu.entries.length - (0 + 1) = d + 1 := by omega
    rw [up_step_zero menu (by omega), hd, walk_up, hcount]
    rw [up_loop_above menu 0 d _ (by omega) (by omega)]
    simp
  | succ s =>
    rw [up_step_succ, walk_up]
    exact up_loop_below menu (s + 1) hsel s _ (by omega) (by omega)

/-- The step forwards from an entry that is not the last. -/
theorem down_step_lt (menu : ui_menu_t) (i : Nat) (hi : i + 1 < menu.entries.length) :
    ui_menu_down_step menu i = some (i + 1) := by
  simp [ui_menu_down_step, ui_menu_entry_next, hi]

/-- The step forwards from the last entry. -/
theorem down_step_last (menu : ui_menu_t) (i : Nat) (hi : i + 1 = menu.entries.length) :
    ui_menu_down_step menu i = some 0 := by
  have hnot : ¬ i + 1 < menu.entries.length := by omega
  have hne : ¬ menu.entries.length = 0 := by omega
  simp [ui_menu_down_step, ui_menu_entry_next, ui_menu_entry_first, hnot, hne]

/-- One turn of the loop of `ui_menu_down` at an entry of the menu. -/
theorem down_loop_step (menu : ui_menu_t) (sel fuel i : Nat) (hi : i < menu.entries.length) :
    ui_menu_down_loop menu sel (fuel + 1) (some i) =
      if selectable_at menu i = true then some (some i)
      else if ui_menu_down_step menu i = some sel then some none
        else ui_menu_down_loop menu sel fuel (ui_menu_down_step menu i) := by
  conv_lhs => unfold ui_menu_down_loop
  rw [selectable_of_lt menu i hi]
  cases selectable_at menu i <;> simp

/-- The loop of `ui_menu_down` below the selected entry: from `i` it tests
`i, ..., sel - 1` and then has come around. -/
theorem down_loop_below (menu : ui_menu_t) (sel : Nat) (hsel : sel < menu.entries.length) :
    ∀ (d i fuel : Nat), i + d + 1 = sel → d + 1 ≤ fuel →
      ui_menu_down_loop menu sel fuel (some i) =
        some ((List.range' i (d + 1)).find? (selectable_at menu)) := by
  intro d
  induction d with
  | zero =>
    intro i fuel hi hfuel
    obtain ⟨f, rfl⟩ : ∃ f, fuel = f + 1 := ⟨fuel - 1, by omega⟩
    rw [down_loop_step menu sel f i (by omega), List.range'_succ]
    by_cases hp : selectable_at menu i = true
    · rw [if_pos hp, List.find?_cons_of_pos _ hp]
    · have hstep : ui_menu_down_step menu i = some sel := by
        rw [down_step_lt menu i (by omega)]
        simp only [Option.some.injEq]
        omega
      rw [if_neg hp, List.find?_cons_of_neg _ hp, if_pos hstep]
      rfl
  | succ d ih =>
    intro i fuel hi hfuel
    obtain ⟨f, rfl⟩ : ∃ f, fuel = f + 1 := ⟨fuel - 1, by omega⟩
    rw [down_loop_step menu sel f i (by omega), List.range'_succ]
    by_cases hp : selectable_at menu i = true
    · rw [if_pos hp, List.find?_cons_of_pos _ hp]
    · have hne : ¬ (some (i + 1) = some sel) := by
        simp only [Option.some.injEq]
        omega
      rw [if_neg hp, List.find?_cons_of_neg _ hp, down_step_lt menu i (by omega), if_neg hne]
      exact ih (i + 1) f (by omega) (by omega)

/-- The loop of `ui_menu_down` above the selected entry: from `i` it tests
`i, ..., n - 1`, wraps to the first entry and goes on below the selected
entry. -/
theorem down_loop_above (menu : ui_menu_t) (sel : Nat) (hsel : sel < menu.entries.length) :
    ∀ (d i fuel : Nat), i + d + 1 = menu.entries.length → sel < i → d + 1 + sel ≤ fuel →
      ui_menu_down_loop menu sel fuel (some i) =
        some ((List.range' i (d + 1) ++ List.range sel).find? (selectable_at menu)) := by
  intro d
  induction d with
  | zero =>
    intro i fuel hi hlt hfuel
    obtain ⟨f, rfl⟩ : ∃ f, fuel = f + 1 := ⟨fuel - 1, by omega⟩
    rw [down_loop_step menu sel f i (by omega), List.range'_succ, List.cons_append]
    by_cases hp : selectable_at menu i = true
    · rw [if_pos hp, List.find?_cons_of_pos _ hp]
    · rw [if_neg hp, List.find?_cons_of_neg _ hp, down_step_last menu i (by omega)]
      cases sel with
      | zero =>
        rw [if_pos rfl]
        rfl
      | succ s =>
        have hne : ¬ (some 0 = some (s + 1)) := by simp
        rw [if_neg hne, down_loop_below menu (s + 1) hsel s 0 f (by omega) (by omega)]
        simp [List.range_eq_range']
  | succ d ih =>
    intro i fuel hi hlt hfuel
    obtain ⟨f, rfl⟩ : ∃ f, fuel = f + 1 := ⟨fuel - 1, by omega⟩
    rw [down_loop_step menu sel f i (by omega), List.range'_succ, List.cons_append]
    by_cases hp : selectable_at menu i = true
    · rw [if_pos hp, List.find?_cons_of_pos _ hp]
    · have hne : ¬ (some (i + 1) = some sel) := by
        simp only [Option.some.injEq]
        omega
      rw [if_neg hp, List.find?_cons_of_neg _ hp, down_step_lt menu i (by omega), if_neg hne]
      exact ih (i + 1) f (by omega) (by omega) (by omega)

/-- The loop of `ui_menu_down`, entered as `ui_menu_down` enters it in a menu
of at least two entries, answers the first selectable entry of the walk
forwards. -/
theorem down_loop_walk (menu : ui_menu_t) (sel : Nat) (hsel : sel < menu.entries.length)
    (htwo : 2 ≤ menu.entries.length) :
    ui_menu_down_loop menu sel (menu.entries.length + 1) (ui_menu_down_step menu sel) =
      some ((walk_down menu.entries.length sel).find? (selectable_at menu)) := by
  by_cases hlast : sel + 1 < menu.entries.length
  · obtain ⟨d, hd⟩ : ∃ d, menu.entries.length - (sel + 1) = d + 1 :=
      ⟨menu.entries.length - (sel + 1) - 1, by omega⟩
    rw [down_step_lt menu sel hlast, walk_down, hd]
    exact down_loop_above menu sel hsel d (sel + 1) _ (by omega) (by omega) (by omega)
  · obtain ⟨s, rfl⟩ : ∃ s, sel = s + 1 := ⟨sel - 1, by omega⟩
    have hzero : menu.entries.length - (s + 1 + 1) = 0 := by omega
    rw [down_step_last menu (s + 1) (by omega), walk_down, hzero,
      down_loop_below menu (s + 1) hsel s 0 _ (by omega) (by omega)]
    simp [List.range_eq_range']

/-- Every position of the two walks is a position of the menu other than the
selected one. -/
theorem walk_positions (n sel : Nat) (hsel : sel < n) :
    (∀ j ∈ walk_up n sel, j < n ∧ j ≠ sel) ∧ (∀ j ∈ walk_down n sel, j < n ∧ j ≠ sel) := by
  constructor
  · intro j hj
    simp only [walk_up, List.mem_append, List.mem_reverse, List.mem_range,
      List.mem_range'_1] at hj
    omega
  · intro j hj
    simp only [walk_down, List.mem_append, List.mem_range, List.mem_range'_1] at hj
    omega

/-- C20: in a menu whose selected entry is an entry of its list, `ui_menu_up`
returns and leaves selected the first selectable entry met on the walk
backwards from the old selection (wrapping from the first entry to the last,
the old selection itself not counted), and the old selection when that walk
meets no selectable entry; `ui_menu_down` does the same on the walk forwards
(wrapping from the last entry to the first).  A selection that has changed is
an entry of the menu and selectable.  With no entry selected (NULL) both
functions return at once and change nothing. -/
theorem menu_up_down_selection (menu : ui_menu_t) (sel : Nat)
    (hsel : menu.selected = some sel) (hin : sel < menu.entries.length) :
    (∃ painted, ui_menu_up menu =
        some ({ menu with selected := some (spec_up_selection menu sel) }, painted)) ∧
      (∃ painted, ui_menu_down menu =
        some ({ menu with selected := some (spec_down_selection menu sel) }, painted)) ∧
      (spec_up_selection menu sel ≠ sel →
        spec_up_selection menu sel < menu.entries.length ∧
          selectable_at menu (spec_up_selection menu sel) = true) ∧
      (spec_down_selection menu sel ≠ sel →
        spec_down_selection menu sel < menu.entries.length ∧
          selectable_at menu (spec_down_selection menu sel) = true) ∧
      (∀ m : ui_menu_t, m.selected = none →
        ui_menu_up m = some (m, false) ∧ ui_menu_down m = some (m, false)) := by
  have hsame : ({ menu with selected := some sel } : ui_menu_t) = menu := by
    cases menu
    simp only at hsel
    subst hsel
    rfl
  refine ⟨?_, ?_, ?_, ?_, ?_⟩
  · by_cases htwo : 2 ≤ menu.entries.length
    · have hloop := up_loop_walk menu sel hin htwo
      simp only [ui_menu_up, hsel, hloop, spec_up_selection]
      cases (walk_up menu.entries.length sel).find? (selectable_at menu) with
      | none => exact ⟨false, by simp [hsame]⟩
      | some j => exact ⟨true, rfl⟩
    · have hone : menu.entries.length = 1 := by omega
      have hzero : sel = 0 := by omega
      subst hzero
      have hstep : ui_menu_up_step menu 0 = some 0 := by
        rw [up_step_zero menu (by omega), hone]
      have hwalk : walk_up 1 0 = [] := rfl
      simp only [ui_menu_up, hsel, hstep, hone, up_loop_step menu 0 1 0 (by omega), if_true,
        spec_up_selection, hwalk, List.find?_nil]
      cases selectable_at menu 0 with
      | false => exact ⟨false, by simp [hsame]⟩
      | true => exact ⟨true, by simp⟩
  · by_cases htwo : 2 ≤ menu.entries.length
    · have hloop := down_loop_walk menu sel hin htwo
      simp only [ui_menu_down, hsel, hloop, spec_down_selection]
      cases (walk_down menu.entries.length sel).find? (selectable_at menu) with
      | none => exact ⟨false, by simp [hsame]⟩
      | some j => exact ⟨true, rfl⟩
    · have hone : menu.entries.length = 1 := by omega
      have hzero : sel = 0 := by omega
      subst hzero
      have hstep : ui_menu_down_step menu 0 = some 0 := down_step_last menu 0 (by omega)
      have hwalk : walk_down 1 0 = [] := rfl
      simp only [ui_menu_down, hsel, hstep, hone, down_loop_step menu 0 1 0 (by omega), if_true,
        spec_down_selection, hwalk, List.find?_nil]
      cases selectable_at menu 0 with
      | false => exact ⟨false, by simp [hsame]⟩
      | true => exact ⟨true, by simp⟩
  · intro hne
    unfold spec_up_selection at hne ⊢
    cases hfind : (walk_up menu.entries.length sel).find? (selectable_at menu) with
    | none => simp [hfind] at hne
    | some j =>
      simp only [hfind]
      exact ⟨((walk_positions menu.entries.length sel hin).1 j
        (List.mem_of_find?_eq_some hfind)).1, List.find?_some hfind⟩
  · intro hne
    unfold spec_down_selection at hne ⊢
    cases hfind : (walk_down menu.entries.length sel).find? (selectable_at menu) with
    | none => simp [hfind] at hne
    | some j =>
      simp only [hfind]
      exact ⟨((walk_positions menu.entries.length sel hin).2 j
        (List.mem_of_find?_eq_some hfind)).1, List.find?_some hfind⟩
  · intro m hm
    simp [ui_menu_up, ui_menu_down, hm]

/-- C20 at the sample menu (entries 1 and 4 not selectable, entry 0 selected):
up wraps past entry 4 to entry 3, down skips entry 1 to entry 2. -/
theorem menu_up_down_selection_witness :
    ui_menu_up sample_menu = some ({ sample_menu with selected := some 3 }, true) ∧
      ui_menu_down sample_menu = some ({ sample_menu with selected := some 2 }, true) ∧
      (∃ painted, ui_menu_up sample_menu =
        some ({ sample_menu with selected := some (spec_up_selection sample_menu 0) },
          painted)) :=
  ⟨by decide, by decide, (menu_up_down_selection sample_menu 0 rfl (by decide)).1⟩

end UiMenu

namespace Asid

/-! ## Region identifiers -/

/-- C21: for every ASID and every region number `vrn < RIDS_PER_ASID`,
`RID2ASID (ASID2RID asid vrn)` is the ASID again, and `ASID2RID` maps two such
pairs to the same RID only when the pairs are equal; for an `asid_t` (16 bits)
the RID is computed without overflow of a C `int`. -/
theorem asid2rid_roundtrip_and_injective (asid vrn asid2 vrn2 : Nat)
    (hv : vrn < RIDS_PER_ASID) (hv2 : vrn2 < RIDS_PER_ASID) :
    RID2ASID (ASID2RID asid vrn) = asid ∧
    (ASID2RID asid vrn = ASID2RID asid2 vrn2 → asid = asid2 ∧ vrn = vrn2) ∧
    (asid < 2 ^ 16 → ASID2RID asid vrn < 2 ^ 31) := by
  unfold RID2ASID ASID2RID RIDS_PER_ASID at *
  refine ⟨by omega, fun h => by omega, fun h => by omega⟩

/-- The round trip and the bound at ASID 5, region 6 (RID 41), and a pair that
maps elsewhere. -/
theorem asid2rid_roundtrip_and_injective_witness :
    (6 < RIDS_PER_ASID ∧ 0 < RIDS_PER_ASID) ∧
    (RID2ASID (ASID2RID 5 6) = 5 ∧
      (ASID2RID 5 6 = ASID2RID 6 0 → 5 = 6 ∧ 6 = 0) ∧
      (5 < 2 ^ 16 → ASID2RID 5 6 < 2 ^ 31)) :=
  ⟨by decide, asid2rid_roundtrip_and_injective 5 6 6 0 (by decide) (by decide)⟩

/-- C27: the code at the largest architectural ASID.  `ASID_MAX_ARCH` is
`262143 / 7 = 37449`, an exact division, so `ASID2RID ASID_MAX_ARCH 1` is
`262144`, above `RID_MAX`: only region 0 of that ASID fits, while every region
of every smaller ASID does. -/
theorem asid_max_arch_rid_above_rid_max :
    ASID_MAX_ARCH = 37449 ∧ ASID_MAX_ARCH < 2 ^ 16 ∧ 1 < RIDS_PER_ASID ∧
    ASID2RID ASID_MAX_ARCH 1 = 262144 ∧ ¬ ASID2RID ASID_MAX_ARCH 1 ≤ RID_MAX ∧
    (∀ vrn, ASID2RID ASID_MAX_ARCH vrn ≤ RID_MAX ↔ vrn = 0) ∧
    (∀ asid vrn, asid < ASID_MAX_ARCH → vrn < RIDS_PER_ASID →
      ASID2RID asid vrn ≤ RID_MAX) := by
  unfold ASID2RID ASID_MAX_ARCH RID_MAX RIDS_PER_ASID
  refine ⟨by norm_num, by norm_num, by norm_num, by norm_num, by norm_num, ?_, ?_⟩
  · intro vrn
    constructor <;> intro h <;> omega
  · intro asid vrn h1 h2
    omega

end Asid

namespace Ext4

/-! ## Bitmap operations -/

open errno_t

theorem and_bit_eq_zero (x j : Nat) : x &&& (1 <<< j) = 0 ↔ x.testBit j = false := by
  rw [Nat.one_shiftLeft]
  constructor
  · intro h
    have := congrArg (fun n => n.testBit j) h
    simpa [Nat.testBit_and, Nat.testBit_two_pow] using this
  · intro h
    apply Nat.eq_of_testBit_eq
    intro i
    simp only [Nat.testBit_and, Nat.testBit_two_pow, Nat.zero_testBit]
    by_cases hij : j = i
    · subst hij; simp [h]
    · simp [hij]

theorem testBit_set_byte (b k j : Nat) :
    ((b ||| 1 <<< k) % 256).testBit j = (decide (j < 8) && (b.testBit j || decide (k = j))) := by
  have : (256 : Nat) = 2 ^ 8 := by norm_num
  rw [this, Nat.testBit_mod_two_pow, Nat.testBit_or, Nat.one_shiftLeft, Nat.testBit_two_pow]

theorem testBit_clear_byte (b k j : Nat) :
    ((b &&& int_not (1 <<< k)) % 256).testBit j =
      (decide (j < 8) && (b.testBit j && !decide (k = j))) := by
  have h1 : (256 : Nat) = 2 ^ 8 := by norm_num
  have h2 : (0xFFFFFFFF : Nat) = 2 ^ 32 - 1 := by norm_num
  unfold int_not
  rw [h1, h2, Nat.testBit_mod_two_pow, Nat.testBit_and, Nat.testBit_xor, Nat.one_shiftLeft,
    Nat.testBit_two_pow, Nat.testBit_two_pow_sub_one]
  by_cases hj : j < 8
  · have : j < 32 := by omega
    simp [hj, this]
  · simp [hj]

/-- The byte `ext4_bitmap_set_bit` stores is a fixed point of the operation. -/
theorem set_byte_idem (b k : Nat) :
    (((b ||| 1 <<< k) % 256) ||| 1 <<< k) % 256 = (b ||| 1 <<< k) % 256 := by
  apply Nat.eq_of_testBit_eq
  intro j
  rw [testBit_set_byte, testBit_set_byte]
  by_cases hj : j < 8 <;> by_cases hk : k = j <;> simp [hj, hk]

/-- The byte `ext4_bitmap_free_bit` stores is a fixed point of the operation. -/
theorem clear_byte_idem (b k : Nat) :
    (((b &&& int_not (1 <<< k)) % 256) &&& int_not (1 <<< k)) % 256 =
      (b &&& int_not (1 <<< k)) % 256 := by
  apply Nat.eq_of_testBit_eq
  intro j
  rw [testBit_clear_byte, testBit_clear_byte]
  by_cases hj : j < 8 <;> by_cases hk : k = j <;> simp [hj, hk]

/-- `ext4_bitmap_is_free_bit` reads bit `index % 8` of byte `index / 8`. -/
theorem is_free_bit_eq (bitmap : List Nat) (index : Nat) :
    ext4_bitmap_is_free_bit bitmap index =
      (bitmap[index / 8]?).map (fun target => !target.testBit (index % 8)) := by
  simp only [ext4_bitmap_is_free_bit]
  cases h : bitmap[index / 8]? with
  | none => rfl
  | some target =>
    simp only [Option.map_some']
    by_cases hb : target &&& (1 <<< (index % 8)) = 0
    · have := (and_bit_eq_zero _ _).mp hb
      simp [hb, this]
    · have : target.testBit (index % 8) = true := by
        cases h2 : target.testBit (index % 8) with
        | true => rfl
        | false => exact absurd ((and_bit_eq_zero _ _).mpr h2) hb
      simp [hb, this]

/-- After a store of `value` into byte `pos`, the bits of the other bytes read
as before and the bits of byte `pos` are those of `value`. -/
theorem is_free_bit_set (bitmap : List Nat) (pos value j : Nat) (hpos : pos < bitmap.length) :
    ext4_bitmap_is_free_bit (bitmap.set pos value) j =
      if j / 8 = pos then some (!value.testBit (j % 8))
      else ext4_bitmap_is_free_bit bitmap j := by
  rw [is_free_bit_eq, is_free_bit_eq]
  by_cases hj : j / 8 = pos
  · subst hj
    rw [if_pos rfl, List.getElem?_set_self hpos]
    rfl
  · rw [if_neg hj, List.getElem?_set_ne (Ne.symm hj)]

/-- Setting bit `k % 8` in byte `k / 8`: bit `k` reads as set, every other
bit as before. -/
theorem is_free_bit_after_set (bitmap : List Nat) (k j target : Nat)
    (hget : bitmap[k / 8]? = some target) :
    ext4_bitmap_is_free_bit (bitmap.set (k / 8) ((target ||| 1 <<< (k % 8)) % 256)) j =
      if j = k then some false else ext4_bitmap_is_free_bit bitmap j := by
  have hpos : k / 8 < bitmap.length := by
    rcases List.getElem?_eq_some_iff.mp hget with ⟨h, _⟩
    exact h
  rw [is_free_bit_set _ _ _ _ hpos]
  by_cases hjk : j = k
  · subst hjk
    have h8 : j % 8 < 8 := Nat.mod_lt _ (by norm_num)
    rw [if_pos rfl, if_pos rfl, testBit_set_byte]
    simp [h8]
  · rw [if_neg hjk]
    by_cases hb : j / 8 = k / 8
    · have hne : ¬ k % 8 = j % 8 := by omega
      have h8 : j % 8 < 8 := Nat.mod_lt _ (by norm_num)
      rw [if_pos hb, is_free_bit_eq, hb, hget, testBit_set_byte]
      simp [hne, h8]
    · rw [if_neg hb]

/-- Clearing bit `k % 8` in byte `k / 8`: bit `k` reads as free, every other
bit as before. -/
theorem is_free_bit_after_free (bitmap : List Nat) (k j target : Nat)
    (hget : bitmap[k / 8]? = some target) :
    ext4_bitmap_is_free_bit
        (bitmap.set (k / 8) ((target &&& int_not (1 <<< (k % 8))) % 256)) j =
      if j = k then some true else ext4_bitmap_is_free_bit bitmap j := by
  have hpos : k / 8 < bitmap.length := by
    rcases List.getElem?_eq_some_iff.mp hget with ⟨h, _⟩
    exact h
  rw [is_free_bit_set _ _ _ _ hpos]
  by_cases hjk : j = k
  · subst hjk
    rw [if_pos rfl, if_pos rfl, testBit_clear_byte]
    simp
  · rw [if_neg hjk]
    by_cases hb : j / 8 = k / 8
    · have hne : ¬ k % 8 = j % 8 := by omega
      have h8 : j % 8 < 8 := Nat.mod_lt _ (by norm_num)
      rw [if_pos hb, is_free_bit_eq, hb, hget, testBit_clear_byte]
      simp [hne, h8]
    · rw [if_neg hb]

/-- C24: for every bitmap and every index `i` whose byte lies inside it,
`ext4_bitmap_set_bit` and `ext4_bitmap_free_bit` succeed; after the first
`ext4_bitmap_is_free_bit` answers false at `i`, after the second true; applied
a second time each leaves the bitmap as it is; and both leave the answer of
`ext4_bitmap_is_free_bit` at every `j ≠ i` unchanged. -/
theorem bitmap_set_free_laws (bitmap : List Nat) (i : Nat) (hi : i / 8 < bitmap.length) :
    ∃ s f, ext4_bitmap_set_bit bitmap i = some s ∧
      ext4_bitmap_free_bit bitmap i = some f ∧
      ext4_bitmap_is_free_bit s i = some false ∧
      ext4_bitmap_is_free_bit f i = some true ∧
      ext4_bitmap_set_bit s i = some s ∧
      ext4_bitmap_free_bit f i = some f ∧
      (∀ j, j ≠ i →
        ext4_bitmap_is_free_bit s j = ext4_bitmap_is_free_bit bitmap j ∧
        ext4_bitmap_is_free_bit f j = ext4_bitmap_is_free_bit bitmap j) := by
  have hget : bitmap[i / 8]? = some bitmap[i / 8] := List.getElem?_eq_getElem hi
  refine ⟨bitmap.set (i / 8) ((bitmap[i / 8] ||| 1 <<< (i % 8)) % 256),
    bitmap.set (i / 8) ((bitmap[i / 8] &&& int_not (1 <<< (i % 8))) % 256),
    ?_, ?_, ?_, ?_, ?_, ?_, ?_⟩
  · simp only [ext4_bitmap_set_bit, hget]
  · simp only [ext4_bitmap_free_bit, hget]
  · rw [is_free_bit_after_set _ _ _ _ hget, if_pos rfl]
  · rw [is_free_bit_after_free _ _ _ _ hget, if_pos rfl]
  · simp only [ext4_bitmap_set_bit, List.getElem?_set_self hi, set_byte_idem, List.set_set]
  · simp only [ext4_bitmap_free_bit, List.getElem?_set_self hi, clear_byte_idem, List.set_set]
  · intro j hj
    rw [is_free_bit_after_set _ _ _ _ hget, is_free_bit_after_free _ _ _ _ hget,
      if_neg hj, if_neg hj]
    exact ⟨rfl, rfl⟩

/-- The laws on the two-byte bitmap `[0x0F, 0xF0]` at bit 9. -/
theorem bitmap_set_free_laws_witness :
    9 / 8 < [0x0F, 0xF0].length ∧
    ∃ s f, ext4_bitmap_set_bit [0x0F, 0xF0] 9 = some s ∧
      ext4_bitmap_free_bit [0x0F, 0xF0] 9 = some f ∧
      ext4_bitmap_is_free_bit s 9 = some false ∧
      ext4_bitmap_is_free_bit f 9 = some true ∧
      ext4_bitmap_set_bit s 9 = some s ∧
      ext4_bitmap_free_bit f 9 = some f ∧
      (∀ j, j ≠ 9 →
        ext4_bitmap_is_free_bit s j = ext4_bitmap_is_free_bit [0x0F, 0xF0] j ∧
        ext4_bitmap_is_free_bit f j = ext4_bitmap_is_free_bit [0x0F, 0xF0] j) :=
  ⟨by decide, bitmap_set_free_laws [0x0F, 0xF0] 9 (by decide)⟩

/-! ## Search for a free bit -/

/-- The `while` loop ends, inside the bitmap or at its end, and never runs out
of fuel when the fuel covers the bytes left. -/
theorem skip_full_bytes_total (bitmap : List Nat) (size : Nat) (hlen : size ≤ bitmap.length) :
    ∀ fuel pos, size ≤ fuel + pos →
      ∃ p, skip_full_bytes bitmap size fuel pos = some p ∧ pos ≤ p ∧ (pos ≤ size → p ≤ size) := by
  intro fuel
  induction fuel with
  | zero =>
    intro pos h
    have : ¬ pos < size := by omega
    exact ⟨pos, by simp [skip_full_bytes, this], le_refl _, fun h => h⟩
  | succ fuel ih =>
    intro pos h
    by_cases hp : pos < size
    · have hget : bitmap[pos]? = some bitmap[pos] := List.getElem?_eq_getElem (by omega)
      by_cases hfull : bitmap[pos] &&& 255 = 255
      · obtain ⟨p, h1, h2, h3⟩ := ih (pos + 1) (by omega)
        refine ⟨p, ?_, by omega, fun _ => h3 (by omega)⟩
        simp only [skip_full_bytes, hp, hget, if_true]
        simpa [hfull] using h1
      · refine ⟨pos, ?_, le_refl _, fun h => h⟩
        simp only [skip_full_bytes, hp, hget, if_true]
        simp [hfull]
    · exact ⟨pos, by simp [skip_full_bytes, hp], le_refl _, fun h => h⟩

/-- The bit a `for` loop stops at is clear and lies between `lo` and 7. -/
theorem first_free_bit_some (value lo i : Nat) (h : first_free_bit value lo = some i) :
    lo ≤ i ∧ i < 8 ∧ value &&& (1 <<< i) = 0 := by
  unfold first_free_bit at h
  have hp := List.find?_some h
  have hm := List.mem_of_find?_eq_some h
  rw [List.mem_range'_1] at hm
  refine ⟨hm.1, by omega, by simpa using hp⟩

/-- A `for` loop over the bits of a byte inside the bitmap either ends without
a store, or stores at a bit that was clear. -/
theorem find_in_byte_and_set_cases (bitmap : List Nat) (pos lo : Nat)
    (hpos : pos < bitmap.length) :
    find_in_byte_and_set bitmap pos lo = some none ∨
    ∃ i, lo ≤ i ∧ i < 8 ∧ bitmap[pos] &&& (1 <<< i) = 0 ∧
      find_in_byte_and_set bitmap pos lo =
        some (some ⟨EOK, some ((pos * 8 + i) % 2 ^ 32),
          bitmap.set pos ((bitmap[pos] ||| 1 <<< i) % 256)⟩) := by
  have hget : bitmap[pos]? = some bitmap[pos] := List.getElem?_eq_getElem hpos
  cases hf : first_free_bit bitmap[pos] lo with
  | none => left; simp only [find_in_byte_and_set, hget, hf]
  | some i =>
    right
    obtain ⟨h1, h2, h3⟩ := first_free_bit_some _ _ _ hf
    exact ⟨i, h1, h2, h3, by simp only [find_in_byte_and_set, hget, hf]⟩

/-- What a store by one of the `for` loops means for the bitmap: with
`k = pos * 8 + i` below `2^32`, bit `k` was free, is set afterwards, the new
bitmap is that of `ext4_bitmap_set_bit` at `k`, and no other bit changed. -/
theorem store_at_free_bit (bitmap : List Nat) (size pos i : Nat)
    (hlen : bitmap.length = size) (hsize : 8 * size ≤ 2 ^ 32) (hpos : pos < bitmap.length)
    (hi : i < 8) (hfree : bitmap[pos] &&& (1 <<< i) = 0) :
    ∃ k, (pos * 8 + i) % 2 ^ 32 = k ∧ k < 8 * size ∧ k / 8 = pos ∧ k % 8 = i ∧
      ext4_bitmap_is_free_bit bitmap k = some true ∧
      ext4_bitmap_is_free_bit (bitmap.set pos ((bitmap[pos] ||| 1 <<< i) % 256)) k
        = some false ∧
      ext4_bitmap_set_bit bitmap k
        = some (bitmap.set pos ((bitmap[pos] ||| 1 <<< i) % 256)) ∧
      ∀ j, j ≠ k →
        ext4_bitmap_is_free_bit (bitmap.set pos ((bitmap[pos] ||| 1 <<< i) % 256)) j
          = ext4_bitmap_is_free_bit bitmap j := by
  have hk : (pos * 8 + i) % 2 ^ 32 = pos * 8 + i := Nat.mod_eq_of_lt (by omega)
  have hdiv : (pos * 8 + i) / 8 = pos := by omega
  have hmod : (pos * 8 + i) % 8 = i := by omega
  have hget : bitmap[(pos * 8 + i) / 8]? = some bitmap[pos] := by
    rw [hdiv]; exact List.getElem?_eq_getElem hpos
  have hafter := is_free_bit_after_set bitmap (pos * 8 + i) 
  simp only [hdiv, hmod] at hafter
  have hget2 : bitmap[pos]? = some bitmap[pos] := List.getElem?_eq_getElem hpos
  refine ⟨pos * 8 + i, hk, by omega, hdiv, hmod, ?_, ?_, ?_, ?_⟩
  · rw [is_free_bit_eq, hget, hmod]
    simp [(and_bit_eq_zero _ _).mp hfree]
  · rw [hafter _ _ hget2, if_pos rfl]
  · simp only [ext4_bitmap_set_bit, hmod, hdiv, hget2]
  · intro j hj
    rw [hafter _ _ hget2, if_neg hj]

/-- C25, for bitmaps whose bit indices fit the 32-bit `index` (at most `2^29`
bytes): for every bitmap of `size` bytes and every `start` with
`start / 8 < size`, `ext4_bitmap_find_free_bit_and_set` returns; when it
returns `EOK` with index `k`, then `k < 8 * size`, bit `k` was free before the
call and is set after it, the new bitmap is the old one with bit `k` set, and
every other bit reads as before; when it returns `ENOSPC` nothing is stored
and the bitmap is unchanged. -/
theorem find_free_bit_and_set_effect (bitmap : List Nat) (start size : Nat)
    (hlen : bitmap.length = size) (hstart : start / 8 < size) (hsize : 8 * size ≤ 2 ^ 32) :
    ∃ r, ext4_bitmap_find_free_bit_and_set bitmap start size = some r ∧
      ((r.rc = EOK ∧ ∃ k, r.index = some k ∧ k < 8 * size ∧
          ext4_bitmap_is_free_bit bitmap k = some true ∧
          ext4_bitmap_is_free_bit r.bitmap k = some false ∧
          ext4_bitmap_set_bit bitmap k = some r.bitmap ∧
          ∀ j, j ≠ k →
            ext4_bitmap_is_free_bit r.bitmap j = ext4_bitmap_is_free_bit bitmap j) ∨
       (r.rc = ENOSPC ∧ r.index = none ∧ r.bitmap = bitmap)) := by
  obtain ⟨p, hp, hp1, hp2⟩ :=
    skip_full_bytes_total bitmap size (le_of_eq hlen.symm) size (start / 8) (by omega)
  have hp3 : p ≤ size := hp2 (by omega)
  have stored : ∀ lo r, p < size →
      find_in_byte_and_set bitmap p lo = some (some r) →
      (r.rc = EOK ∧ ∃ k, r.index = some k ∧ k < 8 * size ∧
          ext4_bitmap_is_free_bit bitmap k = some true ∧
          ext4_bitmap_is_free_bit r.bitmap k = some false ∧
          ext4_bitmap_set_bit bitmap k = some r.bitmap ∧
          ∀ j, j ≠ k →
            ext4_bitmap_is_free_bit r.bitmap j = ext4_bitmap_is_free_bit bitmap j) := by
    intro lo r hlt hr
    have hpos : p < bitmap.length := by omega
    rcases find_in_byte_and_set_cases bitmap p lo hpos with h | ⟨i, _, hi, hfree, h⟩
    · rw [h] at hr; cases hr
    · rw [h] at hr
      cases hr
      obtain ⟨k, hk, hk1, _, _, hk4, hk5, hk6, hk7⟩ :=
        store_at_free_bit bitmap size p i hlen hsize hpos hi hfree
      exact ⟨rfl, k, by simp only [hk], hk1, hk4, hk5, hk6, hk7⟩
  have tail : ∃ r, find_from_bit_zero bitmap size p = some r ∧
      ((r.rc = EOK ∧ ∃ k, r.index = some k ∧ k < 8 * size ∧
          ext4_bitmap_is_free_bit bitmap k = some true ∧
          ext4_bitmap_is_free_bit r.bitmap k = some false ∧
          ext4_bitmap_set_bit bitmap k = some r.bitmap ∧
          ∀ j, j ≠ k →
            ext4_bitmap_is_free_bit r.bitmap j = ext4_bitmap_is_free_bit bitmap j) ∨
       (r.rc = ENOSPC ∧ r.index = none ∧ r.bitmap = bitmap)) := by
    unfold find_from_bit_zero
    by_cases hlt : p < size
    · rw [if_pos hlt]
      rcases find_in_byte_and_set_cases bitmap p 0 (by omega) with h | ⟨i, _, _, _, h⟩
      · rw [h]
        exact ⟨_, rfl, Or.inr ⟨rfl, rfl, rfl⟩⟩
      · have := stored 0 _ hlt h
        rw [h]
        exact ⟨_, rfl, Or.inl this⟩
    · rw [if_neg hlt]
      exact ⟨_, rfl, Or.inr ⟨rfl, rfl, rfl⟩⟩
  unfold ext4_bitmap_find_free_bit_and_set
  rw [hp]
  by_cases heq : p = start / 8
  · simp only [if_pos heq]
    have hlt : p < size := by omega
    rcases find_in_byte_and_set_cases bitmap p (start % 8) (by omega) with h | ⟨i, _, _, _, h⟩
    · rw [h]
      exact tail
    · have := stored _ _ hlt h
      rw [h]
      exact ⟨_, rfl, Or.inl this⟩
  · simp only [if_neg heq]
    exact tail

/-- The search on `[0xFF, 0xF7]` from bit 1 returns; the bitmap has two bytes
and its indices fit 32 bits. -/
theorem find_free_bit_and_set_effect_witness :
    ([0xFF, 0xF7].length = 2 ∧ 1 / 8 < 2 ∧ 8 * 2 ≤ 2 ^ 32) ∧
    ∃ r, ext4_bitmap_find_free_bit_and_set [0xFF, 0xF7] 1 2 = some r ∧
      ((r.rc = EOK ∧ ∃ k, r.index = some k ∧ k < 8 * 2 ∧
          ext4_bitmap_is_free_bit [0xFF, 0xF7] k = some true ∧
          ext4_bitmap_is_free_bit r.bitmap k = some false ∧
          ext4_bitmap_set_bit [0xFF, 0xF7] k = some r.bitmap ∧
          ∀ j, j ≠ k →
            ext4_bitmap_is_free_bit r.bitmap j
              = ext4_bitmap_is_free_bit [0xFF, 0xF7] j) ∨
       (r.rc = ENOSPC ∧ r.index = none ∧ r.bitmap = [0xFF, 0xF7])) :=
  ⟨by decide, find_free_bit_and_set_effect [0xFF, 0xF7] 1 2 (by decide) (by decide) (by decide)⟩

/-- Over a run of full bytes ended by an empty byte the `while` loop stops at
the empty byte. -/
theorem skip_full_bytes_run (n size : Nat) (rest : List Nat) (hn : n < size) :
    ∀ fuel pos, pos ≤ n → n - pos < fuel →
      skip_full_bytes (List.replicate n 255 ++ 0 :: rest) size fuel pos = some n := by
  intro fuel
  induction fuel with
  | zero => intro pos _ h; omega
  | succ fuel ih =>
    intro pos hle hfuel
    have hp : pos < size := by omega
    by_cases hlt : pos < n
    · have hget : (List.replicate n 255 ++ 0 :: rest)[pos]? = some 255 := by
        rw [List.getElem?_append_left (by simpa using hlt)]
        simp [List.getElem?_replicate, hlt]
      simp only [skip_full_bytes, hp, hget, if_true]
      simpa using ih (pos + 1) (by omega) (by omega)
    · have hpn : pos = n := by omega
      subst hpn
      have hget : (List.replicate pos 255 ++ 0 :: rest)[pos]? = some 0 := by
        rw [List.getElem?_append_right (by simp)]
        simp
      simp only [skip_full_bytes, hp, hget, if_true]
      simp

/-- The search from bit 0 in a bitmap of `n` full bytes and one empty byte
stores the index `n * 8` reduced modulo `2^32`. -/
theorem find_free_bit_after_full_run (n : Nat) (hn : 0 < n) :
    ext4_bitmap_find_free_bit_and_set (List.replicate n 255 ++ [0]) 0 (n + 1)
      = some ⟨EOK, some ((n * 8 + 0) % 2 ^ 32),
          (List.replicate n 255 ++ [0]).set n ((0 ||| 1 <<< 0) % 256)⟩ := by
  have hskip := skip_full_bytes_run n (n + 1) [] (by omega) (n + 1) 0 (by omega) (by omega)
  have hget : (List.replicate n 255 ++ [0])[n]? = some 0 := by
    rw [List.getElem?_append_right (by simp)]
    simp
  have hne : ¬ n = 0 / 8 := by omega
  have hfirst : first_free_bit 0 0 = some 0 := by decide
  simp only [ext4_bitmap_find_free_bit_and_set, hskip, if_neg hne, find_from_bit_zero,
    Nat.lt_succ_self, if_true, find_in_byte_and_set, hget, hfirst]


/-- C25, as stated, fails once the bitmap has more than `2^29` bytes: on
`2^29` full bytes followed by an empty byte the search from bit 0 returns
`EOK` and stores index 0 (the bit found is bit `2^32`, which the 32-bit
`index` cannot hold), and bit 0 was not free before the call. -/
theorem find_free_bit_and_set_index_wraps :
    long_full_bitmap.length = 2 ^ 29 + 1 ∧ 0 / 8 < 2 ^ 29 + 1 ∧
    ∃ r, ext4_bitmap_find_free_bit_and_set long_full_bitmap 0 (2 ^ 29 + 1) = some r ∧
      r.rc = EOK ∧ r.index = some 0 ∧
      ext4_bitmap_is_free_bit long_full_bitmap 0 = some false := by
  have hlen : long_full_bitmap.length = 2 ^ 29 + 1 := by
    unfold long_full_bitmap
    rw [List.length_append, List.length_replicate, List.length_singleton]
  have hget : long_full_bitmap[0 / 8]? = some 255 := by
    unfold long_full_bitmap
    rw [List.getElem?_append_left (by rw [List.length_replicate]; norm_num),
      List.getElem?_replicate, if_pos (by norm_num)]
  have hrun := find_free_bit_after_full_run (2 ^ 29) (by norm_num)
  have hidx : (2 ^ 29 * 8 + 0) % 2 ^ 32 = 0 := by norm_num
  rw [hidx] at hrun
  refine ⟨hlen, by norm_num, _, hrun, rfl, rfl, ?_⟩
  rw [is_free_bit_eq, hget]
  rfl


/-- C26: the code on the one-byte bitmap `[0xFE]` and on `[0xFE, 0x00]`,
searched from bit 1.  The byte containing `start` is not full, its bits 1 to 7
are set, and the second loop then scans the same byte from bit 0: the call
returns `EOK` with index 0, below `start`, although in the second bitmap bit 8
is free. -/
theorem find_free_bit_and_set_below_start :
    [0xFE].length = 1 ∧ 1 / 8 < 1 ∧
    ext4_bitmap_find_free_bit_and_set [0xFE] 1 1 = some ⟨EOK, some 0, [0xFF]⟩ ∧
    [0xFE, 0x00].length = 2 ∧ 1 / 8 < 2 ∧
    ext4_bitmap_find_free_bit_and_set [0xFE, 0x00] 1 2 = some ⟨EOK, some 0, [0xFF, 0x00]⟩ ∧
    ext4_bitmap_is_free_bit [0xFE, 0x00] 8 = some true ∧ ¬ 1 ≤ 0 := by
  decide

end Ext4

namespace KbdPc

/-! ## Scancode parsing -/

open kbd_ev_type_t

/-- The table has 128 entries whatever the key codes are. -/
theorem scanmap_simple_length (code : keycode → Nat) : (scanmap_simple code).length = 128 := by
  have h : ∀ (l : List (Nat × keycode)) (t : List Nat),
      (l.foldl (fun table e => table.set e.1 (code e.2)) t).length = t.length := by
    intro l
    induction l with
    | nil => intro t; rfl
    | cons e l ih => intro t; rw [List.foldl_cons, ih, List.length_set]
  unfold scanmap_simple
  rw [h, List.length_replicate]

set_option maxRecDepth 100000 in
/-- Facts about bit 7 of a scancode below `0x100`. -/
theorem scancode_bits : ∀ s < 256,
    s &&& 0x7f < 128 ∧
    (s &&& 0x80 ≠ 0 → s &&& (0x80 ^^^ 0xFFFFFFFF) = s &&& 0x7f) ∧
    (s &&& 0x80 = 0 → s = s &&& 0x7f) ∧
    (s ||| 0x80) &&& 0x7f = s &&& 0x7f ∧ (s ||| 0x80) < 256 := by
  decide

/-- Outside the range 0 to `0xff` the function pushes nothing, and so does
the reference. -/
theorem parse_scancode_out_of_range (code : keycode → Nat) (scancode : Int)
    (hr : scancode < 0 ∨ scancode ≥ 0x100) :
    kbd_ctl_parse_scancode code scancode = some [] ∧ spec_parse_scancode code scancode = [] := by
  unfold kbd_ctl_parse_scancode spec_parse_scancode
  rw [if_pos hr, if_pos hr]
  exact ⟨rfl, rfl⟩

/-- Inside the range the function reads the table at `s & 0x7f` and pushes
what the reference says. -/
theorem parse_scancode_in_range (code : keycode → Nat) (s : Nat) (hs : s < 256) :
    kbd_ctl_parse_scancode code (s : Int) = some (spec_parse_scancode code (s : Int)) := by
  have hlen := scanmap_simple_length code
  obtain ⟨c1, c2, c3, _, _⟩ := scancode_bits s hs
  have hr : ¬ ((s : Int) < 0 ∨ (s : Int) ≥ 0x100) := by omega
  unfold kbd_ctl_parse_scancode spec_parse_scancode
  rw [if_neg hr, if_neg hr]
  generalize scanmap_simple code = table at hlen ⊢
  have hget : table[s &&& 0x7f]? = some (table.getD (s &&& 0x7f) 0) := by
    rw [List.getD_eq_getElem?_getD, List.getElem?_eq_getElem (by omega)]
    rfl
  simp only [Int.toNat_ofNat]
  by_cases hb : s &&& 0x80 = 0
  · have hnb : ¬ (s &&& 0x80 ≠ 0) := fun h => h hb
    rw [if_neg hnb, if_pos hb]
    simp only []
    rw [← c3 hb] at hget ⊢
    rw [hget]
    simp only []
    split_ifs <;> first | rfl | (exfalso; omega)
  · have hnb : s &&& 0x80 ≠ 0 := hb
    rw [if_pos hnb, if_neg hb]
    simp only []
    rw [c2 hnb, hget]
    simp only []
    split_ifs <;> first | rfl | (exfalso; omega)

/-- The reference pushes at most one event. -/
theorem spec_parse_scancode_length (code : keycode → Nat) (scancode : Int) :
    (spec_parse_scancode code scancode).length ≤ 1 := by
  unfold spec_parse_scancode
  generalize scanmap_simple code = table
  split
  · simp
  · simp only []
    split
    · simp
    · split <;> simp

/-- The reference names the same key for `s` and `s | 0x80`. -/
theorem spec_parse_scancode_same_key (code : keycode → Nat) (s : Nat) (hs : s < 256) :
    (spec_parse_scancode code ((s ||| 0x80 : Nat) : Int)).map Prod.snd
      = (spec_parse_scancode code (s : Int)).map Prod.snd := by
  obtain ⟨_, _, _, c4, c5⟩ := scancode_bits s hs
  have hr : ¬ ((s : Int) < 0 ∨ (s : Int) ≥ 0x100) := by omega
  have hr2 : ¬ (((s ||| 0x80 : Nat) : Int) < 0 ∨ ((s ||| 0x80 : Nat) : Int) ≥ 0x100) := by omega
  unfold spec_parse_scancode
  rw [if_neg hr, if_neg hr2]
  generalize scanmap_simple code = table
  simp only [Int.toNat_ofNat, c4]
  split_ifs <;> rfl

/-- C28: for every scancode `kbd_ctl_parse_scancode` pushes what the reference
says, at most one event; for a scancode from 0 to `0xff` the index
`scancode & 0x7f` lies inside the table, and the scancodes `s` and `s | 0x80`
push events for the same key. -/
theorem parse_scancode_refines_reference (code : keycode → Nat) (scancode : Int) :
    kbd_ctl_parse_scancode code scancode = some (spec_parse_scancode code scancode) ∧
    (spec_parse_scancode code scancode).length ≤ 1 ∧
    (0 ≤ scancode → scancode < 0x100 →
      scancode.toNat &&& 0x7f < (scanmap_simple code).length ∧
      (kbd_ctl_parse_scancode code ((scancode.toNat ||| 0x80 : Nat) : Int)).map
          (List.map Prod.snd)
        = (kbd_ctl_parse_scancode code scancode).map (List.map Prod.snd)) := by
  by_cases hr : scancode < 0 ∨ scancode ≥ 0x100
  · obtain ⟨h1, h2⟩ := parse_scancode_out_of_range code scancode hr
    refine ⟨by rw [h1, h2], spec_parse_scancode_length code scancode, ?_⟩
    intro h0 h1
    omega
  · have h0 : 0 ≤ scancode := by omega
    have h1 : scancode < 0x100 := by omega
    obtain ⟨s, rfl⟩ := Int.eq_ofNat_of_zero_le h0
    have hs : s < 256 := by omega
    obtain ⟨b1, _, _, _, b5⟩ := scancode_bits s hs
    refine ⟨parse_scancode_in_range code s hs, spec_parse_scancode_length code _, ?_⟩
    intro _ _
    refine ⟨by rw [scanmap_simple_length, Int.toNat_ofNat]; exact b1, ?_⟩
    rw [Int.toNat_ofNat, parse_scancode_in_range code s hs,
      parse_scancode_in_range code (s ||| 0x80) b5, Option.map_some', Option.map_some',
      spec_parse_scancode_same_key code s hs]

set_option maxRecDepth 100000 in
/-- The code on the make and break codes of one key (`0x1e` and `0x9e`), on an
unassigned table slot and outside the range, with sample key codes. -/
theorem parse_scancode_samples :
    kbd_ctl_parse_scancode sample_code 0x1e = some [(KE_PRESS, 29)] ∧
    kbd_ctl_parse_scancode sample_code 0x9e = some [(KE_RELEASE, 29)] ∧
    kbd_ctl_parse_scancode sample_code 0x00 = some [] ∧
    kbd_ctl_parse_scancode sample_code 0x100 = some [] ∧
    kbd_ctl_parse_scancode sample_code (-1) = some [] := by
  decide

end KbdPc

namespace UiMenu

/-! ## Menu geometry -/

/-- C29: the code at the starting position (10, 20) in graphics mode, with
entries 100 wide and 30 high in total.  The outer rectangle is
(10, 20)-(118, 58) and the entries rectangle starts at (14, 24) and ends at
x = 114, but its lower edge is 44, the left edge 14 plus the height 30, where
the outer edge less the frame is 54; its height comes out as 20.  For every
input the horizontal part of the inset holds and the lower edge is
`spos.x + frame_w + total_h`, so the vertical part holds exactly when
`spos.x + frame_w = spos.y + frame_h`. -/
theorem menu_geom_entries_lower_edge :
    ui_menu_get_geom false 100 30 ⟨10, 20⟩
      = ⟨⟨⟨10, 20⟩, ⟨118, 58⟩⟩, ⟨⟨14, 24⟩, ⟨114, 44⟩⟩⟩ ∧
    (ui_menu_get_geom false 100 30 ⟨10, 20⟩).entries_rect.p1.y
      ≠ (ui_menu_get_geom false 100 30 ⟨10, 20⟩).outer_rect.p1.y - frame_h false ∧
    (ui_menu_get_geom false 100 30 ⟨10, 20⟩).entries_rect.p1.y
      - (ui_menu_get_geom false 100 30 ⟨10, 20⟩).entries_rect.p0.y ≠ 30 ∧
    (∀ textmode edim_x total_h spos,
      (ui_menu_get_geom textmode edim_x total_h spos).outer_rect.p0 = spos ∧
      (ui_menu_get_geom textmode edim_x total_h spos).entries_rect.p0
        = ⟨spos.x + frame_w textmode, spos.y + frame_h textmode⟩ ∧
      (ui_menu_get_geom textmode edim_x total_h spos).entries_rect.p1.x
        = (ui_menu_get_geom textmode edim_x total_h spos).outer_rect.p1.x
          - frame_w textmode ∧
      (ui_menu_get_geom textmode edim_x total_h spos).entries_rect.p1.y
        = spos.x + frame_w textmode + total_h ∧
      ((ui_menu_get_geom textmode edim_x total_h spos).entries_rect.p1.y
        = (ui_menu_get_geom textmode edim_x total_h spos).outer_rect.p1.y
          - frame_h textmode ↔
        spos.x + frame_w textmode = spos.y + frame_h textmode) ∧
      ((ui_menu_get_geom textmode edim_x total_h spos).entries_rect.p1.y
        - (ui_menu_get_geom textmode edim_x total_h spos).entries_rect.p0.y = total_h ↔
        spos.x + frame_w textmode = spos.y + frame_h textmode)) ∧
    frame_w false = 4 ∧ frame_h false = 4 ∧ frame_w true = 2 ∧ frame_h true = 1 := by
  refine ⟨by decide, by decide, by decide, ?_, by decide, by decide, by decide, by decide⟩
  intro textmode edim_x total_h spos
  simp only [ui_menu_get_geom]
  refine ⟨trivial, trivial, by ring, trivial, ?_, ?_⟩
  · constructor <;> intro h <;> linarith
  · constructor <;> intro h <;> linarith

end UiMenu

namespace NavPanel

/-! ## Sorting panel entries -/

open errno_t

/-- Swapping the arguments of `str_cmp` negates the result. -/
theorem str_cmp_swap : ∀ s t : List Nat, str_cmp t s = - str_cmp s t
  | [], [] => by simp [str_cmp]
  | [], _ :: _ => by simp [str_cmp]
  | _ :: _, [] => by simp [str_cmp]
  | c1 :: s1, c2 :: s2 => by
    have ih := str_cmp_swap s1 s2
    simp only [str_cmp]
    by_cases h1 : c1 < c2
    · have h2 : ¬ c2 < c1 := by omega
      simp [h1, h2]
    · by_cases h2 : c2 < c1
      · simp [h1, h2]
      · simp [h1, h2, ih]

/-- A string compares equal to itself. -/
theorem str_cmp_self : ∀ s : List Nat, str_cmp s s = 0
  | [] => by simp [str_cmp]
  | c :: s => by simp [str_cmp, str_cmp_self s]

/-- The order `str_cmp s t ≤ 0` is transitive. -/
theorem str_cmp_trans : ∀ s t u : List Nat,
    str_cmp s t ≤ 0 → str_cmp t u ≤ 0 → str_cmp s u ≤ 0
  | [], _, [] => by intro _ _; simp [str_cmp]
  | [], _, _ :: _ => by intro _ _; simp [str_cmp]
  | _ :: _, [], _ => by intro h; simp [str_cmp] at h
  | _ :: _, _ :: _, [] => by intro _ h; simp [str_cmp] at h
  | c1 :: s1, c2 :: s2, c3 :: s3 => by
    have ih := str_cmp_trans s1 s2 s3
    simp only [str_cmp]
    intro h12 h23
    by_cases a12 : c1 < c2
    · have : c2 < c3 ∨ c2 = c3 := by
        by_contra hc
        have : c3 < c2 := by omega
        have hn : ¬ c2 < c3 := by omega
        simp [hn, this] at h23
      have a13 : c1 < c3 := by omega
      simp [a13]
    · have e12 : c1 = c2 := by
        by_contra hc
        have : c2 < c1 := by omega
        simp [a12, this] at h12
      subst e12
      simp only [lt_irrefl, if_false] at h12
      by_cases a23 : c1 < c3
      · simp [a23]
      · have e23 : c1 = c3 := by
          by_contra hc
          have : c3 < c1 := by omega
          simp [a23, this] at h23
        subst e23
        simp only [lt_irrefl, if_false] at h23 ⊢
        exact ih h12 h23

/-- C22: after a successful `panel_sort` the entry list is a permutation of
the list before, of the same length, and every entry compares at most equal
to its successor under `panel_entry_ptr_cmp`; `panel_entry_ptr_cmp` returns 0
for an entry compared with itself and results of opposite sign for `(a, b)`
and `(b, a)`. -/
theorem panel_sort_orders_entries (enough_memory : Bool) (entries : List panel_entry_t)
    (a b : panel_entry_t) (hrc : (panel_sort enough_memory entries).1 = EOK) :
    (panel_sort enough_memory entries).2.Perm entries ∧
    (panel_sort enough_memory entries).2.length = entries.length ∧
    (∀ i e next, (panel_sort enough_memory entries).2[i]? = some e →
      (panel_sort enough_memory entries).2[i + 1]? = some next →
      panel_entry_ptr_cmp e next ≤ 0) ∧
    panel_entry_ptr_cmp a a = 0 ∧
    Int.sign (panel_entry_ptr_cmp b a) = - Int.sign (panel_entry_ptr_cmp a b) := by
  have hm : enough_memory = true := by
    cases enough_memory with
    | true => rfl
    | false => simp [panel_sort] at hrc
  subst hm
  have hsorted : (entries.insertionSort (fun a b => panel_entry_ptr_cmp a b ≤ 0)).Sorted
      (fun a b => panel_entry_ptr_cmp a b ≤ 0) :=
    @List.sorted_insertionSort _ (fun a b => panel_entry_ptr_cmp a b ≤ 0) _
      ⟨fun x y => by
        show str_cmp x.name y.name ≤ 0 ∨ str_cmp y.name x.name ≤ 0
        rw [str_cmp_swap x.name y.name]
        omega⟩
      ⟨fun x y z => str_cmp_trans x.name y.name z.name⟩ entries
  have hperm := List.perm_insertionSort (fun a b => panel_entry_ptr_cmp a b ≤ 0) entries
  simp only [panel_sort, if_true]
  refine ⟨hperm, hperm.length_eq, ?_, str_cmp_self a.name, ?_⟩
  · intro i e next h1 h2
    obtain ⟨hi1, rfl⟩ := List.getElem?_eq_some_iff.mp h1
    obtain ⟨hi2, rfl⟩ := List.getElem?_eq_some_iff.mp h2
    exact (List.pairwise_iff_getElem.mp hsorted) i (i + 1) hi1 hi2 (by omega)
  · show Int.sign (str_cmp b.name a.name) = - Int.sign (str_cmp a.name b.name)
    rw [str_cmp_swap a.name b.name, Int.sign_neg]

/-- The test `sort`: "b", "c", "a" come out as "a" (size 2), "b" (size 1),
"c" (size 3). -/
theorem panel_sort_orders_entries_witness :
    (panel_sort true sample_entries).1 = EOK ∧
    (panel_sort true sample_entries).2 = [⟨[97], 2⟩, ⟨[98], 1⟩, ⟨[99], 3⟩] ∧
    ((panel_sort true sample_entries).2.Perm sample_entries ∧
    (panel_sort true sample_entries).2.length = sample_entries.length ∧
    (∀ i e next, (panel_sort true sample_entries).2[i]? = some e →
      (panel_sort true sample_entries).2[i + 1]? = some next →
      panel_entry_ptr_cmp e next ≤ 0) ∧
    panel_entry_ptr_cmp ⟨[97], 2⟩ ⟨[97], 2⟩ = 0 ∧
    Int.sign (panel_entry_ptr_cmp ⟨[98], 1⟩ ⟨[97], 2⟩)
      = - Int.sign (panel_entry_ptr_cmp ⟨[97], 2⟩ ⟨[98], 1⟩)) :=
  ⟨by decide, by decide,
    panel_sort_orders_entries true sample_entries ⟨[97], 2⟩ ⟨[98], 1⟩ (by decide)⟩

end NavPanel

namespace Vhc

open errno_t usb_direction_t usb_transfer_type_t

/-! ## Routing by address -/

/-- C23: a plugged device `D` of the registry, at address A, holds a
SET_ADDRESS transfer for the address B ≠ A followed by the transfers `rest`,
all addressed to A; no other device has address A and none before `D` has
address B.  After the pass that executes the SET_ADDRESS transfer with `EOK`
the device has address B and still holds `rest`, none of which has the
device's address any more; further passes execute, call back and free all of
`rest` in order (the executor is chosen without a look at any address); a new
submission for A finds no device and returns `ENOENT`, leaving the registry as
it is, and a new submission for B is appended to the device's queue. -/
theorem routing_only_at_submission (vhc : vhc_data_t) (pre : List vhc_virtdev_t)
    (D : vhc_virtdev_t) (post : List vhc_virtdev_t) (tset : vhc_transfer_t)
    (rest : List vhc_transfer_t) (setup : usb_device_request_setup_packet_t)
    (ops : usbvirt_ops) (opss : List usbvirt_ops) (s_old s_new : vhc_transfer_t)
    (hsplit : vhc.devices = pre ++ D :: post)
    (hplug : D.plugged = true) (hq : D.transfer_queue = tset :: rest)
    (hset : is_set_address_transfer tset = some true)
    (hsetup : tset.setup_buffer = some setup)
    (hcb : tset.callback_out.isSome = true)
    (hrc : (processor_execute ops D tset).rc = EOK)
    (hne : (setup.value : Int) ≠ D.address)
    (hrest : ∀ t ∈ rest, t.address = D.address)
    (hall : List.Forall₂
      (fun ops t => transfer_attached t = true ∧ (processor_execute ops D t).rc ≠ ENAK)
      opss rest)
    (hpre : ∀ x ∈ pre, x.address ≠ D.address ∧ x.address ≠ (setup.value : Int))
    (hpost : ∀ x ∈ post, x.address ≠ D.address)
    (hold : s_old.address = D.address) (hnew : s_new.address = (setup.value : Int)) :
    ∃ D1 vhc1 tr, processor_pass_at ops [] vhc pre.length = some (vhc1, tr) ∧
      vhc1.devices = pre ++ D1 :: post ∧
      D1.address = (setup.value : Int) ∧ D1.transfer_queue = rest ∧
      (∀ t ∈ rest, t.address ≠ D1.address) ∧
      (∀ a t, processor_execute ops { D1 with address := a } t = processor_execute ops D1 t) ∧
      (∃ run, processor_loop (opss.map quiet_env) D1 = some run ∧
        run.dev.transfer_queue = [] ∧
        run.trace.filterMap Event.freed = rest ∧
        (run.trace.filter Event.is_callback).map some =
          List.zipWith (fun ops t => completion_callback t (processor_execute ops D t).rc
            (processor_execute ops D t).actual_size) opss rest ∧
        run.trace.filter Event.is_executor =
          (List.zipWith (fun ops t =>
            (processor_execute ops D t).trace.filter Event.is_executor) opss rest).flatten) ∧
      (vhc_virtdev_add_transfer vhc1 s_old).rc = ENOENT ∧
      (vhc_virtdev_add_transfer vhc1 s_old).vhc = vhc1 ∧
      (vhc_virtdev_add_transfer vhc1 s_new).rc = EOK ∧
      (vhc_virtdev_add_transfer vhc1 s_new).vhc.devices =
        pre ++ { D1 with transfer_queue := rest ++ [s_new] } :: post := by
  obtain ⟨hdir, setup2, hsetup2⟩ := is_set_address_transfer_true tset hset
  have hatt : transfer_attached tset = true := by
    simp [transfer_attached, hsetup, hdir, hcb]
  obtain ⟨dev2, cb, hdev2, -, hpass⟩ := processor_pass_completes ops [] D tset rest hq hatt
    (by rw [hrc]; decide)
  have hframe := processor_set_address_frame _ dev2 tset _ hdev2
  have haddr : dev2.address = (setup.value : Int) := by
    simp only [processor_set_address, hrc, if_true, hset, hsetup, Option.some.injEq] at hdev2
    rw [← hdev2]
  have hqueue : dev2.transfer_queue = rest := by
    rw [hframe.1]
    simp
  obtain ⟨run, hrun, -, hrq, hfreed, hcbs, hexs⟩ := processor_loop_fifo D opss rest hall dev2
    (by rw [hframe.2.2.1]; exact hplug) hqueue hframe.2.2.2.1 hframe.2.2.2.2
  have hget : vhc.devices[pre.length]? = some D := by
    rw [hsplit, List.getElem?_append_right (le_refl _)]
    simp
  have hsetdev : vhc.devices.set pre.length dev2 = pre ++ dev2 :: post := by
    rw [hsplit]
    simp
  have hnone : ∀ d ∈ pre ++ dev2 :: post, d.address ≠ s_old.address := by
    intro d hd
    rw [hold]
    rcases List.mem_append.mp hd with h | h
    · exact (hpre d h).1
    · rcases List.mem_cons.mp h with h | h
      · rw [h, haddr]
        exact hne
      · exact hpost d h
  have hloopnone := add_transfer_loop_no_match s_old (pre ++ dev2 :: post) false hnone
  have hfirst := add_transfer_first_match { vhc with devices := pre ++ dev2 :: post } s_new
    pre dev2 post rfl (fun x hx => by rw [hnew]; exact (hpre x hx).2) (by rw [haddr, hnew])
  obtain ⟨tr, htr⟩ : ∃ tr, processor_pass_at ops [] vhc pre.length =
      some ({ vhc with devices := pre ++ dev2 :: post }, tr) :=
    ⟨_, by simp only [processor_pass_at, hget, hpass, hsetdev]; rfl⟩
  refine ⟨dev2, { vhc with devices := pre ++ dev2 :: post }, tr, htr, rfl, haddr, hqueue, ?_, ?_,
    ⟨run, hrun, hrq, hfreed, hcbs, hexs⟩, ?_, ?_, hfirst.1, ?_⟩
  · intro t ht
    rw [hrest t ht, haddr]
    exact fun h => hne h.symm
  · intro a t
    exact processor_execute_congr ops dev2 _ t rfl rfl
  · exact (add_transfer_rc_enoent_iff _ s_old).mpr hnone
  · simp [vhc_virtdev_add_transfer, hloopnone.1]
  · rw [hfirst.2, hqueue]

/-- C23 at the registry of a device at address 6 and the sample device, which
holds the SET_ADDRESS transfer for address 9 followed by the two sample
transfers for address 5; the executor answers `EOK`, then `EOK` with 7 bytes,
then `ESTALL`. -/
theorem routing_only_at_submission_witness :
    ∃ D1 vhc1 tr,
      processor_pass_at (const_ops EOK 0) [] ⟨0, [sample_device6, sample_readdressed_device]⟩
        [sample_device6].length = some (vhc1, tr) ∧
      vhc1.devices = [sample_device6] ++ D1 :: [] ∧
      D1.address = 9 ∧ D1.transfer_queue = [sample_transfer, sample_transfer2] ∧
      (∃ run, processor_loop ([const_ops EOK 7, const_ops ESTALL 0].map quiet_env) D1
          = some run ∧
        run.dev.transfer_queue = [] ∧
        run.trace.filterMap Event.freed = [sample_transfer, sample_transfer2]) ∧
      (vhc_virtdev_add_transfer vhc1 sample_transfer).rc = ENOENT ∧
      (vhc_virtdev_add_transfer vhc1 sample_transfer9).rc = EOK ∧
      (vhc_virtdev_add_transfer vhc1 sample_transfer9).vhc.devices =
        [sample_device6] ++
          { D1 with
            transfer_queue := [sample_transfer, sample_transfer2] ++ [sample_transfer9] }
          :: [] := by
  obtain ⟨D1, vhc1, tr, h1, h2, h3, h4, -, -, ⟨run, h5, h6, h7, -, -⟩, h8, -, h9, h10⟩ :=
    routing_only_at_submission ⟨0, [sample_device6, sample_readdressed_device]⟩
      [sample_device6] sample_readdressed_device [] sample_set_address
      [sample_transfer, sample_transfer2] ⟨0, USB_DEVREQ_SET_ADDRESS, 9, 0, 0⟩
      (const_ops EOK 0) [const_ops EOK 7, const_ops ESTALL 0] sample_transfer sample_transfer9
      rfl rfl rfl (by decide) rfl (by decide) (by decide) (by decide) (by decide)
      (List.Forall₂.cons ⟨by decide, by decide⟩
        (List.Forall₂.cons ⟨by decide, by decide⟩ List.Forall₂.nil))
      (by decide) (by decide) rfl rfl
  exact ⟨D1, vhc1, tr, h1, h2, h3, h4, ⟨run, h5, h6, h7⟩, h8, h9, h10⟩

end Vhc
